import Mathlib

/-!
# DChat-Core: the peer-session engine of `src/src/dchat.c`

A shallow embedding of the handlers of `dchat.c` (`handle_local_input`,
`handle_remote_input`, `handle_local_conn_request`,
`handle_remote_conn_request`, one iteration of `th_main_loop`) together with
the properties of the contact list that the specification states about them.

Conventions of the embedding.

* A C string is the list of its characters before the terminating NUL, so
  `strcmp(a, b) != 0` is `a ≠ b`, `a[0] == 0` is `a = []`, and
  `dst[0] = 0; strncat(dst, src, n)` is `src.take n`.
* The contact list `cnf->cl` is the list of its `cl_size` slots; a slot whose
  `fd` is `0` is free, as in the loops of `dchat.c` that test
  `cnf->cl.contact[i].fd`.
* Every call that talks to the outside (select, read, accept, read_pdu,
  write_pdu, ...) takes its result as an argument of the embedded function and
  leaves an `io_event` in the trace of the state.
* Logging (`log_msg`, `log_errno`) is not observable in the model, `malloc`
  is taken to succeed, and `free`/`free_pdu` have no effect on the model.
-/

namespace DChat

/-! ## Data model -/

/-- A C string without its terminating NUL. -/
abbrev cstr := List Char

/-- Modelled from the spec: the sizes `ONION_ADDRLEN` and `MAX_NICKNAME` are
declared in `dchat_h/types.h`, which is not among the sources, and the bound on
the number of contacts lives in the absent `contact.c`. They are parameters of
the development, no value is assumed for them. -/
structure limits where
  ONION_ADDRLEN : Nat
  MAX_NICKNAME : Nat
  MAX_CONTACTS : Nat
deriving DecidableEq, Repr

/-- Modelled from the spec: the content types of a PDU (`CT_TXT_PLAIN`,
`CT_CTRL_DISC` of the absent `dchat_h/types.h`); the spec calls the type an
extensible enum, every further value is `CT_OTHER`. -/
inductive content_type_t where
  | CT_TXT_PLAIN
  | CT_CTRL_DISC
  | CT_OTHER (code : Nat)
deriving DecidableEq, Repr

open content_type_t

/-- Modelled from the spec: `dchat_pdu_t` of the absent `dchat_h/types.h`, with
the fields that `dchat.c` reads: the content type, the sender's onion id,
listening port and nickname, and the body with its length. -/
structure dchat_pdu_t where
  content_type : content_type_t
  onion_id : cstr
  lport : Nat
  nickname : cstr
  content_length : Nat
  content : List Char
deriving DecidableEq, Repr

/-- Modelled from the spec: `contact_t` of the absent `dchat_h/types.h`, with the
fields that `dchat.c` reads and writes. `fd = 0` marks a free slot. -/
structure contact_t where
  fd : Int
  name : cstr
  onion_id : cstr
  lport : Nat
  accepted : Int
deriving DecidableEq, Repr

/-- The all-zero contact, the content of a slot after `memset(.., 0, ..)`. -/
def empty_contact : contact_t :=
  { fd := 0, name := [], onion_id := [], lport := 0, accepted := 0 }

/-- Modelled from the spec: `dchat_conf_t` of the absent `dchat_h/types.h`,
restricted to what the handlers of `dchat.c` use: the contact list
`cl.contact[0 .. cl_size)`, the local identity `me`, the output descriptor, the
listening socket and the read ends of the `user_input` and `cl_change` pipes. -/
structure dchat_conf_t where
  cl : List contact_t
  me : contact_t
  out_fd : Int
  acpt_fd : Int
  user_input_rd : Int
  cl_change_rd : Int
deriving DecidableEq, Repr

/-- What the engine does to the outside world, in program order. -/
inductive io_event where
  | ev_close (fd : Int)
  | ev_write_pdu (fd : Int) (pdu : dchat_pdu_t)
  | ev_print_dchat_msg (nickname : cstr) (msg : cstr) (out_fd : Int)
  | ev_send_contacts (n : Nat)
  | ev_receive_contacts (pdu : dchat_pdu_t)
  | ev_mutex_lock
  | ev_mutex_unlock
  | ev_write_cl_change (c : Char)
  | ev_destroy
deriving DecidableEq, Repr

open io_event

/-- The global configuration together with the trace of effects so far. -/
structure sys_state where
  cnf : dchat_conf_t
  trace : List io_event
deriving DecidableEq, Repr

/-- The expression `cnf->cl.contact[n]` read as a value. -/
def contact_at (s : sys_state) (n : Nat) : contact_t :=
  s.cnf.cl.getD n empty_contact

/-- An assignment to fields of `cnf->cl.contact[n]`. -/
def set_contact (s : sys_state) (n : Nat) (c : contact_t) : sys_state :=
  { s with cnf := { s.cnf with cl := s.cnf.cl.set n c } }

/-- One effect appended to the trace. -/
def emit (s : sys_state) (e : io_event) : sys_state :=
  { s with trace := s.trace ++ [e] }

/-- The slot is occupied: the test `cnf->cl.contact[i].fd` of `dchat.c`. -/
def in_use (c : contact_t) : Prop := c.fd ≠ 0

instance (c : contact_t) : Decidable (in_use c) :=
  inferInstanceAs (Decidable (c.fd ≠ 0))

/-- The first-PDU gate of `handle_remote_input` (dchat.c 573-574) is still
closed for the contact: one of onion id, listening port, nickname is unset. -/
def unidentified (c : contact_t) : Prop :=
  c.onion_id = [] ∨ c.lport = 0 ∨ c.name = []

instance (c : contact_t) : Decidable (unidentified c) :=
  inferInstanceAs (Decidable (c.onion_id = [] ∨ c.lport = 0 ∨ c.name = []))

/-- The contact has passed the first-PDU gate. -/
def identified (c : contact_t) : Prop := ¬ unidentified c

instance (c : contact_t) : Decidable (identified c) :=
  inferInstanceAs (Decidable (¬ unidentified c))

/-- Two contacts carry the same identity (onion id, listening port). -/
def same_identity (a b : contact_t) : Prop :=
  a.onion_id = b.onion_id ∧ a.lport = b.lport

instance (a b : contact_t) : Decidable (same_identity a b) :=
  inferInstanceAs (Decidable (a.onion_id = b.onion_id ∧ a.lport = b.lport))

/-! ## The contact list (`contact.c`, modelled from the spec) -/

/-- The lowest free slot of a contact list, if there is one. -/
def find_free : List contact_t → Option Nat
  | [] => none
  | c :: cs => if c.fd = 0 then some 0 else (find_free cs).map (· + 1)

/-- Modelled from the spec: `add_contact` of the absent `contact.c`. Spec 4.2:
"add(stream) → index | Full: inserts with empty identity, returns its index".
The new contact takes the lowest free slot, or a new slot at the end while the
list has fewer than `MAX_CONTACTS` slots; otherwise the list is full and the
result is `-1`. -/
def add_contact (L : limits) (s : sys_state) (fd : Int) : sys_state × Int :=
  match find_free s.cnf.cl with
  | some n => (set_contact s n { empty_contact with fd := fd }, (n : Int))
  | none =>
    if s.cnf.cl.length < L.MAX_CONTACTS then
      ({ s with cnf := { s.cnf with cl := s.cnf.cl ++ [{ empty_contact with fd := fd }] } },
        (s.cnf.cl.length : Int))
    else (s, -1)

/-- Modelled from the spec: `del_contact` of the absent `contact.c`. Spec 4.2:
"del(index): closes stream if open, removes entry"; spec 8: "Deleting an
already-absent index is a no-op error". The entry is removed by zeroing its
slot, no index shifts: this is the discipline that `dchat.c` observes, whose
loops skip slots with `fd == 0` and keep counting positions after a deletion. -/
def del_contact (s : sys_state) (n : Int) : sys_state × Int :=
  if n < 0 ∨ (s.cnf.cl.length : Int) ≤ n then (s, -1)
  else if (contact_at s n.toNat).fd = 0 then (s, -1)
  else (set_contact (emit s (ev_close (contact_at s n.toNat).fd)) n.toNat empty_contact, 0)

/-- The lowest index `j ≠ n`, counted from `base`, of an occupied slot with the
identity of `c`. -/
def find_other (c : contact_t) (n : Nat) : Nat → List contact_t → Option Nat
  | _, [] => none
  | base, d :: ds =>
    if base ≠ n ∧ d.fd ≠ 0 ∧ d.onion_id = c.onion_id ∧ d.lport = c.lport then some base
    else find_other c n (base + 1) ds

/-- Modelled from the spec: `check_duplicates` of the absent `contact.c`. Spec
4.2: "check_duplicates(index) → other_index | Absent: given a freshly
identified contact at index, scans for another entry with the same identity".
The scan runs over the occupied slots in index order and reports the first
other entry that carries the identity of `contact[n]`, `-1` when there is
none. The spec adds "prefer the older (smaller-index) entry; delete the
newer"; the caller deletes exactly the index that is reported (dchat.c 654),
and a function that reports another index cannot name `n` itself, so the
signature of the spec is what the model follows. -/
def check_duplicates (s : sys_state) (n : Nat) : Int :=
  match find_other (contact_at s n) n 0 s.cnf.cl with
  | some j => (j : Int)
  | none => -1

/-- Modelled from the spec: `receive_contacts` of the absent `contact.c`. Spec
4.7: for each entry of a Control/Discover body, "if an identified contact with
that identity already exists, ignore; otherwise, enqueue a dial request to the
dialer". The contact list itself is not touched; the call is recorded in the
trace. -/
def receive_contacts (s : sys_state) (pdu : dchat_pdu_t) : sys_state :=
  emit s (ev_receive_contacts pdu)

/-- Modelled from the spec: `send_contacts` of the absent `contact.c`. Spec
4.7: "on each new session a Control/Discover PDU is sent whose body enumerates
the local contact set". The contact list is not touched; the call is recorded
in the trace. -/
def send_contacts (s : sys_state) (n : Nat) : sys_state :=
  emit s (ev_send_contacts n)

/-! ## The handlers of `dchat.c` -/

/-- What `read_pdu(contact->fd, &pdu)` hands back: the length read (`-1` on
error, `0` on EOF) and the PDU it filled in. -/
structure read_result where
  len : Int
  pdu : dchat_pdu_t
deriving DecidableEq, Repr

/-- The bytes of a buffer up to its first NUL: the buffer read as a C string. -/
def c_string (buf : List Char) : cstr :=
  buf.takeWhile (fun ch => ch ≠ Char.ofNat 0)

/-- The function `handle_remote_input(cnf, n)` of dchat.c 546-674, given the
result `rd` of its `read_pdu` call. The early returns of the C function are the
first five branches. -/
def handle_remote_input (L : limits) (s : sys_state) (n : Nat) (rd : read_result) :
    sys_state × Int :=
  let contact := contact_at s n
  let pdu := rd.pdu
  -- 557-567: read error, EOF
  if rd.len = -1 then (s, -1)
  else if rd.len = 0 then (s, 0)
  -- 573-579: the first PDU has to be a control/discover
  else if unidentified contact ∧ pdu.content_type ≠ CT_CTRL_DISC then (s, -1)
  -- 589-596: changed Onion-ID
  else if pdu.content_type = CT_CTRL_DISC ∧ contact.onion_id ≠ [] ∧
      contact.onion_id ≠ pdu.onion_id then
    ((del_contact s n).1, -1)
  -- 598-604: changed Listening-Port
  else if pdu.content_type = CT_CTRL_DISC ∧ contact.lport ≠ 0 ∧
      contact.lport ≠ pdu.lport then
    ((del_contact s n).1, -1)
  else
    -- 606-623: set nickname, onion id and listening port of the contact
    let s1 :=
      if pdu.content_type = CT_CTRL_DISC then
        set_contact s n
          { contact with
            name := pdu.nickname.take L.MAX_NICKNAME
            onion_id := pdu.onion_id.take L.ONION_ADDRLEN
            lport := pdu.lport }
      else s
    let s2 :=
      -- 629-643: text/plain
      if pdu.content_type = CT_TXT_PLAIN then
        emit s1 (ev_print_dchat_msg pdu.nickname
          (c_string (pdu.content.take pdu.content_length)) s1.cnf.out_fd)
      -- 647-663: control/discover
      else if pdu.content_type = CT_CTRL_DISC then
        let ret := check_duplicates s1 n
        let s1 := if ret ≠ -1 then (del_contact s1 ret).1 else s1
        receive_contacts s1 pdu
      -- 667-670: unknown content type
      else s1
    (s2, rd.len)

/-- The function `handle_local_conn_request(cnf, onion_id, port)` of dchat.c
688-720, given the result `sock` of `create_tor_socket`. -/
def handle_local_conn_request (L : limits) (s : sys_state) (onion_id : cstr) (port : Nat)
    (sock : Int) : sys_state × Int :=
  if sock = -1 then (s, -1)
  else
    let r := add_contact L s sock
    if r.2 = -1 then (r.1, -1)
    else
      let n := r.2.toNat
      let s1 := set_contact r.1 n
        { contact_at r.1 n with onion_id := onion_id.take L.ONION_ADDRLEN, lport := port }
      (send_contacts s1 n, r.2)

/-- The function `handle_remote_conn_request(cnf)` of dchat.c 733-760, given the
result `sock` of `accept`. -/
def handle_remote_conn_request (L : limits) (s : sys_state) (sock : Int) : sys_state × Int :=
  if sock = -1 then (s, -1)
  else
    let r := add_contact L s sock
    if r.2 ≠ -1 then
      let n := r.2.toNat
      let s1 := set_contact r.1 n { contact_at r.1 n with accepted := 1 }
      (send_contacts s1 n, r.2)
    else (r.1, -1)

/-- The outside results that one call of `handle_local_input` consumes: the
return value of `parse_cmd`, the indeterminate initial value of the local
variable `len` (dchat.c 494 declares it without initialiser), the return value
of `init_dchat_pdu`, and the return value of `write_pdu` for `contact[i]`. -/
structure local_input_env where
  parse_ret : Int
  len0 : Int
  init_ret : Int
  write_ret : Nat → Int

/-- Modelled from the spec: `init_dchat_pdu` followed by
`init_dchat_pdu_content` of the absent `decoder.c`: a PDU of the given content
type whose sender fields are the given onion id, port and nickname (spec 3,
"PDU") and whose body is the `len` first bytes of `content`. -/
def init_dchat_pdu (ct : content_type_t) (onion_id : cstr) (lport : Nat) (nickname : cstr)
    (content : List Char) (len : Nat) : dchat_pdu_t :=
  { content_type := ct, onion_id := onion_id, lport := lport, nickname := nickname,
    content_length := len, content := content.take len }

/-- The loop of dchat.c 521-527 from position `i` on: `msg` is written to every
slot with `fd != 0`, `ret` keeps the result of the last `write_pdu`. -/
def write_loop (msg : dchat_pdu_t) (write_ret : Nat → Int) :
    Nat → List contact_t → sys_state × Int → sys_state × Int
  | _, [], acc => acc
  | i, c :: cs, acc =>
    if c.fd ≠ 0 then
      write_loop msg write_ret (i + 1) cs (emit acc.1 (ev_write_pdu c.fd msg), write_ret i)
    else write_loop msg write_ret (i + 1) cs acc

/-- The function `handle_local_input(cnf, line)` of dchat.c 490-535. The effects
of `parse_cmd` itself (the command interpreter is an external collaborator) are
outside the model. -/
def handle_local_input (s : sys_state) (line : cstr) (e : local_input_env) : sys_state × Int :=
  if e.parse_ret = 0 ∨ e.parse_ret = 1 then (s, 0)
  else
    let len : Int := e.len0 + (line.length : Int)
    if len ≠ 0 then
      if e.init_ret = -1 then (s, -1)
      else
        let msg := init_dchat_pdu CT_TXT_PLAIN s.cnf.me.onion_id s.cnf.me.lport s.cnf.me.name
          line line.length
        let r := write_loop msg e.write_ret 0 s.cnf.cl (s, 0)
        (r.1, if r.2 ≠ -1 then 0 else -1)
    else (s, 0)

/-! ## One iteration of `th_main_loop` -/

/-- Whether the `for (;;)` of `th_main_loop` goes on to its next iteration or
is left through a `break`. -/
inductive loop_ctl where
  | next
  | leave
deriving DecidableEq, Repr

open loop_ctl

/-- The outside results that one iteration of `th_main_loop` consumes: what
`select` left in `nfds` and `rset`; for the `user_input` pipe the return
values of the two `read`s, the length stored into `ret` and the bytes stored
into `line`; the environment of `handle_local_input`; the result of `accept`;
the return value of the `read` on `cl_change`; and the result of `read_pdu`
on `contact[i]`. -/
structure loop_env where
  sel_nfds : Int
  rset : Int → Bool
  ui_len_read : Int
  ui_len : Int
  ui_line_read : Int
  ui_bytes : List Char
  li : local_input_env
  accept_ret : Int
  chg_read : Int
  pdus : Nat → read_result

/-- The block CHECK STDIN of dchat.c 1029-1060. The result carries the state,
the updated `nfds` and whether a `break` was taken. -/
def check_stdin (s : sys_state) (e : loop_env) (nfds : Int) : sys_state × Int × loop_ctl :=
  if e.rset s.cnf.user_input_rd then
    if e.ui_len_read < 0 then (s, nfds - 1, leave)
    else if e.ui_line_read < 0 ∨ e.ui_len ≤ 0 then (s, nfds - 1, leave)
    else
      let line := c_string (e.ui_bytes.take e.ui_len.toNat)
      let r := handle_local_input (emit s ev_mutex_lock) line e.li
      if r.2 = -1 then (r.1, nfds - 1, leave)
      else (emit r.1 ev_mutex_unlock, nfds - 1, next)
  else (s, nfds, next)

/-- The block CHECK LISTENING PORT of dchat.c 1064-1076. -/
def check_listening (L : limits) (s : sys_state) (e : loop_env) (nfds : Int) :
    sys_state × Int × loop_ctl :=
  if e.rset s.cnf.acpt_fd then
    let r := handle_remote_conn_request L (emit s ev_mutex_lock) e.accept_ret
    if r.2 = -1 then (r.1, nfds - 1, leave)
    else (emit r.1 ev_mutex_unlock, nfds - 1, next)
  else (s, nfds, next)

/-- The block CHECK NEW CONN of dchat.c 1079-1088. -/
def check_new_conn (s : sys_state) (e : loop_env) (nfds : Int) : sys_state × Int × loop_ctl :=
  if e.rset s.cnf.cl_change_rd then
    if e.chg_read < 0 then (s, nfds - 1, leave) else (s, nfds - 1, next)
  else (s, nfds, next)

/-- The body of the loop of dchat.c 1094-1108 for position `i`: when the
descriptor of `contact[i]` is set in `rset`, its input is handled, and on
`-1` or `0` the descriptor is closed and the contact deleted. -/
def contact_step (L : limits) (e : loop_env) (i : Nat) (s : sys_state) (nfds : Int) :
    sys_state × Int :=
  if e.rset (contact_at s i).fd then
    let r := handle_remote_input L s i (e.pdus i)
    if r.2 = -1 ∨ r.2 = 0 then
      ((del_contact (emit r.1 (ev_close (contact_at r.1 i).fd)) i).1, nfds - 1)
    else (r.1, nfds - 1)
  else (s, nfds)

/-- The loop `for (i = 0; nfds && i < cnf->cl.cl_size; i++)` of dchat.c
1094-1108 from position `i` on, with `fuel` bounding the number of rounds
(`cl_size - i` rounds always suffice, the list never grows inside the loop). -/
def contact_loop (L : limits) (e : loop_env) : Nat → Nat → sys_state → Int → sys_state
  | 0, _, s, _ => s
  | fuel + 1, i, s, nfds =>
    if nfds ≠ 0 ∧ i < s.cnf.cl.length then
      let r := contact_step L e i s nfds
      contact_loop L e fuel (i + 1) r.1 r.2
    else s

/-- The block CHECK CONTACTS of dchat.c 1092-1110. -/
def check_contacts (L : limits) (s : sys_state) (e : loop_env) (nfds : Int) : sys_state :=
  emit (contact_loop L e s.cnf.cl.length 0 (emit s ev_mutex_lock) nfds) ev_mutex_unlock

/-- One iteration of the `for (;;)` of `th_main_loop` (dchat.c 978-1111), given
the outside results `e`. Building the wait set (980-1006) changes nothing but
takes and releases the mutex. -/
def th_main_loop_iter (L : limits) (s : sys_state) (e : loop_env) : sys_state × loop_ctl :=
  let s0 := emit (emit s ev_mutex_lock) ev_mutex_unlock
  let r1 := check_stdin s0 e e.sel_nfds
  if r1.2.2 = leave then (r1.1, leave)
  else
    let r2 := check_listening L r1.1 e r1.2.1
    if r2.2.2 = leave then (r2.1, leave)
    else
      let r3 := check_new_conn r2.1 e r2.2.1
      if r3.2.2 = leave then (r3.1, leave)
      else (check_contacts L r3.1 e r3.2.1, next)

/-- The state that `handle_remote_input` reaches when it accepts a
Control/Discover PDU for slot `n` (dchat.c 606-623 and 647-663). -/
def after_discover (L : limits) (s : sys_state) (n : Nat) (pdu : dchat_pdu_t) : sys_state :=
  let s1 := set_contact s n
    { contact_at s n with
      name := pdu.nickname.take L.MAX_NICKNAME
      onion_id := pdu.onion_id.take L.ONION_ADDRLEN
      lport := pdu.lport }
  receive_contacts
    (if check_duplicates s1 n ≠ -1 then (del_contact s1 (check_duplicates s1 n)).1 else s1) pdu

/-- The highest position, counted from `i`, of an occupied slot: the slot that
receives the last `write_pdu` of the loop of dchat.c 521-527. -/
def last_in_use : Nat → List contact_t → Option Nat
  | _, [] => none
  | i, c :: cs =>
    match last_in_use (i + 1) cs with
    | some j => some j
    | none => if c.fd ≠ 0 then some i else none

/-- The writes of one broadcast of `msg`: one `write_pdu` per occupied slot, in
list order. -/
def broadcast_events (msg : dchat_pdu_t) (cl : List contact_t) : List io_event :=
  (cl.filter (fun c => decide (c.fd ≠ 0))).map (fun c => ev_write_pdu c.fd msg)

/-! ## The input shuttle `th_new_input` and the `user_input` pipe -/

/-- The size of an `int` in bytes; the development takes the usual 4. -/
def SIZEOF_INT : Nat := 4

/-- The value that a `size_t` has after its assignment to an `int` of 32 bits:
its residue modulo `2^32` in the signed range. -/
def to_int (n : Nat) : Int :=
  if n % 4294967296 < 2147483648 then ((n % 4294967296 : Nat) : Int)
  else ((n % 4294967296 : Nat) : Int) - 4294967296

/-- The bytes of an `int` in memory, least significant byte first (the host
order of a little-endian machine; reader and writer of the pipe run on the same
host, so the theorems do not depend on the choice). -/
def int_bytes (n : Int) : List Nat :=
  let u := (n % 4294967296).toNat
  [u % 256, u / 256 % 256, u / 65536 % 256, u / 16777216 % 256]

/-- The `int` that four bytes in memory stand for. -/
def bytes_int : List Nat → Int
  | [b0, b1, b2, b3] =>
    let u := b0 + 256 * b1 + 65536 * b2 + 16777216 * b3
    if u < 2147483648 then (u : Int) else (u : Int) - 4294967296
  | _ => 0

/-- The bytes of a C string. -/
def line_bytes (line : cstr) : List Nat := line.map Char.toNat

/-- The literal line that ends the shuttle. -/
def exit_cmd : cstr := ['/', 'e', 'x', 'i', 't']

/-- The function `th_new_input(cnf)` of dchat.c 860-922 from the top of its
`while (1)`. `lines` are the lines that `readline` returns one after the other,
the end of the list being the `NULL` of EOF; `pipe` is what has been written to
`cnf->user_input[1]` so far; `write_ret k` is the return value of the `k`-th
`write` (a `write` that does not fail is taken to write all its bytes). The
result is the content of the pipe and the return value. -/
def th_new_input (write_ret : Nat → Int) : List cstr → List Nat → Nat → List Nat × Int
  | [], pipe, _ => (pipe, 0)
  | line :: rest, pipe, k =>
    if line = exit_cmd then (pipe, 0)
    else
      let len := to_int line.length
      if len = 0 then
        -- 888-901: len = 1, the line is "\n"
        if write_ret k = -1 then (pipe, -1)
        else if write_ret (k + 1) = -1 then (pipe ++ int_bytes 1, -1)
        else th_new_input write_ret rest (pipe ++ int_bytes 1 ++ [10]) (k + 2)
      else
        -- 902-915
        if write_ret k = -1 then (pipe, -1)
        else if write_ret (k + 1) = -1 then (pipe ++ int_bytes len, -1)
        else
          th_new_input write_ret rest
            (pipe ++ int_bytes len ++ line_bytes (line.take len.toNat)) (k + 2)

/-- The record that the shuttle writes for one line: the length as an `int`,
then the bytes; an empty line goes out as length 1 and a line feed. -/
def frame (line : cstr) : List Nat :=
  if line = [] then int_bytes 1 ++ [10]
  else int_bytes (line.length : Int) ++ line_bytes line

/-- What the multiplexer is to see for a line: the line itself, and the
one-character string of a line feed for an empty line. -/
def shown (line : cstr) : cstr :=
  if line = [] then [Char.ofNat 10] else line

/-- What the outside decides for one round of the block CHECK STDIN
(dchat.c 1029-1060). `first` and `second` stand for the `read` of 1034 and of
1043: `none` when the call fails with `-1`, else the most bytes that the call
is handed. A `read(2)` on a pipe is one transfer: it returns what the pipe
holds at that moment, at most the count it was asked for, and a pipe never
holds more than its capacity; the program issues one `read` per field and
tests the result for `< 0` only. `stale` is the value that `ret` has before
the first `read` (left there by the round before), and `junk i` is the byte at
offset `i` of the block that `malloc` returns for `line`. -/
structure round_env where
  first : Option Nat
  second : Option Nat
  stale : Int
  junk : Nat → Char

/-- One call `read(fd, buf, count)` on a pipe with content `pipe` that is
handed at most `avail` bytes: the bytes stored into `buf`, and what stays in
the pipe. -/
def read_pipe (avail count : Nat) (pipe : List Nat) : List Nat × List Nat :=
  (pipe.take (min count avail), pipe.drop (min count avail))

/-- The two `read`s of dchat.c 1034 and 1043: the return value of the first,
the value of `ret` after it, the return value of the second, the content of
the buffer `line` after it, and what stays in the pipe. -/
structure stdin_reads where
  len_read : Int
  len : Int
  line_read : Int
  bytes : List Char
  rest : List Nat
deriving DecidableEq, Repr

/-- The reads of one round of the multiplexer on a pipe with content `pipe`.
The bytes that the first `read` gets overwrite the first bytes of `ret` and
the others keep what they held; the second `read` asks for `ret` bytes (for a
`ret` that is not positive the round is left right after it), and the bytes of
`line` that it does not fill keep what `malloc` left there. When the first
`read` fails the second is not reached. -/
def pipe_reads (v : round_env) (pipe : List Nat) : stdin_reads :=
  match v.first with
  | none => { len_read := -1, len := v.stale, line_read := 0, bytes := [], rest := pipe }
  | some n1 =>
    let r1 := read_pipe n1 SIZEOF_INT pipe
    let ret := bytes_int (r1.1 ++ (int_bytes v.stale).drop r1.1.length)
    match v.second with
    | none => { len_read := r1.1.length, len := ret, line_read := -1, bytes := [], rest := r1.2 }
    | some n2 =>
      let r2 := read_pipe n2 ret.toNat r1.2
      { len_read := r1.1.length, len := ret, line_read := r2.1.length,
        bytes := r2.1.map Char.ofNat ++
          (List.range (ret.toNat - r2.1.length)).map (fun i => v.junk (r2.1.length + i)),
        rest := r2.2 }

/-- The string that the block CHECK STDIN hands to `handle_local_input`, `none`
when it takes a `break` before (dchat.c 1034-1049). -/
def stdin_line (len_read len line_read : Int) (bytes : List Char) : Option cstr :=
  if len_read < 0 then none
  else if line_read < 0 ∨ len ≤ 0 then none
  else some (c_string (bytes.take len.toNat))

/-- The strings that successive rounds of `th_main_loop` decode from a pipe
with content `pipe`, round `k` being the first, as long as there is something
to read (`select` reports the pipe) and no `break` is taken; `env` gives what
the outside decides for each round and `fuel` bounds the number of rounds. -/
def user_input_lines (env : Nat → round_env) : Nat → Nat → List Nat → List cstr
  | 0, _, _ => []
  | fuel + 1, k, pipe =>
    if pipe = [] then []
    else
      let r := pipe_reads (env k) pipe
      match stdin_line r.len_read r.len r.line_read r.bytes with
      | none => []
      | some line => line :: user_input_lines env fuel (k + 1) r.rest

/-- Both `read`s of the round succeed and are handed whole what they ask for,
for a record whose line has `n` bytes. -/
def reads_whole (v : round_env) (n : Nat) : Prop :=
  ∃ n1 n2, v.first = some n1 ∧ v.second = some n2 ∧ SIZEOF_INT ≤ n1 ∧ n ≤ n2

/-- The capacity of a pipe on Linux, 16 pages of 4096 bytes. -/
def PIPE_CAPACITY : Nat := 65536

/-- A round in which no `read` fails and each is handed as much as a full pipe
holds; `ret` was 0 before and the block of `malloc` is zeroed. -/
def ex_round : round_env :=
  { first := some PIPE_CAPACITY, second := some PIPE_CAPACITY, stale := 0,
    junk := fun _ => Char.ofNat 0 }

/-- A line of 65537 letters `a`: one byte more than a pipe holds. -/
def ex_long_line : cstr := List.replicate (PIPE_CAPACITY + 1) 'a'

/-- The exit statuses of `stdlib.h`. -/
def EXIT_SUCCESS : Int := 0

/-- The failure status of `stdlib.h`. -/
def EXIT_FAILURE : Int := 1

/-- The end of `main` (dchat.c 240-244): the shuttle runs, `destroy` is called,
and the exit status is chosen from the return value of the shuttle. The result
is the content of the pipe, the state and the exit status. -/
def main_shuttle (write_ret : Nat → Int) (lines : List cstr) (s : sys_state) :
    List Nat × sys_state × Int :=
  let r := th_new_input write_ret lines [] 0
  (r.1, emit s ev_destroy, if r.2 = 0 then EXIT_SUCCESS else EXIT_FAILURE)

/-! ## Reachable states -/

/-- Modelled from the spec: what the absent `read_pdu` (decoder.c) validates
before it reports success. Spec 4.1: it "validates presence and formats of
required fields"; spec 6: an onion id has length `ONION_ADDRLEN`, a nickname
has a length in `[1, MAX_NICKNAME]`, a port is an unsigned 16-bit number other
than zero. -/
def pdu_valid (L : limits) (pdu : dchat_pdu_t) : Prop :=
  pdu.onion_id.length = L.ONION_ADDRLEN ∧
  (pdu.lport ≠ 0 ∧ pdu.lport < 65536) ∧
  (1 ≤ pdu.nickname.length ∧ pdu.nickname.length ≤ L.MAX_NICKNAME)

instance (L : limits) (pdu : dchat_pdu_t) : Decidable (pdu_valid L pdu) :=
  inferInstanceAs (Decidable (_ ∧ _ ∧ _))

/-- A result of `read_pdu` that respects the validation of the spec: when it
is neither an error nor EOF, the PDU is valid. -/
def read_valid (L : limits) (rd : read_result) : Prop :=
  rd.len ≠ -1 → rd.len ≠ 0 → pdu_valid L rd.pdu

instance (L : limits) (rd : read_result) : Decidable (read_valid L rd) :=
  inferInstanceAs (Decidable (_ → _ → _))

/-- No occupied slot carries the identity that is about to be dialled. -/
def fresh_dial (L : limits) (s : sys_state) (onion_id : cstr) (port : Nat) : Prop :=
  ∀ c ∈ s.cnf.cl, in_use c →
    ¬ (c.onion_id = onion_id.take L.ONION_ADDRLEN ∧ c.lport = port)

instance (L : limits) (s : sys_state) (onion_id : cstr) (port : Nat) :
    Decidable (fresh_dial L s onion_id port) :=
  inferInstanceAs (Decidable (∀ c ∈ s.cnf.cl, _))

/-- The states that the engine reaches from an empty contact list through
`handle_remote_conn_request`, `handle_local_conn_request` (for dial requests
allowed by `dial_ok`), `handle_remote_input` (for results of `read_pdu` allowed
by `rd_ok`) and the removal of a contact by `del_contact`. -/
inductive reachable (L : limits) (dial_ok : sys_state → cstr → Nat → Prop)
    (rd_ok : read_result → Prop) : sys_state → Prop
  | init (s : sys_state) : s.cnf.cl = [] → reachable L dial_ok rd_ok s
  | remote_conn (s : sys_state) (sock : Int) :
      reachable L dial_ok rd_ok s →
      reachable L dial_ok rd_ok (handle_remote_conn_request L s sock).1
  | local_conn (s : sys_state) (onion_id : cstr) (port : Nat) (sock : Int) :
      reachable L dial_ok rd_ok s → dial_ok s onion_id port →
      reachable L dial_ok rd_ok (handle_local_conn_request L s onion_id port sock).1
  | remote_input (s : sys_state) (n : Nat) (rd : read_result) :
      reachable L dial_ok rd_ok s → n < s.cnf.cl.length → rd_ok rd →
      reachable L dial_ok rd_ok (handle_remote_input L s n rd).1
  | removed (s : sys_state) (n : Int) :
      reachable L dial_ok rd_ok s →
      reachable L dial_ok rd_ok (del_contact s n).1

/-- Every dial request is allowed. -/
def any_dial : sys_state → cstr → Nat → Prop := fun _ _ _ => True

/-- Every result of `read_pdu` is allowed. -/
def any_read : read_result → Prop := fun _ => True

/-! ## Invariants of the contact list -/

/-- No two occupied slots of which one has an onion id carry the same identity. -/
def identities_unique (s : sys_state) : Prop :=
  ∀ i j, i ≠ j → in_use (contact_at s i) → in_use (contact_at s j) →
    (contact_at s i).onion_id ≠ [] → ¬ same_identity (contact_at s i) (contact_at s j)

/-- The state `t` has the contacts of `s` and the contact `c` in a slot that was free. -/
def inserted (s t : sys_state) (c : contact_t) : Prop :=
  ∃ n, (contact_at s n).fd = 0 ∧ contact_at t n = c ∧
    ∀ m, m ≠ n → contact_at t m = contact_at s m

/-- Every slot of `t` is as in `s` or zeroed. -/
def shrunk (s t : sys_state) : Prop :=
  ∀ m, contact_at t m = contact_at s m ∨ contact_at t m = empty_contact

/-- A contact that has a nickname has an onion id of full length, a port and a
nickname that fits. -/
def named_wellformed (L : limits) (c : contact_t) : Prop :=
  c.name ≠ [] → c.onion_id.length = L.ONION_ADDRLEN ∧ c.lport ≠ 0 ∧
    c.name.length ≤ L.MAX_NICKNAME

/-! ## Concrete inputs used by the witnesses and counterexamples -/

/-- Limits of a small instance: onion ids of 4 characters, nicknames of at most
5, at most 8 contacts. -/
def ex_limits : limits := { ONION_ADDRLEN := 4, MAX_NICKNAME := 5, MAX_CONTACTS := 8 }

/-- The local identity of the small instance. -/
def ex_me : contact_t :=
  { fd := 0, name := ['m', 'e'], onion_id := ['m', 'm', 'm', 'm'], lport := 7777, accepted := 0 }

/-- A configuration of the small instance with the given contact list. -/
def ex_conf (cl : List contact_t) : sys_state :=
  { cnf := { cl := cl, me := ex_me, out_fd := 1, acpt_fd := 3, user_input_rd := 4,
             cl_change_rd := 6 },
    trace := [] }

/-- A freshly accepted contact on descriptor 10: no identity yet. -/
def ex_new : contact_t := { empty_contact with fd := 10, accepted := 1 }

/-- An identified contact on descriptor 11. -/
def ex_bob : contact_t :=
  { fd := 11, name := ['b', 'o', 'b'], onion_id := ['b', 'b', 'b', 'b'], lport := 8888,
    accepted := 1 }

/-- A PDU of the given type sent by bob. -/
def ex_pdu (ct : content_type_t) : dchat_pdu_t :=
  { content_type := ct, onion_id := ['b', 'b', 'b', 'b'], lport := 8888,
    nickname := ['b', 'o', 'b'], content_length := 2, content := ['h', 'i'] }

/-- An environment of one loop iteration in which exactly the descriptors in
`ready` are readable and every contact delivers `rd`. -/
def ex_env (ready : List Int) (rd : read_result) : loop_env :=
  { sel_nfds := ready.length, rset := fun fd => decide (fd ∈ ready),
    ui_len_read := 4, ui_len := 2, ui_line_read := 2, ui_bytes := ['h', 'i'],
    li := { parse_ret := -1, len0 := 0, init_ret := 0, write_ret := fun _ => 0 },
    accept_ret := 12, chg_read := 1, pdus := fun _ => rd }

/-- A Control/Discover PDU of bob with an empty contact set. -/
def ex_disc : dchat_pdu_t := { ex_pdu CT_CTRL_DISC with content_length := 0, content := [] }

/-- Bob is dialled (descriptor 10, slot 0). -/
def ex_dup1 : sys_state :=
  (handle_local_conn_request ex_limits (ex_conf []) ['b', 'b', 'b', 'b'] 8888 10).1

/-- Bob is dialled a second time (descriptor 11, slot 1). -/
def ex_dup2 : sys_state :=
  (handle_local_conn_request ex_limits ex_dup1 ['b', 'b', 'b', 'b'] 8888 11).1

/-- A connection is accepted (descriptor 12, slot 2). -/
def ex_dup3 : sys_state := (handle_remote_conn_request ex_limits ex_dup2 12).1

/-- The contact in slot 2 announces itself as bob; slot 0 is pruned. -/
def ex_dup4 : sys_state := (handle_remote_input ex_limits ex_dup3 2 ⟨5, ex_disc⟩).1

/-- Another connection is accepted (descriptor 13, into the free slot 0). -/
def ex_dup5 : sys_state := (handle_remote_conn_request ex_limits ex_dup4 13).1

/-- The contact in slot 0 announces itself as bob, too; slot 1 is pruned. -/
def ex_dup6 : sys_state := (handle_remote_input ex_limits ex_dup5 0 ⟨5, ex_disc⟩).1

/-! ## Records of the input shuttle -/

/-- The records of a sequence of lines, one after the other. -/
def frames : List cstr → List Nat
  | [] => []
  | line :: rest => frame line ++ frames rest

/-- A line that `readline` can deliver and the shuttle forwards: a C string
(no NUL inside) shorter than `2^31` bytes that is not the exit command. -/
def forwardable (line : cstr) : Prop :=
  line ≠ exit_cmd ∧ line.length < 2147483648 ∧ ∀ ch ∈ line, ch ≠ Char.ofNat 0

/-! ## The command line of `main` -/

/-- One result of `getopt_long` in the loop of dchat.c 102-177: an option with
its `optarg`, the help option, or `?` (and any other value). The constants
`CLI_OPT_*` come from the absent `dchat_h/option.h`. -/
inductive cli_opt where
  | CLI_OPT_LONION (optarg : cstr)
  | CLI_OPT_NICK (optarg : cstr)
  | CLI_OPT_LPORT (optarg : cstr)
  | CLI_OPT_RONION (optarg : cstr)
  | CLI_OPT_RPORT (optarg : cstr)
  | CLI_OPT_HELP
  | CLI_OPT_UNKNOWN
deriving DecidableEq, Repr

open cli_opt

/-- What `main` takes from outside its source file while it reads the command
line: the validators of the absent `util.c`, `strtol` with the test
`*term == 0` (the converted value and whether the whole argument was
consumed), and `DEFAULT_PORT`. -/
structure cli_env where
  is_valid_onion : cstr → Bool
  is_valid_nickname : cstr → Bool
  is_valid_port : Int → Bool
  strtol : cstr → Int × Bool
  DEFAULT_PORT : Int

/-- The local variables of `main` that the option loop assigns (dchat.c 73-79). -/
structure main_vars where
  local_onion : Option cstr
  lport : Int
  nickname : Option cstr
  remote_onion : Option cstr
  rport : Int
  required : Int
deriving DecidableEq, Repr

/-- The error messages that `main` hands to `usage`, by the place of the call. -/
inductive usage_msg where
  | invalid_onion_id
  | invalid_nickname
  | invalid_listening_port
  | invalid_remote_port
  | help
  | invalid_option
  | missing_mandatory
  | invalid_arguments
  | invalid_ip_address
deriving DecidableEq, Repr

/-- The format strings of the calls of `usage` in `main` (dchat.c 120-207). -/
def usage_fmt : usage_msg → String
  | usage_msg.invalid_onion_id => "Invalid onion-id '%s'!"
  | usage_msg.invalid_nickname => "Invalid nickname '%s'! Max. %d printable characters allowed!"
  | usage_msg.invalid_listening_port => "Invalid listening port '%s'!"
  | usage_msg.invalid_remote_port => "Invalid remote port '%s'!"
  | usage_msg.help => ""
  | usage_msg.invalid_option => "Invalid command-line option!"
  | usage_msg.missing_mandatory => "Missing mandatory command-line options!"
  | usage_msg.invalid_arguments => "Invalid command-line arguments!"
  | usage_msg.invalid_ip_address => "Invalid ip address '%s'"

/-- How far `main` gets: `usage` ends the process with an exit status and a
message, or `init` is called with the variables as they are. -/
inductive main_result where
  | usage (exit_status : Int) (msg : usage_msg)
  | init (v : main_vars)
deriving DecidableEq, Repr

/-- The values of the variables of `main` before the option loop. -/
def main_vars_init (env : cli_env) : main_vars :=
  { local_onion := none, lport := env.DEFAULT_PORT, nickname := none, remote_onion := none,
    rport := -1, required := 0 }

/-- The option loop of dchat.c 102-177 over the results of `getopt_long`, the
end of the list being its `-1`. A call of `usage` ends the process. -/
def main_options (env : cli_env) : List cli_opt → main_vars → Except (Int × usage_msg) main_vars
  | [], v => .ok v
  | CLI_OPT_LONION optarg :: os, v =>
    if ¬ env.is_valid_onion optarg then .error (EXIT_FAILURE, usage_msg.invalid_onion_id)
    else main_options env os { v with local_onion := some optarg, required := v.required + 1 }
  | CLI_OPT_NICK optarg :: os, v =>
    if ¬ env.is_valid_nickname optarg then .error (EXIT_FAILURE, usage_msg.invalid_nickname)
    else main_options env os { v with nickname := some optarg, required := v.required + 1 }
  | CLI_OPT_LPORT optarg :: os, v =>
    if ¬ env.is_valid_port (env.strtol optarg).1 ∨ ¬ (env.strtol optarg).2 then
      .error (EXIT_FAILURE, usage_msg.invalid_listening_port)
    else main_options env os { v with lport := (env.strtol optarg).1 }
  | CLI_OPT_RONION optarg :: os, v =>
    if ¬ env.is_valid_onion optarg then .error (EXIT_FAILURE, usage_msg.invalid_onion_id)
    else main_options env os { v with remote_onion := some optarg }
  | CLI_OPT_RPORT optarg :: os, v =>
    if ¬ env.is_valid_port (env.strtol optarg).1 ∨ ¬ (env.strtol optarg).2 then
      .error (EXIT_FAILURE, usage_msg.invalid_remote_port)
    else main_options env os { v with rport := (env.strtol optarg).1 }
  | CLI_OPT_HELP :: _, _ => .error (EXIT_SUCCESS, usage_msg.help)
  | CLI_OPT_UNKNOWN :: _, _ => .error (EXIT_FAILURE, usage_msg.invalid_option)

/-- The function `main` of dchat.c 71-214 up to its call of `init`: the option
loop over `opts`, the test on the mandatory options, the test on remaining
arguments (`extra_args` is `optind < argc`) and the test on `inet_pton`
(`inet_ok` is its success). -/
def main_until_init (env : cli_env) (opts : List cli_opt) (extra_args : Bool) (inet_ok : Bool) :
    main_result :=
  match main_options env opts (main_vars_init env) with
  | .error (status, msg) => main_result.usage status msg
  | .ok v =>
    if v.required < 2 then main_result.usage EXIT_FAILURE usage_msg.missing_mandatory
    else if extra_args then main_result.usage EXIT_FAILURE usage_msg.invalid_arguments
    else if ¬ inet_ok then main_result.usage EXIT_FAILURE usage_msg.invalid_ip_address
    else main_result.init v

/-- How often the option `-s`/`--lonion` occurs. -/
def count_lonion : List cli_opt → Nat
  | [] => 0
  | CLI_OPT_LONION _ :: os => count_lonion os + 1
  | _ :: os => count_lonion os

/-- How often the option `-n`/`--nickname` occurs. -/
def count_nick : List cli_opt → Nat
  | [] => 0
  | CLI_OPT_NICK _ :: os => count_nick os + 1
  | _ :: os => count_nick os

/-- An environment that accepts every argument. -/
def ex_cli : cli_env :=
  { is_valid_onion := fun _ => true, is_valid_nickname := fun _ => true,
    is_valid_port := fun _ => true, strtol := fun _ => (7777, true), DEFAULT_PORT := 7777 }

/-! ## The output sink -/

/-- The function `ui_write(fd, nickname, msg)` of consoleui.c 92-95: the bytes
that `dprintf(fd, "%s;%s\n", nickname, msg)` sends to `fd`. -/
def ui_write (nickname msg : cstr) : List Char :=
  nickname ++ [';'] ++ msg ++ [Char.ofNat 10]

/-- Modelled from the spec: `print_dchat_msg` is not among the sources; spec 8
(scenario 2) has the output sink receive the nickname, `;`, the message and a
line feed, which is what `ui_write` of consoleui.c prints. The bytes that the
descriptor `fd` has received through the prints of a trace: -/
def sink_output (fd : Int) : List io_event → List Char
  | [] => []
  | ev_print_dchat_msg nickname msg out_fd :: es =>
    if out_fd = fd then ui_write nickname msg ++ sink_output fd es else sink_output fd es
  | _ :: es => sink_output fd es

/-! ## The dialer `th_new_conn` -/

/-- What one round of the loop of `th_new_conn` takes from outside: the return
value of the `read` of the onion id and the C string in `onion_id` after it,
the return value of the `read` of the port and the value of `port` after it,
and the result of `create_tor_socket`. -/
structure conn_request where
  onion_read : Int
  onion_id : cstr
  port_read : Int
  port : Nat
  sock : Int
deriving DecidableEq, Repr

/-- The loop of `th_new_conn(cnf)` of dchat.c 801-843 over the requests that
arrive on the `connect_fd` pipe, the end of the list being the EOF of the pipe
(`read` returns 0). -/
def th_new_conn (L : limits) : List conn_request → sys_state → sys_state
  | [], s => s
  | r :: rest, s =>
    if r.onion_read = 0 then s
    else if r.port_read = 0 then s
    else
      let s1 := emit s ev_mutex_lock
      let h := handle_local_conn_request L s1 r.onion_id r.port r.sock
      let s2 := if h.2 = -1 then h.1 else emit h.1 (ev_write_cl_change '1')
      th_new_conn L rest (emit s2 ev_mutex_unlock)

/-- The number of writes to the `cl_change` pipe in a trace. -/
def wake_count : List io_event → Nat
  | [] => 0
  | ev_write_cl_change _ :: es => wake_count es + 1
  | _ :: es => wake_count es

/-! ## `usage` and `print_usage` of `consoleui.c` -/

/-- What a process does to the outside while it prints: bytes sent to a
descriptor, or a line handed to `syslog`. -/
inductive out_event where
  | out_write (fd : Int) (text : List Char)
  | out_syslog (priority : Int) (text : List Char)
deriving DecidableEq, Repr

open out_event

/-- A running process as far as printing goes: what it has put out, and its
exit status once `exit` has been called. A statement that follows a call of
`exit` in the program text is never executed. -/
structure proc where
  out : List out_event
  exited : Option Int
deriving DecidableEq, Repr

/-- A process that has printed nothing yet. -/
def proc_start : proc := { out := [], exited := none }

/-- The call `dprintf(fd, ...)`, given the text that it formats. -/
def dprintf (fd : Int) (text : List Char) (p : proc) : proc :=
  if p.exited.isSome then p else { p with out := p.out ++ [out_write fd text] }

/-- The call `syslog(priority, "%s", buf)`. -/
def syslog (priority : Int) (text : List Char) (p : proc) : proc :=
  if p.exited.isSome then p else { p with out := p.out ++ [out_syslog priority text] }

/-- The call `exit(status)` of the C library. -/
def libc_exit (status : Int) (p : proc) : proc :=
  if p.exited.isSome then p else { p with exited := some status }

/-- An entry of the option table, with the fields that `print_usage` reads
(`cli_options_t` is declared in an absent header). -/
structure cli_option_t where
  opt : Char
  arg : cstr
  mandatory_option : Int
  mandatory_argument : Int
  description : cstr
deriving DecidableEq, Repr

/-- The descriptor of standard output. -/
def STDOUT_FILENO : Int := 1

/-- The priority `LOG_ERR` of `syslog.h`. -/
def LOG_ERR : Int := 3

/-- The facility `LOG_DAEMON` of `syslog.h`. -/
def LOG_DAEMON : Int := 24

/-- The log level of consoleui.c 22, `LOG_DEBUG`. -/
def level_ : Int := 7

/-- The level names of consoleui.c 23. -/
def flty_ : List cstr :=
  [("emerg").toList, ("alert").toList, ("crit").toList, ("err").toList, ("warning").toList,
   ("notice").toList, ("info").toList, ("debug").toList]

/-- The function `vlog_msgf(fd, lf, fmt, ap, with_errno)` of consoleui.c
107-136, given the text `msg` that `fmt` formats to with `ap` and the text
`errtext` of `strerror(errno)`. `LOG_PRI(lf)` is `lf` modulo 8, and `buf` holds
at most 1023 characters. -/
def vlog_msgf (fd : Int) (lf : Int) (msg : cstr) (with_errno : Bool) (errtext : cstr)
    (p : proc) : proc :=
  let level := lf % 8
  if level_ < level then p
  else if fd > -1 then
    let p1 := dprintf fd (flty_.getD level.toNat [] ++ [';']) p
    let p2 := dprintf fd msg p1
    let p3 := if with_errno then dprintf fd ((" (").toList ++ errtext ++ [')']) p2 else p2
    dprintf fd [Char.ofNat 10] p3
  else syslog (level + LOG_DAEMON) (msg.take 1023) p

/-- The piece of the synopsis that `print_usage` prints for one option
(consoleui.c 221-244). -/
def synopsis_piece (o : cli_option_t) : List Char :=
  if o.mandatory_option ≠ 0 then
    if o.mandatory_argument ≠ 0 then (" -").toList ++ [o.opt, ' '] ++ o.arg
    else (" -").toList ++ [o.opt]
  else
    if o.mandatory_argument ≠ 0 then (" [-").toList ++ [o.opt, ' '] ++ o.arg ++ [']']
    else (" [-").toList ++ [o.opt, ']']

/-- The first loop of `print_usage` (consoleui.c 221-244). -/
def print_synopsis (fd : Int) : List cli_option_t → proc → proc
  | [], p => p
  | o :: os, p => print_synopsis fd os (dprintf fd (synopsis_piece o) p)

/-- The second loop of `print_usage` (consoleui.c 249-252). -/
def print_descriptions (fd : Int) : List cli_option_t → proc → proc
  | [], p => p
  | o :: os, p =>
    print_descriptions fd os (dprintf fd (o.description ++ [Char.ofNat 10, Char.ofNat 10]) p)

/-- The function `print_usage(fd, exit_status, options)` of consoleui.c
216-260, for the option table `options` with its `CLI_OPT_AMOUNT` entries and
the `PACKAGE_NAME` of the absent `config.h`. Its last statement is
`exit(exit_status)`. -/
def print_usage (PACKAGE_NAME : cstr) (fd : Int) (exit_status : Int)
    (options : List cli_option_t) (p : proc) : proc :=
  let p1 := dprintf fd [Char.ofNat 10] p
  let p2 := dprintf fd ([' '] ++ PACKAGE_NAME) p1
  let p3 := print_synopsis fd options p2
  let p4 := dprintf fd [Char.ofNat 10, Char.ofNat 10] p3
  let p5 := dprintf fd ((" Options:").toList ++ [Char.ofNat 10]) p4
  let p6 := print_descriptions fd options p5
  let p7 := dprintf fd
    ((" More detailed information can be found in the man page. See ").toList ++ PACKAGE_NAME
      ++ ("(1).").toList ++ [Char.ofNat 10]) p6
  libc_exit exit_status p7

/-- The function `usage(fd, exit_status, options, fmt, ...)` of consoleui.c
196-208, given the text `msg` that `fmt` formats to with the arguments of the
call. The two calls of `vlog_msgf` (202, 203) are handed the same `va_list`
with no `va_copy` and no `va_end` between them; the first call consumes it, so
what the second call formats is not determined by the program: it is the
separate argument `msg2`. -/
def usage (PACKAGE_NAME : cstr) (fd : Int) (exit_status : Int) (options : List cli_option_t)
    (fmt msg msg2 : cstr) (p : proc) : proc :=
  let p1 :=
    if fmt.length ≠ 0 then
      vlog_msgf fd LOG_ERR msg2 false [] (vlog_msgf STDOUT_FILENO LOG_ERR msg false [] p)
    else p
  print_usage PACKAGE_NAME fd exit_status options
    (print_usage PACKAGE_NAME STDOUT_FILENO exit_status options p1)

/-- The texts that a descriptor has received, in order. -/
def writes_to (fd : Int) : List out_event → List (List Char)
  | [] => []
  | out_write fd1 text :: es => if fd1 = fd then text :: writes_to fd es else writes_to fd es
  | _ :: es => writes_to fd es

/-- An option table with the one entry `-s ONIONID`. -/
def ex_options : List cli_option_t :=
  [{ opt := 's', arg := ("ONIONID").toList, mandatory_option := 1, mandatory_argument := 1,
     description := (" -s  Set the onion id.").toList }]

/-! ## Basic facts about the contact list -/

theorem contact_at_set_contact_same (s : sys_state) (n : Nat) (c : contact_t)
    (hn : n < s.cnf.cl.length) : contact_at (set_contact s n c) n = c := by
  simp [contact_at, set_contact, List.getD_eq_getElem?_getD, hn]

theorem contact_at_set_contact_other (s : sys_state) (n m : Nat) (c : contact_t)
    (hnm : n ≠ m) : contact_at (set_contact s n c) m = contact_at s m := by
  simp [contact_at, set_contact, List.getD_eq_getElem?_getD, List.getElem?_set_ne hnm]

theorem contact_at_emit (s : sys_state) (e : io_event) (n : Nat) :
    contact_at (emit s e) n = contact_at s n := rfl

theorem del_contact_in_use (s : sys_state) (n : Nat) (hn : n < s.cnf.cl.length)
    (huse : (contact_at s n).fd ≠ 0) :
    del_contact s n =
      (set_contact (emit s (ev_close (contact_at s n).fd)) n empty_contact, 0) := by
  unfold del_contact
  have h1 : ¬ ((n : Int) < 0 ∨ (s.cnf.cl.length : Int) ≤ (n : Int)) := by omega
  rw [if_neg h1]
  simp only [Int.toNat_ofNat]
  rw [if_neg huse]

theorem del_contact_free (s : sys_state) (n : Nat) (hfree : (contact_at s n).fd = 0) :
    del_contact s n = (s, -1) := by
  unfold del_contact
  by_cases h1 : ((n : Int) < 0 ∨ (s.cnf.cl.length : Int) ≤ (n : Int))
  · rw [if_pos h1]
  · rw [if_neg h1]
    simp only [Int.toNat_ofNat]
    rw [if_pos hfree]

theorem find_other_some (c : contact_t) (n : Nat) :
    ∀ (l : List contact_t) (base j : Nat), find_other c n base l = some j →
      j ≠ n ∧ base ≤ j ∧ j < base + l.length ∧
      ∃ d, l[j - base]? = some d ∧ d.fd ≠ 0 ∧ d.onion_id = c.onion_id ∧ d.lport = c.lport := by
  intro l
  induction l with
  | nil => intro base j h; simp [find_other] at h
  | cons d ds ih =>
    intro base j h
    unfold find_other at h
    split at h
    · rename_i hc
      injection h with h
      subst h
      refine ⟨hc.1, le_refl _, by simp, d, by simp, hc.2.1, hc.2.2.1, hc.2.2.2⟩
    · obtain ⟨h1, h2, h3, d', h4, h5⟩ := ih (base + 1) j h
      refine ⟨h1, by omega, by simp; omega, d', ?_, h5⟩
      have : j - base = (j - (base + 1)) + 1 := by omega
      rw [this]
      simpa using h4

theorem find_other_none (c : contact_t) (n : Nat) :
    ∀ (l : List contact_t) (base : Nat), find_other c n base l = none →
      ∀ (k : Nat) (d : contact_t), l[k]? = some d → base + k ≠ n → d.fd ≠ 0 →
        ¬ (d.onion_id = c.onion_id ∧ d.lport = c.lport) := by
  intro l
  induction l with
  | nil => intro base _ k d hk; simp at hk
  | cons x xs ih =>
    intro base h k d hk hne hfd hsame
    unfold find_other at h
    split at h
    · simp at h
    · rename_i hc
      cases k with
      | zero =>
        simp at hk
        subst hk
        exact hc ⟨by simpa using hne, hfd, hsame.1, hsame.2⟩
      | succ k =>
        simp at hk
        exact ih (base + 1) h k d hk (by omega) hfd hsame

theorem contact_at_of_getElem (s : sys_state) (j : Nat) (d : contact_t)
    (h : s.cnf.cl[j]? = some d) : contact_at s j = d := by
  simp [contact_at, List.getD_eq_getElem?_getD, h]

theorem getElem_of_contact_at (s : sys_state) (j : Nat) (hj : j < s.cnf.cl.length) :
    s.cnf.cl[j]? = some (contact_at s j) := by
  simp [contact_at, List.getD_eq_getElem?_getD, List.getElem?_eq_getElem hj]

theorem check_duplicates_cases (s : sys_state) (n : Nat) :
    check_duplicates s n = -1 ∨
    ∃ j : Nat, check_duplicates s n = (j : Int) ∧ j ≠ n ∧ j < s.cnf.cl.length ∧
      (contact_at s j).fd ≠ 0 ∧ same_identity (contact_at s j) (contact_at s n) := by
  unfold check_duplicates
  cases h : find_other (contact_at s n) n 0 s.cnf.cl with
  | none => left; rfl
  | some j =>
    right
    obtain ⟨h1, _, h3, d, h4, h5, h6, h7⟩ := find_other_some _ _ _ _ _ h
    have hd : contact_at s j = d := contact_at_of_getElem s j d (by simpa using h4)
    exact ⟨j, rfl, h1, by simpa using h3, by rw [hd]; exact h5, by rw [hd]; exact ⟨h6, h7⟩⟩

theorem check_duplicates_none (s : sys_state) (n : Nat) (h : check_duplicates s n = -1)
    (j : Nat) (hj : j < s.cnf.cl.length) (hjn : j ≠ n) (huse : (contact_at s j).fd ≠ 0) :
    ¬ same_identity (contact_at s j) (contact_at s n) := by
  unfold check_duplicates at h
  cases hf : find_other (contact_at s n) n 0 s.cnf.cl with
  | some k => rw [hf] at h; simp at h
  | none =>
    exact find_other_none _ _ _ _ hf j (contact_at s j) (getElem_of_contact_at s j hj)
      (by simpa using hjn) huse

theorem del_contact_cl (s : sys_state) (j : Int) :
    (del_contact s j).1.cnf.cl = s.cnf.cl ∨
    ∃ k : Nat, j = (k : Int) ∧ k < s.cnf.cl.length ∧ (contact_at s k).fd ≠ 0 ∧
      (del_contact s j).1.cnf.cl = s.cnf.cl.set k empty_contact := by
  unfold del_contact
  split
  · left; rfl
  · rename_i h1
    split
    · left; rfl
    · rename_i h2
      right
      refine ⟨j.toNat, by omega, by omega, h2, rfl⟩

theorem contact_at_del_contact_other (s : sys_state) (j : Int) (n : Nat) (h : j ≠ (n : Int)) :
    contact_at (del_contact s j).1 n = contact_at s n := by
  rcases del_contact_cl s j with h1 | ⟨k, hk, _, _, h1⟩
  · simp [contact_at, h1]
  · have hkn : k ≠ n := by intro hh; apply h; rw [hk, hh]
    simp [contact_at, h1, List.getD_eq_getElem?_getD, List.getElem?_set_ne hkn]

theorem del_contact_length (s : sys_state) (j : Int) :
    (del_contact s j).1.cnf.cl.length = s.cnf.cl.length := by
  rcases del_contact_cl s j with h1 | ⟨k, _, _, _, h1⟩ <;> simp [h1]

theorem contact_at_del_contact_same (s : sys_state) (n : Nat) :
    contact_at (del_contact s n).1 n = contact_at s n ∨
    contact_at (del_contact s n).1 n = empty_contact := by
  rcases del_contact_cl s n with h1 | ⟨k, hk, hlt, _, h1⟩
  · left; simp [contact_at, h1]
  · right
    have hkn : k = n := by exact_mod_cast hk.symm
    subst hkn
    simp [contact_at, h1, List.getD_eq_getElem?_getD, hlt]


theorem handle_remote_input_discover (L : limits) (s : sys_state) (n : Nat) (rd : read_result)
    (herr : rd.len ≠ -1) (heof : rd.len ≠ 0) (hct : rd.pdu.content_type = CT_CTRL_DISC)
    (honion : (contact_at s n).onion_id = [] ∨ (contact_at s n).onion_id = rd.pdu.onion_id)
    (hport : (contact_at s n).lport = 0 ∨ (contact_at s n).lport = rd.pdu.lport) :
    handle_remote_input L s n rd = (after_discover L s n rd.pdu, rd.len) := by
  have h1 : ¬ ((contact_at s n).onion_id ≠ [] ∧ (contact_at s n).onion_id ≠ rd.pdu.onion_id) := by
    rintro ⟨a, b⟩; rcases honion with h | h
    · exact a h
    · exact b h
  have h2 : ¬ ((contact_at s n).lport ≠ 0 ∧ (contact_at s n).lport ≠ rd.pdu.lport) := by
    rintro ⟨a, b⟩; rcases hport with h | h
    · exact a h
    · exact b h
  unfold handle_remote_input after_discover
  simp only [if_neg herr, if_neg heof, hct]
  simp [h1, h2]

theorem contact_at_after_discover (L : limits) (s : sys_state) (n : Nat) (pdu : dchat_pdu_t)
    (hn : n < s.cnf.cl.length) :
    contact_at (after_discover L s n pdu) n =
      { contact_at s n with
        name := pdu.nickname.take L.MAX_NICKNAME
        onion_id := pdu.onion_id.take L.ONION_ADDRLEN
        lport := pdu.lport } := by
  unfold after_discover receive_contacts
  simp only [contact_at_emit]
  split
  · rcases check_duplicates_cases (set_contact s n _) n with h | ⟨j, hj, hjn, _⟩
    · rename_i h'; exact absurd h h'
    · rw [hj, contact_at_del_contact_other _ _ _ (by exact_mod_cast hjn)]
      exact contact_at_set_contact_same s n _ hn
  · exact contact_at_set_contact_same s n _ hn

theorem th_main_loop_iter_next (L : limits) (s : sys_state) (e : loop_env)
    (h1 : (check_stdin (emit (emit s ev_mutex_lock) ev_mutex_unlock) e e.sel_nfds).2.2 = next)
    (h2 : (check_listening L
      (check_stdin (emit (emit s ev_mutex_lock) ev_mutex_unlock) e e.sel_nfds).1 e
      (check_stdin (emit (emit s ev_mutex_lock) ev_mutex_unlock) e e.sel_nfds).2.1).2.2 = next)
    (h3 : (check_new_conn
      (check_listening L
        (check_stdin (emit (emit s ev_mutex_lock) ev_mutex_unlock) e e.sel_nfds).1 e
        (check_stdin (emit (emit s ev_mutex_lock) ev_mutex_unlock) e e.sel_nfds).2.1).1 e
      (check_listening L
        (check_stdin (emit (emit s ev_mutex_lock) ev_mutex_unlock) e e.sel_nfds).1 e
        (check_stdin (emit (emit s ev_mutex_lock) ev_mutex_unlock) e e.sel_nfds).2.1).2.1).2.2
        = next) :
    (th_main_loop_iter L s e).2 = next := by
  unfold th_main_loop_iter
  simp [h1, h2, h3]

theorem write_loop_state (msg : dchat_pdu_t) (wr : Nat → Int) :
    ∀ (cs : List contact_t) (i : Nat) (acc : sys_state × Int),
      (write_loop msg wr i cs acc).1 =
        { acc.1 with trace := acc.1.trace ++ broadcast_events msg cs } := by
  intro cs
  induction cs with
  | nil => intro i acc; simp [write_loop, broadcast_events]
  | cons c cs ih =>
    intro i acc
    unfold write_loop
    by_cases hc : c.fd ≠ 0
    · rw [if_pos hc, ih]
      simp [broadcast_events, emit, hc]
    · rw [if_neg hc, ih]
      simp [broadcast_events, hc]

theorem write_loop_ret (msg : dchat_pdu_t) (wr : Nat → Int) :
    ∀ (cs : List contact_t) (i : Nat) (acc : sys_state × Int),
      (write_loop msg wr i cs acc).2 =
        match last_in_use i cs with
        | some j => wr j
        | none => acc.2 := by
  intro cs
  induction cs with
  | nil => intro i acc; simp [write_loop, last_in_use]
  | cons c cs ih =>
    intro i acc
    unfold write_loop last_in_use
    by_cases hc : c.fd ≠ 0
    · rw [if_pos hc, ih]
      cases last_in_use (i + 1) cs <;> simp [hc]
    · rw [if_neg hc, ih]
      cases last_in_use (i + 1) cs <;> simp [hc]

theorem handle_local_input_ret_zero (s : sys_state) (line : cstr) (li : local_input_env)
    (hinit : li.init_ret ≠ -1)
    (hlast : ∀ j, last_in_use 0 s.cnf.cl = some j → li.write_ret j ≠ -1) :
    (handle_local_input s line li).2 = 0 := by
  unfold handle_local_input
  by_cases hp : li.parse_ret = 0 ∨ li.parse_ret = 1
  · rw [if_pos hp]
  · rw [if_neg hp]
    by_cases hl : li.len0 + (line.length : Int) ≠ 0
    · simp only [if_pos hl, if_neg hinit, write_loop_ret]
      cases h : last_in_use 0 s.cnf.cl with
      | none => simp
      | some j => simp [hlast j h]
    · simp only [if_neg hl]

theorem contact_at_out_of_range (s : sys_state) (n : Nat) (h : s.cnf.cl.length ≤ n) :
    contact_at s n = empty_contact := by
  simp [contact_at, List.getD_eq_getElem?_getD, List.getElem?_eq_none h]

theorem contact_at_mem (s : sys_state) (n : Nat) (h : (contact_at s n).fd ≠ 0) :
    contact_at s n ∈ s.cnf.cl := by
  by_cases hn : n < s.cnf.cl.length
  · have := getElem_of_contact_at s n hn
    exact List.getElem?_mem this
  · rw [contact_at_out_of_range s n (by omega)] at h
    exact absurd rfl h

theorem find_free_some : ∀ (l : List contact_t) (n : Nat), find_free l = some n →
    ∃ c, l[n]? = some c ∧ c.fd = 0 := by
  intro l
  induction l with
  | nil => intro n h; simp [find_free] at h
  | cons c cs ih =>
    intro n h
    unfold find_free at h
    split at h
    · rename_i hc
      injection h with h
      subst h
      exact ⟨c, by simp, hc⟩
    · cases hf : find_free cs with
      | none => rw [hf] at h; simp at h
      | some k =>
        rw [hf] at h
        simp at h
        subst h
        obtain ⟨d, hd, hd0⟩ := ih k hf
        exact ⟨d, by simpa using hd, hd0⟩

theorem add_contact_spec (L : limits) (s : sys_state) (fd : Int) :
    add_contact L s fd = (s, -1) ∨
    ∃ n : Nat, (add_contact L s fd).2 = (n : Int) ∧ (contact_at s n).fd = 0 ∧
      n < (add_contact L s fd).1.cnf.cl.length ∧
      contact_at (add_contact L s fd).1 n = { empty_contact with fd := fd } ∧
      ∀ m, m ≠ n → contact_at (add_contact L s fd).1 m = contact_at s m := by
  unfold add_contact
  cases hf : find_free s.cnf.cl with
  | some n =>
    right
    obtain ⟨c, hc, hc0⟩ := find_free_some _ _ hf
    have hn : n < s.cnf.cl.length := by
      by_contra hcon
      rw [List.getElem?_eq_none (by omega)] at hc
      simp at hc
    refine ⟨n, rfl, ?_, ?_, ?_, ?_⟩
    · rw [contact_at_of_getElem s n c hc]; exact hc0
    · simpa [set_contact] using hn
    · exact contact_at_set_contact_same s n _ hn
    · intro m hm
      exact contact_at_set_contact_other s n m _ (Ne.symm hm)
  | none =>
    by_cases hcap : s.cnf.cl.length < L.MAX_CONTACTS
    · right
      simp only [if_pos hcap]
      refine ⟨s.cnf.cl.length, rfl, ?_, ?_, ?_, ?_⟩
      · rw [contact_at_out_of_range s _ (le_refl _)]; rfl
      · simp
      · simp [contact_at, List.getD_eq_getElem?_getD]
      · intro m hm
        simp only [contact_at, List.getD_eq_getElem?_getD]
        by_cases hlt : m < s.cnf.cl.length
        · rw [List.getElem?_append_left hlt]
        · have h1 : s.cnf.cl.length < m := by omega
          rw [List.getElem?_eq_none (by simp; omega), List.getElem?_eq_none (by omega)]
    · left
      simp only [if_neg hcap]


theorem shrunk_refl (s : sys_state) : shrunk s s := fun _ => Or.inl rfl

theorem shrunk_of_contacts_eq (s t : sys_state) (h : t.cnf.cl = s.cnf.cl) : shrunk s t := by
  intro m; left; simp [contact_at, h]

theorem del_contact_shrunk (s : sys_state) (j : Int) : shrunk s (del_contact s j).1 := by
  intro m
  rcases del_contact_cl s j with h1 | ⟨k, _, hlt, _, h1⟩
  · left; simp [contact_at, h1]
  · by_cases hkm : k = m
    · right
      subst hkm
      simp [contact_at, h1, List.getD_eq_getElem?_getD, hlt]
    · left
      simp [contact_at, h1, List.getD_eq_getElem?_getD, List.getElem?_set_ne hkm]

theorem identities_unique_shrunk (s t : sys_state) (h : shrunk s t)
    (hu : identities_unique s) : identities_unique t := by
  intro i j hij hi hj ho hsame
  have hi' : contact_at t i = contact_at s i := by
    rcases h i with h1 | h1
    · exact h1
    · rw [h1] at hi; exact absurd rfl hi
  have hj' : contact_at t j = contact_at s j := by
    rcases h j with h1 | h1
    · exact h1
    · rw [h1] at hj; exact absurd rfl hj
  rw [hi'] at hi ho hsame
  rw [hj'] at hj hsame
  exact hu i j hij hi hj ho hsame

theorem identities_unique_inserted (s t : sys_state) (c : contact_t) (h : inserted s t c)
    (hfresh : c.onion_id = [] ∨
      ∀ m, in_use (contact_at s m) → ¬ same_identity (contact_at s m) c)
    (hu : identities_unique s) : identities_unique t := by
  obtain ⟨n, _, hc, hother⟩ := h
  intro i j hij hi hj ho hsame
  by_cases hin : i = n
  · subst hin
    have hjn : j ≠ i := Ne.symm hij
    rw [hother j hjn] at hj hsame
    rw [hc] at ho hsame
    rcases hfresh with hf | hf
    · exact ho hf
    · exact hf j hj ⟨hsame.1.symm, hsame.2.symm⟩
  · rw [hother i hin] at hi ho hsame
    by_cases hjn : j = n
    · subst hjn
      rw [hc] at hsame
      rcases hfresh with hf | hf
      · exact ho (hsame.1.trans hf)
      · exact hf i hi hsame
    · rw [hother j hjn] at hj hsame
      exact hu i j hij hi hj ho hsame

theorem handle_remote_conn_request_frame (L : limits) (s : sys_state) (sock : Int) :
    shrunk s (handle_remote_conn_request L s sock).1 ∨
    inserted s (handle_remote_conn_request L s sock).1
      { empty_contact with fd := sock, accepted := 1 } := by
  unfold handle_remote_conn_request
  by_cases hs : sock = -1
  · left; rw [if_pos hs]; exact shrunk_refl s
  · rw [if_neg hs]
    rcases add_contact_spec L s sock with h | ⟨n, hn, hfree, hlt, hnew, hother⟩
    · left; simp [h]; exact shrunk_refl s
    · right
      have hne : (n : Int) ≠ -1 := by omega
      simp only [hn, if_pos hne, Int.toNat_ofNat, send_contacts]
      refine ⟨n, hfree, ?_, ?_⟩
      · rw [contact_at_emit, contact_at_set_contact_same _ n _ hlt, hnew]
      · intro m hm
        rw [contact_at_emit, contact_at_set_contact_other _ n m _ (Ne.symm hm)]
        exact hother m hm

theorem handle_local_conn_request_frame (L : limits) (s : sys_state) (onion_id : cstr)
    (port : Nat) (sock : Int) :
    shrunk s (handle_local_conn_request L s onion_id port sock).1 ∨
    inserted s (handle_local_conn_request L s onion_id port sock).1
      { empty_contact with
        fd := sock, onion_id := onion_id.take L.ONION_ADDRLEN, lport := port } := by
  unfold handle_local_conn_request
  by_cases hs : sock = -1
  · left; rw [if_pos hs]; exact shrunk_refl s
  · rw [if_neg hs]
    rcases add_contact_spec L s sock with h | ⟨n, hn, hfree, hlt, hnew, hother⟩
    · left; simp [h]; exact shrunk_refl s
    · right
      have hne : ¬ (n : Int) = -1 := by omega
      simp only [hn, if_neg hne, Int.toNat_ofNat, send_contacts]
      refine ⟨n, hfree, ?_, ?_⟩
      · rw [contact_at_emit, contact_at_set_contact_same _ n _ hlt, hnew]
      · intro m hm
        rw [contact_at_emit, contact_at_set_contact_other _ n m _ (Ne.symm hm)]
        exact hother m hm


theorem handle_remote_input_cases (L : limits) (s : sys_state) (n : Nat) (rd : read_result) :
    (handle_remote_input L s n rd).1.cnf.cl = s.cnf.cl ∨
    (handle_remote_input L s n rd).1 = (del_contact s n).1 ∨
    (rd.len ≠ -1 ∧ rd.len ≠ 0 ∧ rd.pdu.content_type = CT_CTRL_DISC ∧
      (handle_remote_input L s n rd).1 = after_discover L s n rd.pdu) := by
  by_cases herr : rd.len = -1
  · left; simp [handle_remote_input, herr]
  by_cases heof : rd.len = 0
  · left; simp [handle_remote_input, heof]
  by_cases hct : rd.pdu.content_type = CT_CTRL_DISC
  · by_cases h1 : (contact_at s n).onion_id ≠ [] ∧ (contact_at s n).onion_id ≠ rd.pdu.onion_id
    · right; left
      unfold handle_remote_input
      simp [herr, heof, hct, h1.1, h1.2]
    · by_cases h2 : (contact_at s n).lport ≠ 0 ∧ (contact_at s n).lport ≠ rd.pdu.lport
      · right; left
        unfold handle_remote_input
        simp only [if_neg herr, if_neg heof, hct]
        simp [h1, h2.1, h2.2]
      · right; right
        refine ⟨herr, heof, hct, ?_⟩
        rw [handle_remote_input_discover L s n rd herr heof hct (by tauto) (by tauto)]
  · left
    by_cases hg : unidentified (contact_at s n)
    · simp [handle_remote_input, herr, heof, hct, hg]
    · by_cases htxt : rd.pdu.content_type = CT_TXT_PLAIN
      · simp [handle_remote_input, herr, heof, hct, hg, htxt, emit]
      · simp [handle_remote_input, herr, heof, hct, hg, htxt]

theorem after_discover_slots (L : limits) (s : sys_state) (n : Nat) (pdu : dchat_pdu_t) (m : Nat)
    (hmn : m ≠ n) :
    contact_at (after_discover L s n pdu) m = contact_at s m ∨
    contact_at (after_discover L s n pdu) m = empty_contact := by
  unfold after_discover receive_contacts
  simp only [contact_at_emit]
  split
  · rcases del_contact_shrunk (set_contact s n _) (check_duplicates (set_contact s n _) n) m
      with h | h
    · left; rw [h]; exact contact_at_set_contact_other s n m _ (Ne.symm hmn)
    · right; exact h
  · left; exact contact_at_set_contact_other s n m _ (Ne.symm hmn)

theorem after_discover_length (L : limits) (s : sys_state) (n : Nat) (pdu : dchat_pdu_t) :
    (after_discover L s n pdu).cnf.cl.length = s.cnf.cl.length := by
  unfold after_discover receive_contacts
  dsimp only
  split
  · simp only [emit, del_contact_length]
    simp [set_contact]
  · simp [emit, set_contact]

theorem handle_remote_input_length (L : limits) (s : sys_state) (n : Nat) (rd : read_result) :
    (handle_remote_input L s n rd).1.cnf.cl.length = s.cnf.cl.length := by
  rcases handle_remote_input_cases L s n rd with h | h | ⟨_, _, _, h⟩
  · rw [h]
  · rw [h, del_contact_length]
  · rw [h, after_discover_length]

theorem contact_step_length (L : limits) (e : loop_env) (i : Nat) (s : sys_state) (nfds : Int) :
    (contact_step L e i s nfds).1.cnf.cl.length = s.cnf.cl.length := by
  unfold contact_step
  dsimp only
  split
  · split
    · simp only [del_contact_length]
      simp [emit, handle_remote_input_length]
    · simp [handle_remote_input_length]
  · rfl

/-- The fuel of `check_contacts` is enough: once `fuel` covers the positions
from `i` to the end of the list, more fuel does not change the result of the
contact loop. -/
theorem contact_loop_fuel (L : limits) (e : loop_env) :
    ∀ (fuel i : Nat) (s : sys_state) (nfds : Int), s.cnf.cl.length ≤ i + fuel →
      ∀ extra, contact_loop L e (fuel + extra) i s nfds = contact_loop L e fuel i s nfds := by
  intro fuel
  induction fuel with
  | zero =>
    intro i s nfds h extra
    cases extra with
    | zero => rfl
    | succ k =>
      have hc : ¬ (nfds ≠ 0 ∧ i < s.cnf.cl.length) := by omega
      simp only [Nat.zero_add, contact_loop, if_neg hc]
  | succ fuel ih =>
    intro i s nfds h extra
    have hf : fuel + 1 + extra = (fuel + extra) + 1 := by omega
    rw [hf]
    simp only [contact_loop]
    split
    · exact ih (i + 1) _ _ (by rw [contact_step_length]; omega) extra
    · rfl

theorem identities_unique_after_discover (L : limits) (s : sys_state) (n : Nat)
    (pdu : dchat_pdu_t) (hn : n < s.cnf.cl.length) (hu : identities_unique s) :
    identities_unique (after_discover L s n pdu) := by
  have hnn := contact_at_after_discover L s n pdu hn
  have hs1n := contact_at_set_contact_same s n
    { contact_at s n with
      name := pdu.nickname.take L.MAX_NICKNAME
      onion_id := pdu.onion_id.take L.ONION_ADDRLEN
      lport := pdu.lport } hn
  -- an occupied slot `m ≠ n` of the result is an occupied slot of `s`
  have hkeep : ∀ m, m ≠ n → in_use (contact_at (after_discover L s n pdu) m) →
      contact_at (after_discover L s n pdu) m = contact_at s m := by
    intro m hmn hm
    rcases after_discover_slots L s n pdu m hmn with h | h
    · exact h
    · rw [h] at hm; exact absurd rfl hm
  -- no occupied slot `m ≠ n` of the result carries the identity of slot `n`
  have hnone : ∀ m, m ≠ n → in_use (contact_at (after_discover L s n pdu) m) →
      (contact_at (after_discover L s n pdu) n).onion_id ≠ [] →
      ¬ same_identity (contact_at (after_discover L s n pdu) m)
          (contact_at (after_discover L s n pdu) n) := by
    intro m hmn hm ho hsame
    have hm' := hkeep m hmn hm
    have hms1 : contact_at (set_contact s n
        { contact_at s n with
          name := pdu.nickname.take L.MAX_NICKNAME
          onion_id := pdu.onion_id.take L.ONION_ADDRLEN
          lport := pdu.lport }) m = contact_at s m :=
      contact_at_set_contact_other s n m _ (Ne.symm hmn)
    rcases check_duplicates_cases (set_contact s n
        { contact_at s n with
          name := pdu.nickname.take L.MAX_NICKNAME
          onion_id := pdu.onion_id.take L.ONION_ADDRLEN
          lport := pdu.lport }) n with hc | ⟨k, hk, hkn, hklt, hkuse, hksame⟩
    · -- nothing reported: slot `m` would have been found
      have hmlt : m < s.cnf.cl.length := by
        by_contra hcon
        rw [hm', contact_at_out_of_range s m (by omega)] at hm
        exact hm rfl
      refine check_duplicates_none _ n hc m (by simpa [set_contact] using hmlt) hmn ?_ ?_
      · rw [hms1, ← hm']; exact hm
      · rw [hms1, hs1n, ← hm', ← hnn]; exact hsame
    · -- slot `k` reported and zeroed: `m` and `k` would be duplicates in `s`
      have hks1 : contact_at (set_contact s n
          { contact_at s n with
            name := pdu.nickname.take L.MAX_NICKNAME
            onion_id := pdu.onion_id.take L.ONION_ADDRLEN
            lport := pdu.lport }) k = contact_at s k :=
        contact_at_set_contact_other s n k _ (Ne.symm hkn)
      have hkm : k ≠ m := by
        intro hkm
        subst hkm
        have hz : contact_at (after_discover L s n pdu) k = empty_contact := by
          unfold after_discover receive_contacts
          simp only [contact_at_emit, hk]
          rw [if_pos (by omega), del_contact_in_use _ k hklt hkuse]
          exact contact_at_set_contact_same _ k _ (by simpa [emit] using hklt)
        rw [hz] at hm
        exact hm rfl
      rw [hks1] at hkuse hksame
      rw [hs1n, ← hnn] at hksame
      rw [hm'] at hm hsame
      refine hu m k (Ne.symm hkm) hm hkuse ?_ ⟨hsame.1.trans hksame.1.symm, hsame.2.trans hksame.2.symm⟩
      rw [hsame.1]; exact ho
  intro i j hij hi hj ho hsame
  by_cases hin : i = n
  · subst hin
    exact hnone j (Ne.symm hij) hj ho ⟨hsame.1.symm, hsame.2.symm⟩
  · by_cases hjn : j = n
    · subst hjn
      exact hnone i hin hi (by rw [← hsame.1]; exact ho) hsame
    · have hi' := hkeep i hin hi
      have hj' := hkeep j hjn hj
      rw [hi'] at hi ho hsame
      rw [hj'] at hj hsame
      exact hu i j hij hi hj ho hsame


theorem identities_unique_reachable (L : limits) (s : sys_state)
    (h : reachable L (fresh_dial L) any_read s) : identities_unique s := by
  induction h with
  | init s hs =>
    intro i j _ hi
    simp [contact_at, hs, in_use, empty_contact] at hi
  | remote_conn s sock _ ih =>
    rcases handle_remote_conn_request_frame L s sock with h | h
    · exact identities_unique_shrunk _ _ h ih
    · exact identities_unique_inserted _ _ _ h (Or.inl rfl) ih
  | local_conn s onion_id port sock _ hd ih =>
    rcases handle_local_conn_request_frame L s onion_id port sock with h | h
    · exact identities_unique_shrunk _ _ h ih
    · refine identities_unique_inserted _ _ _ h (Or.inr ?_) ih
      intro m hm hsame
      exact hd (contact_at s m) (contact_at_mem s m hm) hm hsame
  | remote_input s n rd _ hn _ ih =>
    rcases handle_remote_input_cases L s n rd with h | h | ⟨_, _, _, h⟩
    · exact identities_unique_shrunk _ _ (shrunk_of_contacts_eq _ _ h) ih
    · rw [h]; exact identities_unique_shrunk _ _ (del_contact_shrunk s n) ih
    · rw [h]; exact identities_unique_after_discover L s n rd.pdu hn ih
  | removed s n _ ih =>
    exact identities_unique_shrunk _ _ (del_contact_shrunk s n) ih

theorem named_wellformed_reachable (L : limits) (s : sys_state)
    (h : reachable L any_dial (read_valid L) s) (m : Nat) :
    named_wellformed L (contact_at s m) := by
  have hempty : named_wellformed L empty_contact := fun h => absurd rfl h
  have hshrunk : ∀ s t : sys_state, shrunk s t → (∀ m, named_wellformed L (contact_at s m)) →
      ∀ m, named_wellformed L (contact_at t m) := by
    intro s t hst hs m
    rcases hst m with h1 | h1
    · rw [h1]; exact hs m
    · rw [h1]; exact hempty
  have hins : ∀ (s t : sys_state) (c : contact_t), inserted s t c → c.name = [] →
      (∀ m, named_wellformed L (contact_at s m)) →
      ∀ m, named_wellformed L (contact_at t m) := by
    intro s t c ⟨n, _, hc, hother⟩ hname hs m
    by_cases hmn : m = n
    · subst hmn; rw [hc]; exact fun h => absurd hname h
    · rw [hother m hmn]; exact hs m
  induction h generalizing m with
  | init s hs =>
    simp only [contact_at, hs, List.getD_nil]
    exact hempty
  | remote_conn s sock _ ih =>
    rcases handle_remote_conn_request_frame L s sock with h | h
    · exact hshrunk _ _ h ih m
    · exact hins _ _ _ h rfl ih m
  | local_conn s onion_id port sock _ _ ih =>
    rcases handle_local_conn_request_frame L s onion_id port sock with h | h
    · exact hshrunk _ _ h ih m
    · exact hins _ _ _ h rfl ih m
  | remote_input s n rd _ hn hrd ih =>
    rcases handle_remote_input_cases L s n rd with h | h | ⟨herr, heof, _, h⟩
    · exact hshrunk _ _ (shrunk_of_contacts_eq _ _ h) ih m
    · rw [h]; exact hshrunk _ _ (del_contact_shrunk s n) ih m
    · rw [h]
      by_cases hmn : m = n
      · subst hmn
        rw [contact_at_after_discover L s m rd.pdu hn]
        obtain ⟨ho, hp, _, _⟩ := hrd herr heof
        intro _
        refine ⟨?_, hp.1, ?_⟩
        · simp [List.length_take, ho]
        · simp [List.length_take]
      · rcases after_discover_slots L s n rd.pdu m hmn with h1 | h1
        · rw [h1]; exact ih m
        · rw [h1]; exact hempty
  | removed s n _ ih =>
    exact hshrunk _ _ (del_contact_shrunk s n) ih m

/-- The hypothesis of C3 on the size of the stored onion id holds in every
reachable state: an onion id is only ever stored through a `strncat` of at most
`ONION_ADDRLEN` characters. -/
theorem onion_id_fits_reachable (L : limits) (s : sys_state)
    (h : reachable L any_dial any_read s) (m : Nat) :
    (contact_at s m).onion_id.length ≤ L.ONION_ADDRLEN := by
  have hshrunk : ∀ s t : sys_state, shrunk s t →
      (∀ m, (contact_at s m).onion_id.length ≤ L.ONION_ADDRLEN) →
      ∀ m, (contact_at t m).onion_id.length ≤ L.ONION_ADDRLEN := by
    intro s t hst hs m
    rcases hst m with h1 | h1
    · rw [h1]; exact hs m
    · rw [h1]; exact Nat.zero_le _
  have hins : ∀ (s t : sys_state) (c : contact_t), inserted s t c →
      c.onion_id.length ≤ L.ONION_ADDRLEN →
      (∀ m, (contact_at s m).onion_id.length ≤ L.ONION_ADDRLEN) →
      ∀ m, (contact_at t m).onion_id.length ≤ L.ONION_ADDRLEN := by
    intro s t c ⟨n, _, hc, hother⟩ hlen hs m
    by_cases hmn : m = n
    · subst hmn; rw [hc]; exact hlen
    · rw [hother m hmn]; exact hs m
  induction h generalizing m with
  | init s hs =>
    simp only [contact_at, hs, List.getD_nil]
    exact Nat.zero_le _
  | remote_conn s sock _ ih =>
    rcases handle_remote_conn_request_frame L s sock with h | h
    · exact hshrunk _ _ h ih m
    · exact hins _ _ _ h (Nat.zero_le _) ih m
  | local_conn s onion_id port sock _ _ ih =>
    rcases handle_local_conn_request_frame L s onion_id port sock with h | h
    · exact hshrunk _ _ h ih m
    · exact hins _ _ _ h (by simp [List.length_take]) ih m
  | remote_input s n rd _ hn _ ih =>
    rcases handle_remote_input_cases L s n rd with h | h | ⟨_, _, _, h⟩
    · exact hshrunk _ _ (shrunk_of_contacts_eq _ _ h) ih m
    · rw [h]; exact hshrunk _ _ (del_contact_shrunk s n) ih m
    · rw [h]
      by_cases hmn : m = n
      · subst hmn
        rw [contact_at_after_discover L s m rd.pdu hn]
        simp [List.length_take]
      · rcases after_discover_slots L s n rd.pdu m hmn with h1 | h1
        · rw [h1]; exact ih m
        · rw [h1]; exact Nat.zero_le _
  | removed s n _ ih =>
    exact hshrunk _ _ (del_contact_shrunk s n) ih m

theorem to_int_small (n : Nat) (h : n < 2147483648) : to_int n = (n : Int) := by
  unfold to_int
  have h1 : n % 4294967296 = n := Nat.mod_eq_of_lt (by omega)
  rw [h1, if_pos h]

theorem int_bytes_length (n : Int) : (int_bytes n).length = 4 := rfl

theorem bytes_int_int_bytes (n : Int) (h0 : 0 ≤ n) (h1 : n < 2147483648) :
    bytes_int (int_bytes n) = n := by
  unfold int_bytes bytes_int
  simp only
  have hu : (n % 4294967296).toNat = n.toNat := by
    rw [Int.emod_eq_of_lt h0 (by omega)]
  rw [hu]
  have hn : ((n.toNat : Nat) : Int) = n := Int.toNat_of_nonneg h0
  have hlt : n.toNat < 2147483648 := by omega
  have hsum : n.toNat % 256 + 256 * (n.toNat / 256 % 256) + 65536 * (n.toNat / 65536 % 256)
      + 16777216 * (n.toNat / 16777216 % 256) = n.toNat := by omega
  rw [hsum, if_pos hlt, hn]

theorem c_string_of_no_nul (l : List Char) (h : ∀ ch ∈ l, ch ≠ Char.ofNat 0) :
    c_string l = l := by
  unfold c_string
  rw [List.takeWhile_eq_self_iff]
  intro ch hch
  simpa using h ch hch

theorem map_ofNat_line_bytes (l : cstr) : (line_bytes l).map Char.ofNat = l := by
  unfold line_bytes
  rw [List.map_map]
  have : (Char.ofNat ∘ Char.toNat) = id := by
    funext c; simp
  rw [this, List.map_id]

theorem th_new_input_step (wr : Nat → Int) (line : cstr) (rest : List cstr) (pipe : List Nat)
    (k : Nat) (hw0 : wr k ≠ -1) (hw1 : wr (k + 1) ≠ -1) (hne : line ≠ exit_cmd)
    (hlen : line.length < 2147483648) :
    th_new_input wr (line :: rest) pipe k = th_new_input wr rest (pipe ++ frame line) (k + 2) := by
  have hto := to_int_small line.length hlen
  conv_lhs => unfold th_new_input
  simp only [if_neg hne, hto, if_neg hw0, if_neg hw1]
  unfold frame
  by_cases he : line = []
  · subst he
    simp
  · have hl : ¬ ((line.length : Int) = 0) := by
      intro h
      exact he (List.length_eq_zero.mp (by exact_mod_cast h))
    simp only [if_neg hl, if_neg he, Int.toNat_ofNat, List.take_length, List.append_assoc]

theorem th_new_input_frames (wr : Nat → Int) (hw : ∀ k, wr k ≠ -1) :
    ∀ (lines : List cstr), (∀ l ∈ lines, forwardable l) →
      ∀ (tail : List cstr) (pipe : List Nat) (k : Nat),
        th_new_input wr (lines ++ tail) pipe k
          = th_new_input wr tail (pipe ++ frames lines) (k + 2 * lines.length) := by
  intro lines
  induction lines with
  | nil => intro _ tail pipe k; simp [frames]
  | cons l ls ih =>
    intro hl tail pipe k
    have h1 := hl l (List.mem_cons_self _ _)
    rw [List.cons_append, th_new_input_step wr l (ls ++ tail) pipe k (hw _) (hw _) h1.1 h1.2.1,
      ih (fun x hx => hl x (List.mem_cons_of_mem _ hx))]
    simp only [frames, List.append_assoc, List.length_cons]
    congr 1
    omega

theorem frame_reads (v : round_env) (line : cstr) (more : List Nat) (hf : forwardable line)
    (hv : reads_whole v (shown line).length) :
    frame line ++ more ≠ [] ∧
    stdin_line (pipe_reads v (frame line ++ more)).len_read
      (pipe_reads v (frame line ++ more)).len
      (pipe_reads v (frame line ++ more)).line_read
      (pipe_reads v (frame line ++ more)).bytes = some (shown line) ∧
    (pipe_reads v (frame line ++ more)).rest = more := by
  obtain ⟨_, hlen, hnul⟩ := hf
  obtain ⟨n1, n2, hfirst, hsecond, hn1, hn2⟩ := hv
  -- the frame is four length bytes followed by `n` body bytes
  have key : ∀ (n : Int) (body : List Nat), 0 < n → n < 2147483648 →
      (body.length : Int) = n → body.length ≤ n2 →
      (∀ ch ∈ body.map Char.ofNat, ch ≠ Char.ofNat 0) →
      int_bytes n ++ body ++ more ≠ [] ∧
      stdin_line (pipe_reads v (int_bytes n ++ body ++ more)).len_read
        (pipe_reads v (int_bytes n ++ body ++ more)).len
        (pipe_reads v (int_bytes n ++ body ++ more)).line_read
        (pipe_reads v (int_bytes n ++ body ++ more)).bytes = some (body.map Char.ofNat) ∧
      (pipe_reads v (int_bytes n ++ body ++ more)).rest = more := by
    intro n body hn0 hn1' hbody hfit hnn
    have hbl : body.length = n.toNat := by omega
    have hm1 : min 4 n1 = 4 := Nat.min_eq_left hn1
    have hm2 : min n.toNat n2 = body.length := by rw [← hbl]; exact Nat.min_eq_left hfit
    have htake : (int_bytes n ++ body ++ more).take 4 = int_bytes n := by
      rw [List.append_assoc]
      exact List.take_left' (int_bytes_length n)
    have hdrop : (int_bytes n ++ body ++ more).drop 4 = body ++ more := by
      rw [List.append_assoc]
      exact List.drop_left' (int_bytes_length n)
    have hret : bytes_int (int_bytes n ++ (int_bytes v.stale).drop 4) = n := by
      have : (int_bytes v.stale).drop 4 = [] := rfl
      rw [this, List.append_nil]
      exact bytes_int_int_bytes n (le_of_lt hn0) hn1'
    have hreads : pipe_reads v (int_bytes n ++ body ++ more) =
        { len_read := 4, len := n, line_read := (body.length : Int),
          bytes := body.map Char.ofNat, rest := more } := by
      unfold pipe_reads
      simp only [hfirst, hsecond, read_pipe, SIZEOF_INT, hm1, htake, hdrop, int_bytes_length,
        hret, hm2, List.take_left' rfl, List.drop_left' rfl, Nat.sub_self, List.range_zero,
        List.map_nil, List.append_nil, Nat.cast_ofNat]
      have hsub : n.toNat - body.length = 0 := by omega
      simp [hsub]
    refine ⟨by simp [int_bytes], ?_, ?_⟩
    · rw [hreads]
      unfold stdin_line
      have h1 : ¬ ((4 : Int) < 0) := by omega
      have h2 : ¬ (((body.length : Nat) : Int) < 0 ∨ n ≤ 0) := by omega
      simp only [if_neg h1, if_neg h2]
      have h3 : (body.map Char.ofNat).take n.toNat = body.map Char.ofNat := by
        apply List.take_of_length_le
        simp [hbl]
      rw [h3, c_string_of_no_nul _ hnn]
    · rw [hreads]
  unfold frame shown at *
  by_cases he : line = []
  · simp only [if_pos he] at hn2 ⊢
    have := key 1 [10] (by omega) (by omega) rfl (by simpa using hn2) (by decide)
    simpa using this
  · simp only [if_neg he] at hn2 ⊢
    have hpos : 0 < line.length := List.length_pos.mpr he
    have := key (line.length : Int) (line_bytes line) (by omega) (by omega)
      (by simp [line_bytes]) (by simpa [line_bytes] using hn2)
      (by rw [map_ofNat_line_bytes]; exact hnul)
    rw [map_ofNat_line_bytes] at this
    exact this

theorem user_input_lines_frames (env : Nat → round_env) :
    ∀ (lines : List cstr), (∀ l ∈ lines, forwardable l) →
      ∀ fuel k, lines.length ≤ fuel →
        (∀ (j : Nat) (l : cstr), lines.get? j = some l →
          reads_whole (env (k + j)) (shown l).length) →
        user_input_lines env fuel k (frames lines) = lines.map shown := by
  intro lines
  induction lines with
  | nil =>
    intro _ fuel k _ _
    cases fuel <;> simp [user_input_lines, frames]
  | cons l ls ih =>
    intro hl fuel k hfuel hread
    cases fuel with
    | zero => simp at hfuel
    | succ fuel =>
      obtain ⟨h1, h2, h3⟩ := frame_reads (env k) l (frames ls)
        (hl l (List.mem_cons_self _ _)) (hread 0 l rfl)
      simp only [frames, user_input_lines, if_neg h1, h2, h3, List.map_cons]
      rw [ih (fun x hx => hl x (List.mem_cons_of_mem _ hx)) fuel (k + 1) (by simpa using hfuel)
        (fun j x hx => by
          have := hread (j + 1) x (by simpa using hx)
          rwa [show k + (j + 1) = k + 1 + j from by omega] at this)]

theorem frames_length (lines : List cstr) : lines.length ≤ (frames lines).length := by
  induction lines with
  | nil => simp [frames]
  | cons l ls ih =>
    simp only [frames, List.length_append, List.length_cons]
    have : 1 ≤ (frame l).length := by
      unfold frame
      split <;> simp [int_bytes]
    omega

theorem check_stdin_line (s : sys_state) (e : loop_env) (nfds : Int)
    (hready : e.rset s.cnf.user_input_rd = true) :
    check_stdin s e nfds =
      match stdin_line e.ui_len_read e.ui_len e.ui_line_read e.ui_bytes with
      | none => (s, nfds - 1, leave)
      | some line =>
        if (handle_local_input (emit s ev_mutex_lock) line e.li).2 = -1 then
          ((handle_local_input (emit s ev_mutex_lock) line e.li).1, nfds - 1, leave)
        else
          (emit (handle_local_input (emit s ev_mutex_lock) line e.li).1 ev_mutex_unlock,
            nfds - 1, next) := by
  unfold check_stdin stdin_line
  simp only [hready, if_true]
  by_cases h1 : e.ui_len_read < 0
  · simp [h1]
  · by_cases h2 : e.ui_line_read < 0 ∨ e.ui_len ≤ 0
    · simp [h1, h2]
    · simp [h1, h2]

theorem main_options_ok (env : cli_env) :
    ∀ (opts : List cli_opt) (v w : main_vars), main_options env opts v = .ok w →
      w.required = v.required + (count_lonion opts : Int) + (count_nick opts : Int) ∧
      (v.local_onion ≠ none ∨ 0 < count_lonion opts → w.local_onion ≠ none) ∧
      (v.nickname ≠ none ∨ 0 < count_nick opts → w.nickname ≠ none) := by
  intro opts
  induction opts with
  | nil =>
    intro v w h
    simp only [main_options, Except.ok.injEq] at h
    subst h
    simp [count_lonion, count_nick]
  | cons o os ih =>
    intro v w h
    cases o with
    | CLI_OPT_LONION a =>
      simp only [main_options] at h
      split at h
      · cases h
      · obtain ⟨h1, h2, h3⟩ := ih _ w h
        refine ⟨?_, fun _ => h2 (Or.inl (by simp)), fun hn => h3 ?_⟩
        · simp only [count_lonion, count_nick] at h1 ⊢
          push_cast
          omega
        · simpa [count_nick] using hn
    | CLI_OPT_NICK a =>
      simp only [main_options] at h
      split at h
      · cases h
      · obtain ⟨h1, h2, h3⟩ := ih _ w h
        refine ⟨?_, fun hn => h2 ?_, fun _ => h3 (Or.inl (by simp))⟩
        · simp only [count_lonion, count_nick] at h1 ⊢
          push_cast
          omega
        · simpa [count_lonion] using hn
    | CLI_OPT_LPORT a =>
      simp only [main_options] at h
      split at h
      · cases h
      · obtain ⟨h1, h2, h3⟩ := ih _ w h
        exact ⟨by simpa [count_lonion, count_nick] using h1,
          fun hn => h2 (by simpa [count_lonion] using hn),
          fun hn => h3 (by simpa [count_nick] using hn)⟩
    | CLI_OPT_RONION a =>
      simp only [main_options] at h
      split at h
      · cases h
      · obtain ⟨h1, h2, h3⟩ := ih _ w h
        exact ⟨by simpa [count_lonion, count_nick] using h1,
          fun hn => h2 (by simpa [count_lonion] using hn),
          fun hn => h3 (by simpa [count_nick] using hn)⟩
    | CLI_OPT_RPORT a =>
      simp only [main_options] at h
      split at h
      · cases h
      · obtain ⟨h1, h2, h3⟩ := ih _ w h
        exact ⟨by simpa [count_lonion, count_nick] using h1,
          fun hn => h2 (by simpa [count_lonion] using hn),
          fun hn => h3 (by simpa [count_nick] using hn)⟩
    | CLI_OPT_HELP => simp [main_options] at h
    | CLI_OPT_UNKNOWN => simp [main_options] at h

theorem sink_output_append (fd : Int) (a b : List io_event) :
    sink_output fd (a ++ b) = sink_output fd a ++ sink_output fd b := by
  induction a with
  | nil => simp [sink_output]
  | cons e es ih =>
    rw [List.cons_append]
    cases e <;> simp only [sink_output, ih]
    split <;> simp

theorem wake_count_append (a b : List io_event) :
    wake_count (a ++ b) = wake_count a + wake_count b := by
  induction a with
  | nil => simp [wake_count]
  | cons e es ih =>
    rw [List.cons_append]
    cases e <;> simp only [wake_count, ih]
    omega

theorem add_contact_trace (L : limits) (s : sys_state) (fd : Int) :
    (add_contact L s fd).1.trace = s.trace := by
  unfold add_contact
  split
  · rfl
  · split <;> rfl

theorem handle_remote_conn_request_ok (L : limits) (s : sys_state) (sock : Int)
    (hsock : sock ≠ -1) (hok : (handle_remote_conn_request L s sock).2 ≠ -1) :
    ∃ n : Nat, (handle_remote_conn_request L s sock).2 = (n : Int) ∧
      contact_at (handle_remote_conn_request L s sock).1 n
        = { empty_contact with fd := sock, accepted := 1 } ∧
      (handle_remote_conn_request L s sock).1.trace = s.trace ++ [ev_send_contacts n] := by
  rcases add_contact_spec L s sock with h | ⟨n, hn, _, hlt, hnew, _⟩
  · exfalso
    apply hok
    unfold handle_remote_conn_request
    simp [hsock, h]
  · have hne : (n : Int) ≠ -1 := by omega
    refine ⟨n, ?_, ?_, ?_⟩
    · unfold handle_remote_conn_request
      simp only [if_neg hsock, hn, if_pos hne]
    · unfold handle_remote_conn_request
      simp only [if_neg hsock, hn, if_pos hne, Int.toNat_ofNat, send_contacts]
      rw [contact_at_emit, contact_at_set_contact_same _ n _ hlt, hnew]
    · unfold handle_remote_conn_request
      simp only [if_neg hsock, hn, if_pos hne, Int.toNat_ofNat, send_contacts]
      simp [emit, set_contact, add_contact_trace]

theorem handle_local_conn_request_ok (L : limits) (s : sys_state) (onion_id : cstr)
    (port : Nat) (sock : Int)
    (hsock : sock ≠ -1) (hok : (handle_local_conn_request L s onion_id port sock).2 ≠ -1) :
    ∃ n : Nat, (handle_local_conn_request L s onion_id port sock).2 = (n : Int) ∧
      contact_at (handle_local_conn_request L s onion_id port sock).1 n
        = { empty_contact with
            fd := sock, onion_id := onion_id.take L.ONION_ADDRLEN, lport := port } ∧
      (handle_local_conn_request L s onion_id port sock).1.trace
        = s.trace ++ [ev_send_contacts n] := by
  rcases add_contact_spec L s sock with h | ⟨n, hn, _, hlt, hnew, _⟩
  · exfalso
    apply hok
    unfold handle_local_conn_request
    simp [hsock, h]
  · have hne : ¬ (n : Int) = -1 := by omega
    refine ⟨n, ?_, ?_, ?_⟩
    · unfold handle_local_conn_request
      simp only [if_neg hsock, hn, if_neg hne]
    · unfold handle_local_conn_request
      simp only [if_neg hsock, hn, if_neg hne, Int.toNat_ofNat, send_contacts]
      rw [contact_at_emit, contact_at_set_contact_same _ n _ hlt, hnew]
    · unfold handle_local_conn_request
      simp only [if_neg hsock, hn, if_neg hne, Int.toNat_ofNat, send_contacts]
      simp [emit, set_contact, add_contact_trace]

theorem handle_local_conn_request_fail (L : limits) (s : sys_state) (onion_id : cstr)
    (port : Nat) (sock : Int)
    (hfail : (handle_local_conn_request L s onion_id port sock).2 = -1) :
    (handle_local_conn_request L s onion_id port sock).1 = s := by
  by_cases hsock : sock = -1
  · unfold handle_local_conn_request
    simp [hsock]
  · rcases add_contact_spec L s sock with h | ⟨n, hn, _, _, _, _⟩
    · unfold handle_local_conn_request
      simp [hsock, h]
    · exfalso
      have hne : ¬ (n : Int) = -1 := by omega
      unfold handle_local_conn_request at hfail
      simp only [if_neg hsock, hn, if_neg hne] at hfail
      exact hne hfail

theorem dprintf_exited (fd : Int) (text : List Char) (p : proc) (h : p.exited.isSome = true) :
    dprintf fd text p = p := by
  unfold dprintf
  rw [if_pos h]

theorem print_synopsis_exited (fd : Int) :
    ∀ (os : List cli_option_t) (p : proc), p.exited.isSome = true →
      print_synopsis fd os p = p := by
  intro os
  induction os with
  | nil => intro p _; rfl
  | cons o os ih =>
    intro p h
    simp only [print_synopsis, dprintf_exited _ _ p h]
    exact ih p h

theorem print_descriptions_exited (fd : Int) :
    ∀ (os : List cli_option_t) (p : proc), p.exited.isSome = true →
      print_descriptions fd os p = p := by
  intro os
  induction os with
  | nil => intro p _; rfl
  | cons o os ih =>
    intro p h
    simp only [print_descriptions, dprintf_exited _ _ p h]
    exact ih p h

theorem print_usage_exited (pkg : cstr) (fd : Int) (st : Int) (os : List cli_option_t)
    (p : proc) (h : p.exited.isSome = true) : print_usage pkg fd st os p = p := by
  unfold print_usage
  simp only [dprintf_exited _ _ p h, print_synopsis_exited fd os p h,
    print_descriptions_exited fd os p h]
  unfold libc_exit
  rw [if_pos h]

theorem print_synopsis_running (fd : Int) :
    ∀ (os : List cli_option_t) (p : proc), p.exited = none →
      (print_synopsis fd os p).exited = none := by
  intro os
  induction os with
  | nil => intro p h; exact h
  | cons o os ih =>
    intro p h
    simp only [print_synopsis]
    apply ih
    simp [dprintf, h]

theorem print_descriptions_running (fd : Int) :
    ∀ (os : List cli_option_t) (p : proc), p.exited = none →
      (print_descriptions fd os p).exited = none := by
  intro os
  induction os with
  | nil => intro p h; exact h
  | cons o os ih =>
    intro p h
    simp only [print_descriptions]
    apply ih
    simp [dprintf, h]

theorem print_usage_exits (pkg : cstr) (fd : Int) (st : Int) (os : List cli_option_t)
    (p : proc) (h : p.exited = none) : (print_usage pkg fd st os p).exited = some st := by
  have hd : ∀ (t : List Char) (q : proc), q.exited = none → (dprintf fd t q).exited = none := by
    intro t q hq
    simp [dprintf, hq]
  unfold print_usage
  have h7 := hd ((" More detailed information can be found in the man page. See ").toList ++ pkg
      ++ ("(1).").toList ++ [Char.ofNat 10]) _
    (print_descriptions_running fd os _ (hd ((" Options:").toList ++ [Char.ofNat 10]) _
      (hd [Char.ofNat 10, Char.ofNat 10] _
        (print_synopsis_running fd os _ (hd ([' '] ++ pkg) _ (hd [Char.ofNat 10] p h))))))
  simp only [libc_exit, h7, Option.isSome_none, Bool.false_eq_true, if_false]

theorem vlog_msgf_running (fd lf : Int) (msg : cstr) (we : Bool) (errtext : cstr) (p : proc)
    (h : p.exited = none) : (vlog_msgf fd lf msg we errtext p).exited = none := by
  have hd : ∀ (f : Int) (t : List Char) (q : proc), q.exited = none →
      (dprintf f t q).exited = none := by
    intro f t q hq
    simp [dprintf, hq]
  unfold vlog_msgf
  dsimp only
  split
  · exact h
  · split
    · apply hd
      split
      · exact hd _ _ _ (hd _ _ _ (hd _ _ _ h))
      · exact hd _ _ _ (hd _ _ _ h)
    · simp [syslog, h]

/-- The second call of `print_usage` in `usage` has no effect: the first one
ends the process. -/
theorem usage_second_print_usage_unreached (pkg : cstr) (fd : Int) (st : Int)
    (os : List cli_option_t) (fmt msg msg2 : cstr) :
    usage pkg fd st os fmt msg msg2 proc_start =
      print_usage pkg STDOUT_FILENO st os
        (if fmt.length ≠ 0 then
          vlog_msgf fd LOG_ERR msg2 false []
            (vlog_msgf STDOUT_FILENO LOG_ERR msg false [] proc_start)
         else proc_start) := by
  unfold usage
  apply print_usage_exited
  rw [print_usage_exits]
  · rfl
  · split
    · exact vlog_msgf_running _ _ _ _ _ _ (vlog_msgf_running _ _ _ _ _ _ rfl)
    · rfl

theorem writes_to_append (fd : Int) (a b : List out_event) :
    writes_to fd (a ++ b) = writes_to fd a ++ writes_to fd b := by
  induction a with
  | nil => simp [writes_to]
  | cons e es ih =>
    rw [List.cons_append]
    cases e with
    | out_write f t =>
      simp only [writes_to, ih]
      split <;> simp
    | out_syslog pr t => simp only [writes_to, ih]

theorem writes_to_dprintf_other (fd f : Int) (text : List Char) (p : proc) (h : f ≠ fd) :
    writes_to fd (dprintf f text p).out = writes_to fd p.out := by
  unfold dprintf
  split
  · rfl
  · simp [writes_to_append, writes_to, h]

theorem writes_to_print_synopsis_other (fd f : Int) (h : f ≠ fd) :
    ∀ (os : List cli_option_t) (p : proc),
      writes_to fd (print_synopsis f os p).out = writes_to fd p.out := by
  intro os
  induction os with
  | nil => intro p; rfl
  | cons o os ih =>
    intro p
    simp only [print_synopsis, ih, writes_to_dprintf_other fd f _ _ h]

theorem writes_to_print_descriptions_other (fd f : Int) (h : f ≠ fd) :
    ∀ (os : List cli_option_t) (p : proc),
      writes_to fd (print_descriptions f os p).out = writes_to fd p.out := by
  intro os
  induction os with
  | nil => intro p; rfl
  | cons o os ih =>
    intro p
    simp only [print_descriptions, ih, writes_to_dprintf_other fd f _ _ h]

theorem writes_to_print_usage_other (pkg : cstr) (fd f : Int) (st : Int)
    (os : List cli_option_t) (p : proc) (h : f ≠ fd) :
    writes_to fd (print_usage pkg f st os p).out = writes_to fd p.out := by
  unfold print_usage
  have hx : ∀ q : proc, (libc_exit st q).out = q.out := by
    intro q
    unfold libc_exit
    split <;> rfl
  simp only [hx, writes_to_dprintf_other fd f _ _ h, writes_to_print_synopsis_other fd f h,
    writes_to_print_descriptions_other fd f h]

/-- Whatever the option table and the exit status are, with an empty format
string a log descriptor other than standard output receives nothing from
`usage`, and the process ends with the given status. -/
theorem usage_log_fd_receives_nothing (pkg : cstr) (fd : Int) (st : Int)
    (os : List cli_option_t) (msg msg2 : cstr) (hfd : fd ≠ STDOUT_FILENO) :
    writes_to fd (usage pkg fd st os [] msg msg2 proc_start).out = [] ∧
    (usage pkg fd st os [] msg msg2 proc_start).exited = some st := by
  rw [usage_second_print_usage_unreached]
  simp only [List.length_nil, ne_eq, not_true_eq_false, if_false]
  exact ⟨by rw [writes_to_print_usage_other pkg fd STDOUT_FILENO st os _ (Ne.symm hfd)]; rfl,
    print_usage_exits pkg STDOUT_FILENO st os proc_start rfl⟩

/-- A slot whose descriptor is not set in `rset` is passed over. -/
theorem contact_step_not_ready (L : limits) (e : loop_env) (j : Nat) (t : sys_state) (nfds : Int)
    (h : e.rset (contact_at t j).fd = false) : contact_step L e j t nfds = (t, nfds) := by
  unfold contact_step
  simp [h]

/-- The loop body takes at most one off `nfds`. -/
theorem contact_step_nfds (L : limits) (e : loop_env) (j : Nat) (t : sys_state) (nfds : Int) :
    (contact_step L e j t nfds).2 = nfds ∨ (contact_step L e j t nfds).2 = nfds - 1 := by
  unfold contact_step
  dsimp only
  split
  · split
    · right; rfl
    · right; rfl
  · left; rfl

/-- Handling the input of slot `n` leaves every other slot as it was or zeroes it. -/
theorem handle_remote_input_slot_other (L : limits) (t : sys_state) (n m : Nat)
    (rd : read_result) (hmn : m ≠ n) :
    contact_at (handle_remote_input L t n rd).1 m = contact_at t m ∨
    contact_at (handle_remote_input L t n rd).1 m = empty_contact := by
  rcases handle_remote_input_cases L t n rd with h | h | ⟨_, _, _, h⟩
  · left; simp [contact_at, h]
  · rw [h]; exact del_contact_shrunk t n m
  · rw [h]; exact after_discover_slots L t n rd.pdu m hmn

/-- The loop body for position `j` leaves every other slot as it was or zeroes it. -/
theorem contact_step_slot_other (L : limits) (e : loop_env) (j m : Nat) (t : sys_state)
    (nfds : Int) (hmj : m ≠ j) :
    contact_at (contact_step L e j t nfds).1 m = contact_at t m ∨
    contact_at (contact_step L e j t nfds).1 m = empty_contact := by
  unfold contact_step
  dsimp only
  split
  · split
    · rcases del_contact_shrunk
          (emit (handle_remote_input L t j (e.pdus j)).1
            (ev_close (contact_at (handle_remote_input L t j (e.pdus j)).1 j).fd)) j m with h | h
      · rw [h, contact_at_emit]
        exact handle_remote_input_slot_other L t j m (e.pdus j) hmj
      · right; exact h
    · exact handle_remote_input_slot_other L t j m (e.pdus j) hmj
  · left; rfl

/-- The loop body for an occupied, readable slot whose input handler reports
`-1` or `0` without touching the state: the descriptor is closed and the slot
zeroed. -/
theorem contact_step_fail (L : limits) (e : loop_env) (i : Nat) (t : sys_state) (nfds : Int)
    (r : Int) (hi : i < t.cnf.cl.length) (huse : in_use (contact_at t i))
    (hready : e.rset (contact_at t i).fd = true)
    (hret : handle_remote_input L t i (e.pdus i) = (t, r)) (hr : r = -1 ∨ r = 0) :
    contact_step L e i t nfds =
      (set_contact (emit (emit t (ev_close (contact_at t i).fd))
        (ev_close (contact_at t i).fd)) i empty_contact, nfds - 1) := by
  unfold contact_step
  simp only [hready, hret]
  have h3 := del_contact_in_use (emit t (ev_close (contact_at t i).fd)) i hi huse
  simp only [contact_at_emit] at h3
  rw [h3]
  exact if_pos hr

/-- The loop body for a slot that is occupied and readable, or already zeroed,
whose input handler reports `-1` or `0` without touching the state: the slot is
zeroed afterwards. -/
theorem contact_step_fail_slot (L : limits) (e : loop_env) (i : Nat) (t : sys_state)
    (nfds : Int) (r : Int) (hi : i < t.cnf.cl.length)
    (hslot : (in_use (contact_at t i) ∧ e.rset (contact_at t i).fd = true) ∨
      contact_at t i = empty_contact)
    (hret : handle_remote_input L t i (e.pdus i) = (t, r)) (hr : r = -1 ∨ r = 0) :
    contact_at (contact_step L e i t nfds).1 i = empty_contact := by
  rcases hslot with ⟨huse, hready⟩ | hempty
  · rw [contact_step_fail L e i t nfds r hi huse hready hret hr]
    exact contact_at_set_contact_same _ i empty_contact hi
  · unfold contact_step
    dsimp only
    split
    · rw [hret]
      simp only [if_pos hr]
      have hfree : (contact_at (emit t (ev_close (contact_at t i).fd)) i).fd = 0 := by
        rw [contact_at_emit, hempty]; rfl
      rw [del_contact_free _ i hfree, contact_at_emit]
      exact hempty
    · exact hempty

/-- A zeroed slot that the contact loop has passed stays zeroed. -/
theorem contact_loop_slot_empty (L : limits) (e : loop_env) (i : Nat) :
    ∀ (fuel j0 : Nat) (t : sys_state) (nfds : Int), i < j0 →
      contact_at t i = empty_contact →
      contact_at (contact_loop L e fuel j0 t nfds) i = empty_contact := by
  intro fuel
  induction fuel with
  | zero => intro j0 t nfds _ h; exact h
  | succ fuel ih =>
    intro j0 t nfds hlt h
    simp only [contact_loop]
    split
    · apply ih (j0 + 1) _ _ (by omega)
      rcases contact_step_slot_other L e j0 i t nfds (by omega) with h1 | h1
      · rw [h1]; exact h
      · exact h1
    · exact h

/-- When no slot from `j0` on is readable, the contact loop changes nothing. -/
theorem contact_loop_idle (L : limits) (e : loop_env) :
    ∀ (fuel j0 : Nat) (t : sys_state) (nfds : Int),
      (∀ j, j0 ≤ j → j < t.cnf.cl.length → e.rset (contact_at t j).fd = false) →
      contact_loop L e fuel j0 t nfds = t := by
  intro fuel
  induction fuel with
  | zero => intro j0 t nfds _; rfl
  | succ fuel ih =>
    intro j0 t nfds h
    simp only [contact_loop]
    split
    · rename_i hc
      rw [contact_step_not_ready L e j0 t nfds (h j0 (le_refl _) hc.2)]
      exact ih (j0 + 1) t nfds (fun j hj hlt => h j (by omega) hlt)
    · rfl

/-- While no slot before `i` is readable and `nfds` is not 0, the contact loop
reaches position `i` with the state it started from. -/
theorem contact_loop_skip (L : limits) (e : loop_env) :
    ∀ (k fuel j0 : Nat) (t : sys_state) (nfds : Int),
      (∀ j, j0 ≤ j → j < j0 + k → e.rset (contact_at t j).fd = false) →
      j0 + k ≤ t.cnf.cl.length → nfds ≠ 0 →
      contact_loop L e (fuel + k) j0 t nfds = contact_loop L e fuel (j0 + k) t nfds := by
  intro k
  induction k with
  | zero => intro fuel j0 t nfds _ _ _; rfl
  | succ k ih =>
    intro fuel j0 t nfds h hlen hn
    have hf : fuel + (k + 1) = (fuel + k) + 1 := by omega
    have hc : nfds ≠ 0 ∧ j0 < t.cnf.cl.length := ⟨hn, by omega⟩
    rw [hf]
    simp only [contact_loop, if_pos hc]
    rw [contact_step_not_ready L e j0 t nfds (h j0 (le_refl _) (by omega))]
    rw [ih fuel (j0 + 1) t nfds (fun j hj hlt => h j (by omega) (by omega)) (by omega) hn]
    congr 1
    omega

/-- The contact loop removes a failing contact. Let slot `i` hold the contact
`c`, occupied and readable, or be zeroed already, and let the input handler
report `-1` or `0` without touching the state whenever slot `i` is in one of
these two conditions. If the loop is due to reach position `i` (no slot before
`i` is readable and `nfds` is not 0, or `nfds` exceeds the number of positions
before `i`, or `nfds` is negative), slot `i` is zeroed when the loop ends. -/
theorem contact_loop_removes (L : limits) (e : loop_env) (i : Nat) (c : contact_t)
    (hc : in_use c) (hready : e.rset c.fd = true)
    (hfail : ∀ t : sys_state, contact_at t i = c ∨ contact_at t i = empty_contact →
      ∃ r, handle_remote_input L t i (e.pdus i) = (t, r) ∧ (r = -1 ∨ r = 0)) :
    ∀ (fuel j0 : Nat) (t : sys_state) (nfds : Int), j0 ≤ i → i < t.cnf.cl.length →
      i < j0 + fuel → (contact_at t i = c ∨ contact_at t i = empty_contact) →
      (((∀ j, j0 ≤ j → j < i → e.rset (contact_at t j).fd = false) ∧ nfds ≠ 0) ∨
        ((i : Int) - (j0 : Int) < nfds ∨ nfds < 0)) →
      contact_at (contact_loop L e fuel j0 t nfds) i = empty_contact := by
  intro fuel
  induction fuel with
  | zero => intro j0 t nfds h1 _ h3; omega
  | succ fuel ih =>
    intro j0 t nfds hle hlen hfuel hslot hdue
    have hn : nfds ≠ 0 := by
      rcases hdue with ⟨_, h⟩ | h | h
      · exact h
      · omega
      · omega
    have hcond : nfds ≠ 0 ∧ j0 < t.cnf.cl.length := ⟨hn, by omega⟩
    simp only [contact_loop, if_pos hcond]
    by_cases hji : j0 = i
    · subst hji
      obtain ⟨r, hret, hr⟩ := hfail t hslot
      apply contact_loop_slot_empty L e j0 fuel (j0 + 1) _ _ (by omega)
      apply contact_step_fail_slot L e j0 t nfds r hlen _ hret hr
      rcases hslot with h | h
      · left; rw [h]; exact ⟨hc, hready⟩
      · right; exact h
    · have hlt : j0 < i := by omega
      apply ih (j0 + 1) _ _ (by omega) (by rw [contact_step_length]; exact hlen) (by omega)
      · rcases contact_step_slot_other L e j0 i t nfds (by omega) with h1 | h1
        · rw [h1]; exact hslot
        · right; exact h1
      · rcases hdue with ⟨hidle, _⟩ | h
        · left
          rw [contact_step_not_ready L e j0 t nfds (hidle j0 (le_refl _) hlt)]
          exact ⟨fun j hj hjl => hidle j (by omega) hjl, hn⟩
        · right
          rcases contact_step_nfds L e j0 t nfds with h2 | h2
          · rw [h2]; push_cast; omega
          · rw [h2]; push_cast; omega

/-- When slot `i` is the only readable one, the contact loop handles exactly
that slot: a failing contact there is closed and zeroed and nothing else changes. -/
theorem contact_loop_only (L : limits) (e : loop_env) (i : Nat) (t : sys_state) (nfds : Int)
    (r : Int) (hi : i < t.cnf.cl.length) (huse : in_use (contact_at t i))
    (hready : e.rset (contact_at t i).fd = true)
    (hret : handle_remote_input L t i (e.pdus i) = (t, r)) (hr : r = -1 ∨ r = 0)
    (hn : nfds ≠ 0)
    (hidle : ∀ j, j < t.cnf.cl.length → j ≠ i → e.rset (contact_at t j).fd = false) :
    contact_loop L e t.cnf.cl.length 0 t nfds =
      set_contact (emit (emit t (ev_close (contact_at t i).fd))
        (ev_close (contact_at t i).fd)) i empty_contact := by
  obtain ⟨f, hf⟩ : ∃ f, t.cnf.cl.length = (f + 1) + i := ⟨t.cnf.cl.length - i - 1, by omega⟩
  rw [hf, contact_loop_skip L e i (f + 1) 0 t nfds
    (fun j _ hj => hidle j (by omega) (by omega)) (by omega) hn]
  have hcond : nfds ≠ 0 ∧ 0 + i < t.cnf.cl.length := ⟨hn, by omega⟩
  simp only [contact_loop, if_pos hcond]
  rw [Nat.zero_add, contact_step_fail L e i t nfds r hi huse hready hret hr]
  apply contact_loop_idle
  intro j hj hlt
  rw [contact_at_set_contact_other _ i j empty_contact (by omega), contact_at_emit,
    contact_at_emit]
  apply hidle j _ (by omega)
  simpa [set_contact, emit] using hlt

/-- Whatever `th_new_input` is given to read, the pipe it leaves starts with
what the pipe held before: the shuttle only appends. -/
theorem th_new_input_extends (wr : Nat → Int) :
    ∀ (lines : List cstr) (pipe : List Nat) (k : Nat),
      ∃ more, (th_new_input wr lines pipe k).1 = pipe ++ more := by
  intro lines
  induction lines with
  | nil => intro pipe k; exact ⟨[], by simp [th_new_input]⟩
  | cons l ls ih =>
    intro pipe k
    unfold th_new_input
    dsimp only
    split
    · exact ⟨[], by simp⟩
    · split
      · split
        · exact ⟨[], by simp⟩
        · split
          · exact ⟨int_bytes 1, rfl⟩
          · obtain ⟨more, h⟩ := ih (pipe ++ int_bytes 1 ++ [10]) (k + 2)
            exact ⟨int_bytes 1 ++ [10] ++ more, by rw [h]; simp⟩
      · split
        · exact ⟨[], by simp⟩
        · split
          · exact ⟨int_bytes (to_int l.length), rfl⟩
          · obtain ⟨more, h⟩ := ih (pipe ++ int_bytes (to_int l.length) ++
              line_bytes (l.take (to_int l.length).toNat)) (k + 2)
            exact ⟨int_bytes (to_int l.length) ++
              line_bytes (l.take (to_int l.length).toNat) ++ more, by rw [h]; simp⟩

/-- A record whose line is longer than what the second `read` is handed: the
`read` returns short, the buffer keeps what `malloc` left behind the bytes that
arrived, and the rest of the line stays in the pipe. -/
theorem pipe_reads_short (v : round_env) (n1 n2 : Nat) (n : Int) (body more : List Nat)
    (hfirst : v.first = some n1) (hsecond : v.second = some n2) (h4 : 4 ≤ n1)
    (hn0 : 0 < n) (hn1 : n < 2147483648) (hbody : body.length = n.toNat)
    (hshort : n2 < body.length) :
    pipe_reads v (int_bytes n ++ body ++ more) =
      { len_read := 4, len := n, line_read := (n2 : Int),
        bytes := (body.take n2).map Char.ofNat ++
          (List.range (n.toNat - n2)).map (fun i => v.junk (n2 + i)),
        rest := body.drop n2 ++ more } := by
  have hm1 : min 4 n1 = 4 := Nat.min_eq_left h4
  have hm2 : min n.toNat n2 = n2 := Nat.min_eq_right (by omega)
  have htake : (int_bytes n ++ body ++ more).take 4 = int_bytes n := by
    rw [List.append_assoc]
    exact List.take_left' (int_bytes_length n)
  have hdrop : (int_bytes n ++ body ++ more).drop 4 = body ++ more := by
    rw [List.append_assoc]
    exact List.drop_left' (int_bytes_length n)
  have hret : bytes_int (int_bytes n ++ (int_bytes v.stale).drop 4) = n := by
    have : (int_bytes v.stale).drop 4 = [] := rfl
    rw [this, List.append_nil]
    exact bytes_int_int_bytes n (le_of_lt hn0) hn1
  have ht : (body ++ more).take n2 = body.take n2 :=
    List.take_append_of_le_length (le_of_lt hshort)
  have hd : (body ++ more).drop n2 = body.drop n2 ++ more :=
    List.drop_append_of_le_length (le_of_lt hshort)
  have hl : (body.take n2).length = n2 := by
    rw [List.length_take]; exact Nat.min_eq_left (le_of_lt hshort)
  unfold pipe_reads
  simp only [hfirst, hsecond, read_pipe, SIZEOF_INT, hm1, htake, hdrop, int_bytes_length,
    hret, hm2, ht, hd, hl, Nat.cast_ofNat]

/-- The NUL-terminated string in a buffer that holds bytes other than NUL and
then a NUL. -/
theorem c_string_append_nul (l m : List Char) (h : ∀ ch ∈ l, ch ≠ Char.ofNat 0) :
    c_string (l ++ Char.ofNat 0 :: m) = l := by
  unfold c_string
  induction l with
  | nil => simp [List.takeWhile]
  | cons c cs ih =>
    have hc : c ≠ Char.ofNat 0 := h c (List.mem_cons_self _ _)
    rw [List.cons_append, List.takeWhile_cons]
    simp only [hc, ne_eq, not_false_eq_true, decide_True, if_true]
    rw [ih (fun x hx => h x (List.mem_cons_of_mem _ hx))]

/-- A line of letters `a` is one that the shuttle forwards, up to `2^31` bytes
and apart from the length of `/exit`. -/
theorem replicate_forwardable (n : Nat) (h5 : n ≠ 5) (hn : n < 2147483648) :
    forwardable (List.replicate n 'a') := by
  refine ⟨?_, ?_, ?_⟩
  · intro h
    have h1 := congrArg List.length h
    rw [List.length_replicate] at h1
    exact h5 h1
  · rw [List.length_replicate]; exact hn
  · intro ch hch
    rw [List.mem_replicate] at hch
    rw [hch.2]
    decide

/-- The run of the multiplexer on the records of a line of `cap + 1` letters
`a` and of the line `hi`, when every `read` is handed at most `cap` bytes and
the block of `malloc` is zeroed: the first round gets `cap` letters, and the
second reads the last letter and the three bytes behind it as a length. -/
theorem long_line_decoded (cap : Nat) (v : round_env) (h4 : 4 ≤ cap)
    (hcap : cap + 1 < 2147483648) (hfirst : v.first = some cap) (hsecond : v.second = some cap)
    (hjunk : ∀ i, v.junk i = Char.ofNat 0) (fuel : Nat) (hfuel : 2 ≤ fuel) :
    user_input_lines (fun _ => v) fuel 0 (frames [List.replicate (cap + 1) 'a', ['h', 'i']])
      = [List.replicate cap 'a', []] := by
  obtain ⟨f, rfl⟩ : ∃ f, fuel = f + 1 + 1 := ⟨fuel - 2, by omega⟩
  have hnil : List.replicate (cap + 1) 'a' ≠ [] := by
    intro h
    have h1 := congrArg List.length h
    rw [List.length_replicate] at h1
    simp at h1
  have hframe : frames [List.replicate (cap + 1) 'a', ['h', 'i']]
      = int_bytes ((cap + 1 : Nat) : Int) ++ List.replicate (cap + 1) 97
          ++ [2, 0, 0, 0, 104, 105] := by
    have h2 : frame ['h', 'i'] = [2, 0, 0, 0, 104, 105] := by decide
    simp only [frames, h2, List.append_nil]
    unfold frame
    rw [if_neg hnil, List.length_replicate, line_bytes, List.map_replicate]
    rfl
  have hr := pipe_reads_short v cap cap ((cap + 1 : Nat) : Int) (List.replicate (cap + 1) 97)
    [2, 0, 0, 0, 104, 105] hfirst hsecond h4 (by omega) (by omega)
    (by rw [List.length_replicate, Int.toNat_ofNat])
    (by rw [List.length_replicate]; omega)
  have hne : int_bytes ((cap + 1 : Nat) : Int) ++ List.replicate (cap + 1) 97
      ++ [2, 0, 0, 0, 104, 105] ≠ [] := by
    simp [int_bytes]
  -- the first round
  have hline : stdin_line 4 ((cap + 1 : Nat) : Int) (cap : Int)
      (List.map Char.ofNat (List.take cap (List.replicate (cap + 1) 97)) ++
        List.map (fun i => v.junk (cap + i))
          (List.range ((((cap + 1 : Nat) : Int)).toNat - cap)))
      = some (List.replicate cap 'a') := by
    have h1 : (((cap + 1 : Nat) : Int)).toNat - cap = 1 := by
      rw [Int.toNat_ofNat]; omega
    have h2 : List.map Char.ofNat (List.take cap (List.replicate (cap + 1) 97))
        = List.replicate cap 'a' := by
      rw [List.take_replicate, List.map_replicate, Nat.min_eq_left (Nat.le_succ cap)]
    have h3 : List.map (fun i => v.junk (cap + i)) (List.range 1) = [Char.ofNat 0] := by
      simp [List.range_succ, hjunk]
    rw [h1, h2, h3]
    unfold stdin_line
    have h5 : ¬ ((4 : Int) < 0) := by omega
    have h6 : ¬ ((cap : Int) < 0 ∨ ((cap + 1 : Nat) : Int) ≤ 0) := by omega
    rw [if_neg h5, if_neg h6, Int.toNat_ofNat]
    have h7 : (List.replicate cap 'a' ++ [Char.ofNat 0]).take (cap + 1)
        = List.replicate cap 'a' ++ [Char.ofNat 0] := by
      apply List.take_of_length_le
      simp
    rw [h7, c_string_append_nul]
    intro ch hch
    rw [List.mem_replicate] at hch
    rw [hch.2]
    decide
  have hrest : List.drop cap (List.replicate (cap + 1) 97) ++ [2, 0, 0, 0, 104, 105]
      = [97, 2, 0, 0, 0, 104, 105] := by
    rw [List.drop_replicate, Nat.add_sub_cancel_left]
    rfl
  -- the second round
  have hround1 : pipe_reads v [97, 2, 0, 0, 0, 104, 105] =
      { len_read := 4, len := 609, line_read := 3,
        bytes := [Char.ofNat 0, 'h', 'i'] ++
          (List.range (609 - 3)).map (fun i => v.junk (3 + i)),
        rest := [] } := by
    have ht : List.take (min 609 cap) [0, 104, 105] = [0, 104, 105] := by
      apply List.take_of_length_le
      have h3 : 3 ≤ min 609 cap := by omega
      exact h3
    have hd : List.drop (min 609 cap) [0, 104, 105] = [] := by
      apply List.drop_of_length_le
      have h3 : 3 ≤ min 609 cap := by omega
      exact h3
    have hb : bytes_int ([97, 2, 0, 0] ++ (int_bytes v.stale).drop 4) = 609 := by
      have : (int_bytes v.stale).drop 4 = [] := rfl
      rw [this]
      decide
    unfold pipe_reads
    simp only [hfirst, hsecond, read_pipe, SIZEOF_INT, Nat.min_eq_left h4]
    have e1 : List.take 4 [97, 2, 0, 0, 0, 104, 105] = [97, 2, 0, 0] := rfl
    have e2 : List.drop 4 [97, 2, 0, 0, 0, 104, 105] = [0, 104, 105] := rfl
    have e3 : ([97, 2, 0, 0] : List Nat).length = 4 := rfl
    have e4 : (609 : Int).toNat = 609 := rfl
    rw [e1, e2, e3, hb, e4, ht, hd]
    rfl
  have hline1 : stdin_line 4 609 3
      ([Char.ofNat 0, 'h', 'i'] ++ (List.range (609 - 3)).map (fun i => v.junk (3 + i)))
      = some [] := by
    unfold stdin_line
    have h5 : ¬ ((4 : Int) < 0) := by omega
    have h6 : ¬ ((3 : Int) < 0 ∨ (609 : Int) ≤ 0) := by omega
    rw [if_neg h5, if_neg h6]
    have e4 : (609 : Int).toNat = 608 + 1 := rfl
    rw [e4, List.cons_append, List.take_succ_cons]
    exact congrArg some (c_string_append_nul [] _ (by simp))
  rw [hframe]
  simp only [user_input_lines, if_neg hne, hr, hline, hrest]
  have hne1 : ([97, 2, 0, 0, 0, 104, 105] : List Nat) ≠ [] := by simp
  rw [if_neg hne1, hround1]
  simp only [hline1]
  cases f <;> simp [user_input_lines]

/-- With no `write` failing, the shuttle leaves in the pipe the records of the
lines it read up to EOF, and returns 0. -/
theorem th_new_input_all (wr : Nat → Int) (hw : ∀ k, wr k ≠ -1) (lines : List cstr)
    (hl : ∀ l ∈ lines, forwardable l) : th_new_input wr lines [] 0 = (frames lines, 0) := by
  have h := th_new_input_frames wr hw lines hl [] [] 0
  rw [List.append_nil] at h
  rw [h]
  simp [th_new_input]

/-! ## The claims -/

/-- C1. First-PDU gate. For a contact in slot `n` that is not yet identified
(empty onion id, or port 0, or empty nickname) and a PDU that was read
successfully and is not a Control/Discover, `handle_remote_input` returns `-1`
and leaves the whole state, hence every identity field of the contact,
untouched; the loop body of `th_main_loop` for that slot then zeroes the slot.
The block CHECK CONTACTS as a whole ends with slot `n` zeroed whenever its loop
is due to reach position `n` (no slot before `n` is readable and `nfds` is not
0, or `nfds` exceeds `n`, or `nfds` is negative), and with exactly the list of
before with slot `n` zeroed when no other slot is readable. An iteration of
`th_main_loop` in which none of the `user_input` pipe, the listening socket and
the `cl_change` pipe is readable goes on to its next round with the contact
removed in the same way. -/
theorem C1_first_pdu_gate (L : limits) (s : sys_state) (n : Nat) (rd : read_result)
    (e : loop_env) (nfds : Int)
    (hn : n < s.cnf.cl.length) (huse : in_use (contact_at s n))
    (hun : unidentified (contact_at s n))
    (herr : rd.len ≠ -1) (heof : rd.len ≠ 0)
    (hct : rd.pdu.content_type ≠ CT_CTRL_DISC)
    (hready : e.rset (contact_at s n).fd = true) (hrd : e.pdus n = rd) :
    handle_remote_input L s n rd = (s, -1) ∧
    (contact_step L e n s nfds).1.cnf.cl = s.cnf.cl.set n empty_contact ∧
    contact_at (contact_step L e n s nfds).1 n = empty_contact ∧
    ((((∀ j, j < n → e.rset (contact_at s j).fd = false) ∧ nfds ≠ 0) ∨
        ((n : Int) < nfds ∨ nfds < 0)) →
      contact_at (check_contacts L s e nfds) n = empty_contact) ∧
    (nfds ≠ 0 →
      (∀ j, j < s.cnf.cl.length → j ≠ n → e.rset (contact_at s j).fd = false) →
      (check_contacts L s e nfds).cnf.cl = s.cnf.cl.set n empty_contact) ∧
    (e.rset s.cnf.user_input_rd = false → e.rset s.cnf.acpt_fd = false →
      e.rset s.cnf.cl_change_rd = false →
      (((∀ j, j < n → e.rset (contact_at s j).fd = false) ∧ e.sel_nfds ≠ 0) ∨
        ((n : Int) < e.sel_nfds ∨ e.sel_nfds < 0)) →
      (th_main_loop_iter L s e).2 = next ∧
      contact_at (th_main_loop_iter L s e).1 n = empty_contact ∧
      (e.sel_nfds ≠ 0 →
        (∀ j, j < s.cnf.cl.length → j ≠ n → e.rset (contact_at s j).fd = false) →
        (th_main_loop_iter L s e).1.cnf.cl = s.cnf.cl.set n empty_contact)) := by
  have hgate : ∀ t : sys_state,
      contact_at t n = contact_at s n ∨ contact_at t n = empty_contact →
      ∃ r, handle_remote_input L t n (e.pdus n) = (t, r) ∧ (r = -1 ∨ r = 0) := by
    intro t ht
    refine ⟨-1, ?_, Or.inl rfl⟩
    have hu : unidentified (contact_at t n) := by
      rcases ht with h | h
      · rw [h]; exact hun
      · rw [h]; decide
    unfold handle_remote_input
    simp [hrd, herr, heof, hu, hct]
  have h1 : ∀ t : sys_state, contact_at t n = contact_at s n →
      handle_remote_input L t n (e.pdus n) = (t, -1) := by
    intro t ht
    have hu : unidentified (contact_at t n) := by rw [ht]; exact hun
    unfold handle_remote_input
    simp [hrd, herr, heof, hu, hct]
  have h2 : contact_step L e n s nfds =
      (set_contact (emit (emit s (ev_close (contact_at s n).fd))
        (ev_close (contact_at s n).fd)) n empty_contact, nfds - 1) :=
    contact_step_fail L e n s nfds (-1) hn huse hready (h1 s rfl) (Or.inl rfl)
  have hloop : ∀ (t : sys_state) (k : Int), t.cnf.cl = s.cnf.cl →
      (((∀ j, j < n → e.rset (contact_at s j).fd = false) ∧ k ≠ 0) ∨
        ((n : Int) < k ∨ k < 0)) →
      contact_at (check_contacts L t e k) n = empty_contact := by
    intro t k ht hdue
    have hat : ∀ j, contact_at (emit t ev_mutex_lock) j = contact_at s j := by
      intro j; simp [contact_at, emit, ht]
    unfold check_contacts
    rw [contact_at_emit]
    apply contact_loop_removes L e n (contact_at s n) huse hready hgate
      t.cnf.cl.length 0 (emit t ev_mutex_lock) k (Nat.zero_le _)
    · show n < t.cnf.cl.length
      rw [ht]; exact hn
    · rw [ht]; omega
    · left; exact hat n
    · rcases hdue with ⟨hidle, hk⟩ | h
      · left
        exact ⟨fun j _ hj => by rw [hat j]; exact hidle j hj, hk⟩
      · right
        simpa using h
  have hexact : ∀ (t : sys_state) (k : Int), t.cnf.cl = s.cnf.cl → k ≠ 0 →
      (∀ j, j < s.cnf.cl.length → j ≠ n → e.rset (contact_at s j).fd = false) →
      (check_contacts L t e k).cnf.cl = s.cnf.cl.set n empty_contact := by
    intro t k ht hk hidle
    have hat : ∀ j, contact_at (emit t ev_mutex_lock) j = contact_at s j := by
      intro j; simp [contact_at, emit, ht]
    have hlen : (emit t ev_mutex_lock).cnf.cl.length = s.cnf.cl.length := by
      simp [emit, ht]
    unfold check_contacts
    have hl : t.cnf.cl.length = (emit t ev_mutex_lock).cnf.cl.length := rfl
    rw [hl, contact_loop_only L e n (emit t ev_mutex_lock) k (-1) (by rw [hlen]; exact hn)
      (by rw [hat n]; exact huse) (by rw [hat n]; exact hready) (h1 _ (hat n)) (Or.inl rfl) hk
      (fun j hj hne => by rw [hat j]; exact hidle j (by rw [← hlen]; exact hj) hne)]
    simp [emit, set_contact, ht]
  refine ⟨?_, ?_, ?_, hloop s nfds rfl, hexact s nfds rfl, ?_⟩
  · rw [← hrd]; exact h1 s rfl
  · rw [h2]; rfl
  · rw [h2]
    exact contact_at_set_contact_same _ n empty_contact hn
  · intro a b c hdue
    have hit : th_main_loop_iter L s e =
        (check_contacts L (emit (emit s ev_mutex_lock) ev_mutex_unlock) e e.sel_nfds, next) := by
      unfold th_main_loop_iter check_stdin check_listening check_new_conn
      simp [emit, a, b, c]
    rw [hit]
    exact ⟨rfl, hloop _ _ rfl hdue, fun hk hidle => hexact _ _ rfl hk hidle⟩

/-- C1, witness: bob is identified and idle, a freshly accepted contact in slot
1 sends a Text/Plain PDU first; the iteration of `th_main_loop` goes on with
bob kept and slot 1 zeroed. -/
theorem C1_first_pdu_gate_witness :
    handle_remote_input ex_limits (ex_conf [ex_bob, ex_new]) 1 ⟨5, ex_pdu CT_TXT_PLAIN⟩
      = (ex_conf [ex_bob, ex_new], -1) ∧
    (contact_step ex_limits (ex_env [10] ⟨5, ex_pdu CT_TXT_PLAIN⟩) 1
      (ex_conf [ex_bob, ex_new]) 1).1.cnf.cl = [ex_bob, empty_contact] ∧
    (check_contacts ex_limits (ex_conf [ex_bob, ex_new])
      (ex_env [10] ⟨5, ex_pdu CT_TXT_PLAIN⟩) 1).cnf.cl = [ex_bob, empty_contact] ∧
    (th_main_loop_iter ex_limits (ex_conf [ex_bob, ex_new])
      (ex_env [10] ⟨5, ex_pdu CT_TXT_PLAIN⟩)).2 = next ∧
    (th_main_loop_iter ex_limits (ex_conf [ex_bob, ex_new])
      (ex_env [10] ⟨5, ex_pdu CT_TXT_PLAIN⟩)).1.cnf.cl = [ex_bob, empty_contact] :=
  have h := C1_first_pdu_gate ex_limits (ex_conf [ex_bob, ex_new]) 1 ⟨5, ex_pdu CT_TXT_PLAIN⟩
    (ex_env [10] ⟨5, ex_pdu CT_TXT_PLAIN⟩) 1
    (by decide) (by decide) (by decide) (by decide) (by decide) (by decide) (by decide) rfl
  have hidle : ∀ j, j < (ex_conf [ex_bob, ex_new]).cnf.cl.length → j ≠ 1 →
      (ex_env [10] ⟨5, ex_pdu CT_TXT_PLAIN⟩).rset (contact_at (ex_conf [ex_bob, ex_new]) j).fd
        = false := by decide
  have hit := h.2.2.2.2.2 (by decide) (by decide) (by decide) (Or.inl ⟨by decide, by decide⟩)
  ⟨h.1, h.2.1, h.2.2.2.2.1 (by decide) hidle, hit.1, hit.2.2 (by decide) hidle⟩

/-- C2. Identity change is fatal. For a contact in slot `n` whose stored onion
id is non-empty and differs from the Onion-ID of a Control/Discover PDU
(respectively whose stored port is non-zero and differs from its
Listening-Port), `handle_remote_input` calls `del_contact(cnf, n)` on the
unmodified state and returns `-1`; the list afterwards is the old list with
slot `n` zeroed, so nothing of the PDU has been stored. -/
theorem C2_identity_change_fatal (L : limits) (s : sys_state) (n : Nat) (rd : read_result)
    (hn : n < s.cnf.cl.length) (huse : in_use (contact_at s n))
    (herr : rd.len ≠ -1) (heof : rd.len ≠ 0)
    (hct : rd.pdu.content_type = CT_CTRL_DISC)
    (hchg : ((contact_at s n).onion_id ≠ [] ∧ (contact_at s n).onion_id ≠ rd.pdu.onion_id) ∨
      ((contact_at s n).lport ≠ 0 ∧ (contact_at s n).lport ≠ rd.pdu.lport)) :
    handle_remote_input L s n rd = ((del_contact s n).1, -1) ∧
    (handle_remote_input L s n rd).1.cnf.cl = s.cnf.cl.set n empty_contact := by
  have h1 : handle_remote_input L s n rd = ((del_contact s n).1, -1) := by
    unfold handle_remote_input
    simp only [if_neg herr, if_neg heof, hct]
    rcases hchg with h | h
    · simp [h.1, h.2]
    · by_cases ho : (contact_at s n).onion_id ≠ [] ∧ (contact_at s n).onion_id ≠ rd.pdu.onion_id
      · simp [ho.1, ho.2]
      · simp [h.1, h.2]
  refine ⟨h1, ?_⟩
  rw [h1, del_contact_in_use s n hn huse]
  rfl

/-- C2, witness: bob announces another onion id. -/
theorem C2_identity_change_fatal_witness :
    handle_remote_input ex_limits (ex_conf [ex_new, ex_bob]) 1
        ⟨5, { ex_pdu CT_CTRL_DISC with onion_id := ['c', 'c', 'c', 'c'] }⟩
      = ((del_contact (ex_conf [ex_new, ex_bob]) 1).1, -1) ∧
    (handle_remote_input ex_limits (ex_conf [ex_new, ex_bob]) 1
        ⟨5, { ex_pdu CT_CTRL_DISC with onion_id := ['c', 'c', 'c', 'c'] }⟩).1.cnf.cl
      = (ex_conf [ex_new, ex_bob]).cnf.cl.set 1 empty_contact :=
  C2_identity_change_fatal ex_limits (ex_conf [ex_new, ex_bob]) 1
    ⟨5, { ex_pdu CT_CTRL_DISC with onion_id := ['c', 'c', 'c', 'c'] }⟩
    (by decide) (by decide) (by decide) (by decide) rfl (Or.inl (by decide))

/-- C3. Identity is frozen. For a contact in slot `n` with a non-empty onion id
(one that fits its buffer of `ONION_ADDRLEN` characters) and a non-zero port,
and for any result of `read_pdu`, if slot `n` is still occupied after
`handle_remote_input`, the contact differs from the one before the call at
most in its nickname: onion id and port (and descriptor and accepted flag) are
the same. -/
theorem C3_identity_frozen (L : limits) (s : sys_state) (n : Nat) (rd : read_result)
    (hn : n < s.cnf.cl.length)
    (ho : (contact_at s n).onion_id ≠ []) (hp : (contact_at s n).lport ≠ 0)
    (hbuf : (contact_at s n).onion_id.length ≤ L.ONION_ADDRLEN)
    (hstill : in_use (contact_at (handle_remote_input L s n rd).1 n)) :
    contact_at (handle_remote_input L s n rd).1 n =
      { contact_at s n with name := (contact_at (handle_remote_input L s n rd).1 n).name } := by
  have hdel : ∀ r : Int, in_use (contact_at ((del_contact s n).1, r).1 n) →
      contact_at (del_contact s n).1 n = contact_at s n := by
    intro r h
    rcases contact_at_del_contact_same s n with h1 | h1
    · exact h1
    · exfalso; simp only [h1] at h; exact h rfl
  by_cases herr : rd.len = -1
  · simp [handle_remote_input, herr]
  by_cases heof : rd.len = 0
  · simp [handle_remote_input, heof]
  by_cases hct : rd.pdu.content_type = CT_CTRL_DISC
  · by_cases h1 : (contact_at s n).onion_id = rd.pdu.onion_id
    · by_cases h2 : (contact_at s n).lport = rd.pdu.lport
      · rw [handle_remote_input_discover L s n rd herr heof hct (Or.inr h1) (Or.inr h2)]
        simp only [contact_at_after_discover L s n rd.pdu hn]
        rw [← h1, ← h2, List.take_of_length_le hbuf]
      · have hr : handle_remote_input L s n rd = ((del_contact s n).1, -1) := by
          unfold handle_remote_input
          simp [herr, heof, hct, h1, h2, hp]
        rw [hr] at hstill ⊢
        have := hdel _ hstill
        simp [this]
    · have hr : handle_remote_input L s n rd = ((del_contact s n).1, -1) := by
        unfold handle_remote_input
        simp [herr, heof, hct, h1, ho]
      rw [hr] at hstill ⊢
      have := hdel _ hstill
      simp [this]
  · by_cases hg : unidentified (contact_at s n)
    · simp [handle_remote_input, herr, heof, hct, hg]
    · by_cases htxt : rd.pdu.content_type = CT_TXT_PLAIN
      · simp [handle_remote_input, herr, heof, hct, hg, htxt, contact_at_emit]
      · simp [handle_remote_input, herr, heof, hct, hg, htxt]

/-- C3, witness: bob announces a new nickname and keeps onion id and port. -/
theorem C3_identity_frozen_witness :
    contact_at (handle_remote_input ex_limits (ex_conf [ex_new, ex_bob]) 1
        ⟨5, { ex_pdu CT_CTRL_DISC with nickname := ['r', 'o', 'b'] }⟩).1 1 =
      { contact_at (ex_conf [ex_new, ex_bob]) 1 with
        name := (contact_at (handle_remote_input ex_limits (ex_conf [ex_new, ex_bob]) 1
          ⟨5, { ex_pdu CT_CTRL_DISC with nickname := ['r', 'o', 'b'] }⟩).1 1).name } :=
  C3_identity_frozen ex_limits (ex_conf [ex_new, ex_bob]) 1
    ⟨5, { ex_pdu CT_CTRL_DISC with nickname := ['r', 'o', 'b'] }⟩
    (by decide) (by decide) (by decide) (by decide) (by decide)

/-- C5. First Control/Discover applies the identity. For a newly accepted
contact in slot `n` (empty onion id, port 0, empty nickname) and a
Control/Discover PDU read with positive length, when `check_duplicates` finds
nothing to prune, `handle_remote_input` returns that length and the list
afterwards is the old list with slot `n` carrying the first `MAX_NICKNAME`
characters of the Nickname, the first `ONION_ADDRLEN` characters of the
Onion-ID and the Listening-Port of the PDU. -/
theorem C5_first_discover_sets_identity (L : limits) (s : sys_state) (n : Nat)
    (rd : read_result) (hn : n < s.cnf.cl.length)
    (ho : (contact_at s n).onion_id = []) (hp : (contact_at s n).lport = 0)
    (_hname : (contact_at s n).name = [])
    (hlen : 0 < rd.len) (hct : rd.pdu.content_type = CT_CTRL_DISC)
    (hnodup : check_duplicates (set_contact s n
      { contact_at s n with
        name := rd.pdu.nickname.take L.MAX_NICKNAME
        onion_id := rd.pdu.onion_id.take L.ONION_ADDRLEN
        lport := rd.pdu.lport }) n = -1) :
    (handle_remote_input L s n rd).2 = rd.len ∧ 0 < (handle_remote_input L s n rd).2 ∧
    (handle_remote_input L s n rd).1.cnf.cl = s.cnf.cl.set n
      { contact_at s n with
        name := rd.pdu.nickname.take L.MAX_NICKNAME
        onion_id := rd.pdu.onion_id.take L.ONION_ADDRLEN
        lport := rd.pdu.lport } ∧
    (contact_at (handle_remote_input L s n rd).1 n).name = rd.pdu.nickname.take L.MAX_NICKNAME ∧
    (contact_at (handle_remote_input L s n rd).1 n).onion_id
      = rd.pdu.onion_id.take L.ONION_ADDRLEN ∧
    (contact_at (handle_remote_input L s n rd).1 n).lport = rd.pdu.lport := by
  have herr : rd.len ≠ -1 := by omega
  have heof : rd.len ≠ 0 := by omega
  rw [handle_remote_input_discover L s n rd herr heof hct (Or.inl ho) (Or.inl hp)]
  refine ⟨rfl, hlen, ?_, ?_, ?_, ?_⟩
  · unfold after_discover
    simp only [hnodup]
    rfl
  all_goals simp only [contact_at_after_discover L s n rd.pdu hn]

/-- C5, witness: the freshly accepted contact announces itself as bob. -/
theorem C5_first_discover_sets_identity_witness :
    (handle_remote_input ex_limits (ex_conf [ex_new]) 0 ⟨5, ex_disc⟩).2 = 5 ∧
    (contact_at (handle_remote_input ex_limits (ex_conf [ex_new]) 0
      ⟨5, ex_disc⟩).1 0).name = ['b', 'o', 'b'] ∧
    (contact_at (handle_remote_input ex_limits (ex_conf [ex_new]) 0
      ⟨5, ex_disc⟩).1 0).onion_id = ['b', 'b', 'b', 'b'] ∧
    (contact_at (handle_remote_input ex_limits (ex_conf [ex_new]) 0
      ⟨5, ex_disc⟩).1 0).lport = 8888 :=
  have h := C5_first_discover_sets_identity ex_limits (ex_conf [ex_new]) 0
    ⟨5, ex_disc⟩ (by decide) rfl rfl rfl (by decide) rfl (by decide)
  ⟨h.1, h.2.2.2.1, h.2.2.2.2.1, h.2.2.2.2.2⟩

/-- C6. Identified-contact invariant. In every state reachable from the empty
list through `handle_remote_conn_request`, `handle_local_conn_request` and
`handle_remote_input` (with `read_pdu` delivering only PDUs that pass its
validation), every contact that has passed the first-PDU gate has an onion id
of length exactly `ONION_ADDRLEN`, a non-zero listening port and a nickname
whose length lies between 1 and `MAX_NICKNAME`. -/
theorem C6_identified_contact_invariant (L : limits) (s : sys_state)
    (hreach : reachable L any_dial (read_valid L) s) (n : Nat)
    (hid : identified (contact_at s n)) :
    (contact_at s n).onion_id.length = L.ONION_ADDRLEN ∧
    (contact_at s n).lport ≠ 0 ∧
    1 ≤ (contact_at s n).name.length ∧
    (contact_at s n).name.length ≤ L.MAX_NICKNAME := by
  have hname : (contact_at s n).name ≠ [] := fun h => hid (Or.inr (Or.inr h))
  obtain ⟨h1, h2, h3⟩ := named_wellformed_reachable L s hreach n hname
  refine ⟨h1, h2, ?_, h3⟩
  exact Nat.one_le_iff_ne_zero.mpr (fun h => hname (List.length_eq_zero.mp h))

/-- C6, witness: the state of the duplicate scenario after the first
announcement, whose slot 2 holds the identified contact bob. -/
theorem C6_identified_contact_invariant_witness :
    (contact_at ex_dup4 2).onion_id.length = ex_limits.ONION_ADDRLEN ∧
    (contact_at ex_dup4 2).lport ≠ 0 ∧
    1 ≤ (contact_at ex_dup4 2).name.length ∧
    (contact_at ex_dup4 2).name.length ≤ ex_limits.MAX_NICKNAME :=
  C6_identified_contact_invariant ex_limits ex_dup4
    (reachable.remote_input _ _ _
      (reachable.remote_conn _ _
        (reachable.local_conn _ _ _ _
          (reachable.local_conn _ _ _ _ (reachable.init (ex_conf []) rfl) trivial) trivial))
      (by decide) (by decide))
    2 (by decide)

/-- C8. EOF or protocol error removes exactly the offending contact. For an
occupied slot `i` whose descriptor is readable, if `read_pdu` reports an error
(`-1`) or EOF (`0`), `handle_remote_input` returns that value and leaves the
state as it was; the loop body of `th_main_loop` then zeroes slot `i`, leaves
every other slot as it was, and the contact loop goes on with position `i + 1`.
The block CHECK CONTACTS as a whole ends with slot `i` zeroed whenever its loop
is due to reach position `i` (no slot before `i` is readable and `nfds` is not
0, or `nfds` exceeds `i`, or `nfds` is negative), and with exactly the list of
before with slot `i` zeroed when no other slot is readable. An iteration of
`th_main_loop` in which none of the `user_input` pipe, the listening socket and
the `cl_change` pipe is readable removes the contact in the same way and goes
on to its next round; and any iteration whose first three blocks take no
`break` ends with the block CHECK CONTACTS and goes on. -/
theorem C8_eof_or_error_removes_contact (L : limits) (s : sys_state) (i : Nat)
    (rd : read_result) (e : loop_env) (nfds : Int)
    (hi : i < s.cnf.cl.length) (huse : in_use (contact_at s i))
    (hready : e.rset (contact_at s i).fd = true) (hrd : e.pdus i = rd)
    (hfail : rd.len = -1 ∨ rd.len = 0) :
    handle_remote_input L s i rd = (s, rd.len) ∧
    (contact_step L e i s nfds).1.cnf.cl = s.cnf.cl.set i empty_contact ∧
    contact_at (contact_step L e i s nfds).1 i = empty_contact ∧
    (∀ m, m ≠ i → contact_at (contact_step L e i s nfds).1 m = contact_at s m) ∧
    (∀ fuel, nfds ≠ 0 →
      contact_loop L e (fuel + 1) i s nfds
        = contact_loop L e fuel (i + 1) (contact_step L e i s nfds).1 (nfds - 1)) ∧
    ((((∀ j, j < i → e.rset (contact_at s j).fd = false) ∧ nfds ≠ 0) ∨
        ((i : Int) < nfds ∨ nfds < 0)) →
      contact_at (check_contacts L s e nfds) i = empty_contact) ∧
    (nfds ≠ 0 →
      (∀ j, j < s.cnf.cl.length → j ≠ i → e.rset (contact_at s j).fd = false) →
      (check_contacts L s e nfds).cnf.cl = s.cnf.cl.set i empty_contact ∧
      ∀ m, m ≠ i → contact_at (check_contacts L s e nfds) m = contact_at s m) ∧
    (e.rset s.cnf.user_input_rd = false → e.rset s.cnf.acpt_fd = false →
      e.rset s.cnf.cl_change_rd = false →
      (((∀ j, j < i → e.rset (contact_at s j).fd = false) ∧ e.sel_nfds ≠ 0) ∨
        ((i : Int) < e.sel_nfds ∨ e.sel_nfds < 0)) →
      (th_main_loop_iter L s e).2 = next ∧
      contact_at (th_main_loop_iter L s e).1 i = empty_contact ∧
      (e.sel_nfds ≠ 0 →
        (∀ j, j < s.cnf.cl.length → j ≠ i → e.rset (contact_at s j).fd = false) →
        (th_main_loop_iter L s e).1.cnf.cl = s.cnf.cl.set i empty_contact ∧
        ∀ m, m ≠ i → contact_at (th_main_loop_iter L s e).1 m = contact_at s m)) ∧
    (∀ s0 : sys_state,
      (check_stdin (emit (emit s0 ev_mutex_lock) ev_mutex_unlock) e e.sel_nfds).2.2 = next →
      (check_listening L
        (check_stdin (emit (emit s0 ev_mutex_lock) ev_mutex_unlock) e e.sel_nfds).1 e
        (check_stdin (emit (emit s0 ev_mutex_lock) ev_mutex_unlock) e e.sel_nfds).2.1).2.2
          = next →
      (check_new_conn
        (check_listening L
          (check_stdin (emit (emit s0 ev_mutex_lock) ev_mutex_unlock) e e.sel_nfds).1 e
          (check_stdin (emit (emit s0 ev_mutex_lock) ev_mutex_unlock) e e.sel_nfds).2.1).1 e
        (check_listening L
          (check_stdin (emit (emit s0 ev_mutex_lock) ev_mutex_unlock) e e.sel_nfds).1 e
          (check_stdin (emit (emit s0 ev_mutex_lock) ev_mutex_unlock) e e.sel_nfds).2.1).2.1).2.2
          = next →
      (th_main_loop_iter L s0 e).2 = next ∧
      (th_main_loop_iter L s0 e).1 =
        check_contacts L
          (check_new_conn
            (check_listening L
              (check_stdin (emit (emit s0 ev_mutex_lock) ev_mutex_unlock) e e.sel_nfds).1 e
              (check_stdin (emit (emit s0 ev_mutex_lock) ev_mutex_unlock) e e.sel_nfds).2.1).1 e
            (check_listening L
              (check_stdin (emit (emit s0 ev_mutex_lock) ev_mutex_unlock) e e.sel_nfds).1 e
              (check_stdin (emit (emit s0 ev_mutex_lock) ev_mutex_unlock) e
                e.sel_nfds).2.1).2.1).1
          e
          (check_new_conn
            (check_listening L
              (check_stdin (emit (emit s0 ev_mutex_lock) ev_mutex_unlock) e e.sel_nfds).1 e
              (check_stdin (emit (emit s0 ev_mutex_lock) ev_mutex_unlock) e e.sel_nfds).2.1).1 e
            (check_listening L
              (check_stdin (emit (emit s0 ev_mutex_lock) ev_mutex_unlock) e e.sel_nfds).1 e
              (check_stdin (emit (emit s0 ev_mutex_lock) ev_mutex_unlock) e
                e.sel_nfds).2.1).2.1).2.1) := by
  have h1 : ∀ t : sys_state, handle_remote_input L t i (e.pdus i) = (t, rd.len) := by
    intro t
    unfold handle_remote_input
    rcases hfail with h | h
    · simp [hrd, h]
    · simp [hrd, h]
  have hgate : ∀ t : sys_state,
      contact_at t i = contact_at s i ∨ contact_at t i = empty_contact →
      ∃ r, handle_remote_input L t i (e.pdus i) = (t, r) ∧ (r = -1 ∨ r = 0) :=
    fun t _ => ⟨rd.len, h1 t, hfail⟩
  have h2 : contact_step L e i s nfds =
      (set_contact (emit (emit s (ev_close (contact_at s i).fd))
        (ev_close (contact_at s i).fd)) i empty_contact, nfds - 1) :=
    contact_step_fail L e i s nfds rd.len hi huse hready (h1 s) hfail
  have hloop : ∀ (t : sys_state) (k : Int), t.cnf.cl = s.cnf.cl →
      (((∀ j, j < i → e.rset (contact_at s j).fd = false) ∧ k ≠ 0) ∨
        ((i : Int) < k ∨ k < 0)) →
      contact_at (check_contacts L t e k) i = empty_contact := by
    intro t k ht hdue
    have hat : ∀ j, contact_at (emit t ev_mutex_lock) j = contact_at s j := by
      intro j; simp [contact_at, emit, ht]
    unfold check_contacts
    rw [contact_at_emit]
    apply contact_loop_removes L e i (contact_at s i) huse hready hgate
      t.cnf.cl.length 0 (emit t ev_mutex_lock) k (Nat.zero_le _)
    · show i < t.cnf.cl.length
      rw [ht]; exact hi
    · rw [ht]; omega
    · left; exact hat i
    · rcases hdue with ⟨hidle, hk⟩ | h
      · left
        exact ⟨fun j _ hj => by rw [hat j]; exact hidle j hj, hk⟩
      · right
        simpa using h
  have hexact : ∀ (t : sys_state) (k : Int), t.cnf.cl = s.cnf.cl → k ≠ 0 →
      (∀ j, j < s.cnf.cl.length → j ≠ i → e.rset (contact_at s j).fd = false) →
      (check_contacts L t e k).cnf.cl = s.cnf.cl.set i empty_contact := by
    intro t k ht hk hidle
    have hat : ∀ j, contact_at (emit t ev_mutex_lock) j = contact_at s j := by
      intro j; simp [contact_at, emit, ht]
    have hlen : (emit t ev_mutex_lock).cnf.cl.length = s.cnf.cl.length := by
      simp [emit, ht]
    unfold check_contacts
    have hl : t.cnf.cl.length = (emit t ev_mutex_lock).cnf.cl.length := rfl
    rw [hl, contact_loop_only L e i (emit t ev_mutex_lock) k rd.len (by rw [hlen]; exact hi)
      (by rw [hat i]; exact huse) (by rw [hat i]; exact hready) (h1 _) hfail hk
      (fun j hj hne => by rw [hat j]; exact hidle j (by rw [← hlen]; exact hj) hne)]
    simp [emit, set_contact, ht]
  have hother : ∀ (t : sys_state), t.cnf.cl = s.cnf.cl.set i empty_contact →
      ∀ m, m ≠ i → contact_at t m = contact_at s m := by
    intro t ht m hm
    simp [contact_at, ht, List.getD_eq_getElem?_getD, List.getElem?_set_ne (Ne.symm hm)]
  refine ⟨?_, ?_, ?_, ?_, ?_, hloop s nfds rfl, ?_, ?_, ?_⟩
  · have h := h1 s
    rw [hrd] at h
    exact h
  · rw [h2]; rfl
  · rw [h2]; exact contact_at_set_contact_same _ i empty_contact hi
  · intro m hm
    rw [h2]
    exact contact_at_set_contact_other _ i m empty_contact (Ne.symm hm)
  · intro fuel hnf
    have hc : nfds ≠ 0 ∧ i < s.cnf.cl.length := ⟨hnf, hi⟩
    conv_lhs => unfold contact_loop
    simp only [if_pos hc]
    rw [h2]
  · intro hk hidle
    exact ⟨hexact s nfds rfl hk hidle, hother _ (hexact s nfds rfl hk hidle)⟩
  · intro a b c hdue
    have hit : th_main_loop_iter L s e =
        (check_contacts L (emit (emit s ev_mutex_lock) ev_mutex_unlock) e e.sel_nfds, next) := by
      unfold th_main_loop_iter check_stdin check_listening check_new_conn
      simp [emit, a, b, c]
    rw [hit]
    exact ⟨rfl, hloop _ _ rfl hdue, fun hk hidle =>
      ⟨hexact _ _ rfl hk hidle, hother _ (hexact _ _ rfl hk hidle)⟩⟩
  · intro s0 a b c
    unfold th_main_loop_iter
    simp [a, b, c]

/-- C8, witness: bob's connection reaches EOF while a second contact stays; the
iteration of `th_main_loop` goes on with bob's slot zeroed and the other
contact kept. -/
theorem C8_eof_or_error_removes_contact_witness :
    handle_remote_input ex_limits (ex_conf [ex_new, ex_bob]) 1 ⟨0, ex_pdu CT_TXT_PLAIN⟩
      = (ex_conf [ex_new, ex_bob], 0) ∧
    (contact_step ex_limits (ex_env [11] ⟨0, ex_pdu CT_TXT_PLAIN⟩) 1
      (ex_conf [ex_new, ex_bob]) 1).1.cnf.cl = [ex_new, empty_contact] ∧
    (check_contacts ex_limits (ex_conf [ex_new, ex_bob])
      (ex_env [11] ⟨0, ex_pdu CT_TXT_PLAIN⟩) 1).cnf.cl = [ex_new, empty_contact] ∧
    (th_main_loop_iter ex_limits (ex_conf [ex_new, ex_bob])
      (ex_env [11] ⟨0, ex_pdu CT_TXT_PLAIN⟩)).2 = next ∧
    (th_main_loop_iter ex_limits (ex_conf [ex_new, ex_bob])
      (ex_env [11] ⟨0, ex_pdu CT_TXT_PLAIN⟩)).1.cnf.cl = [ex_new, empty_contact] :=
  have h := C8_eof_or_error_removes_contact ex_limits (ex_conf [ex_new, ex_bob]) 1
    ⟨0, ex_pdu CT_TXT_PLAIN⟩ (ex_env [11] ⟨0, ex_pdu CT_TXT_PLAIN⟩) 1
    (by decide) (by decide) (by decide) rfl (Or.inr rfl)
  have hidle : ∀ j, j < (ex_conf [ex_new, ex_bob]).cnf.cl.length → j ≠ 1 →
      (ex_env [11] ⟨0, ex_pdu CT_TXT_PLAIN⟩).rset (contact_at (ex_conf [ex_new, ex_bob]) j).fd
        = false := by decide
  have hit := h.2.2.2.2.2.2.2.1 (by decide) (by decide) (by decide)
    (Or.inl ⟨by decide, by decide⟩)
  ⟨h.1, h.2.1, (h.2.2.2.2.2.2.1 (by decide) hidle).1, hit.1, (hit.2.2 (by decide) hidle).1⟩

/-- C9, as stated, fails: a line that the interpreter declines is also written
to a contact that has not identified. With one freshly accepted contact on
descriptor 10 in the list, the text PDU goes to descriptor 10. -/
theorem C9_broadcast_counterexample :
    unidentified ex_new ∧
    (handle_local_input (ex_conf [ex_new]) ['h', 'i']
        { parse_ret := -1, len0 := 0, init_ret := 0, write_ret := fun _ => 0 }).1.trace
      = [ev_write_pdu 10
          { content_type := CT_TXT_PLAIN, onion_id := ['m', 'm', 'm', 'm'], lport := 7777,
            nickname := ['m', 'e'], content_length := 2, content := ['h', 'i'] }] := by
  decide

/-- C9, amended. For a line that the command interpreter declines (`parse_cmd`
returns neither 0 nor 1), when the test `len != 0` passes and `init_dchat_pdu`
succeeds, `handle_local_input` leaves the configuration as it is and appends to
the trace exactly one `write_pdu` per occupied slot (`fd != 0`), in list
order, identified or not, each with the one Text/Plain PDU whose sender fields
are the local onion id, port and nickname and whose body is the line. -/
theorem C9_broadcast_to_open_contacts (s : sys_state) (line : cstr) (li : local_input_env)
    (hdecl : li.parse_ret ≠ 0 ∧ li.parse_ret ≠ 1)
    (hlen : li.len0 + (line.length : Int) ≠ 0)
    (hinit : li.init_ret ≠ -1) :
    (handle_local_input s line li).1.cnf = s.cnf ∧
    (handle_local_input s line li).1.trace = s.trace ++ broadcast_events
      { content_type := CT_TXT_PLAIN, onion_id := s.cnf.me.onion_id, lport := s.cnf.me.lport,
        nickname := s.cnf.me.name, content_length := line.length, content := line } s.cnf.cl ∧
    (∀ c ∈ s.cnf.cl, in_use c →
      ev_write_pdu c.fd
        { content_type := CT_TXT_PLAIN, onion_id := s.cnf.me.onion_id, lport := s.cnf.me.lport,
          nickname := s.cnf.me.name, content_length := line.length, content := line }
        ∈ (handle_local_input s line li).1.trace) := by
  have hp : ¬ (li.parse_ret = 0 ∨ li.parse_ret = 1) := by
    rintro (h | h)
    · exact hdecl.1 h
    · exact hdecl.2 h
  have hst : (handle_local_input s line li).1 =
      sys_state.mk s.cnf (s.trace ++ broadcast_events
        { content_type := CT_TXT_PLAIN, onion_id := s.cnf.me.onion_id, lport := s.cnf.me.lport,
          nickname := s.cnf.me.name, content_length := line.length, content := line }
        s.cnf.cl) := by
    unfold handle_local_input
    rw [if_neg hp]
    simp only [if_pos hlen, if_neg hinit, write_loop_state, init_dchat_pdu, List.take_length]
  refine ⟨by rw [hst], by rw [hst], ?_⟩
  intro c hc huse
  rw [hst]
  apply List.mem_append_right
  unfold broadcast_events
  refine List.mem_map.mpr ⟨c, ?_, rfl⟩
  exact List.mem_filter.mpr ⟨hc, decide_eq_true huse⟩

/-- C9, witness: one unidentified and one identified contact both get the line. -/
theorem C9_broadcast_to_open_contacts_witness :
    (handle_local_input (ex_conf [ex_new, ex_bob]) ['h', 'i']
        { parse_ret := -1, len0 := 0, init_ret := 0, write_ret := fun _ => 0 }).1.trace
      = [] ++ broadcast_events
          { content_type := CT_TXT_PLAIN, onion_id := ['m', 'm', 'm', 'm'], lport := 7777,
            nickname := ['m', 'e'], content_length := 2, content := ['h', 'i'] }
          [ex_new, ex_bob] :=
  (C9_broadcast_to_open_contacts (ex_conf [ex_new, ex_bob]) ['h', 'i']
    { parse_ret := -1, len0 := 0, init_ret := 0, write_ret := fun _ => 0 }
    (by decide) (by decide) (by decide)).2.1

/-- C10, as stated, fails: with bob as the only contact, a local line whose
`write_pdu` to bob fails makes `handle_local_input` return `-1`, and the
iteration of `th_main_loop` ends in `break`. -/
theorem C10_write_failure_counterexample :
    (handle_local_input (ex_conf [ex_bob]) ['h', 'i']
      { parse_ret := -1, len0 := 0, init_ret := 0, write_ret := fun _ => -1 }).2 = -1 ∧
    (th_main_loop_iter ex_limits (ex_conf [ex_bob])
      { ex_env [4] ⟨0, ex_pdu CT_TXT_PLAIN⟩ with
        li := { parse_ret := -1, len0 := 0, init_ret := 0, write_ret := fun _ => -1 } }).2
      = leave := by
  decide

/-- C10, amended. Whether an iteration of `th_main_loop` ends in `break` does
not depend on the results of `read_pdu` on the contacts: a failed read never
unwinds the loop. A failed `write_pdu` during a broadcast is ignored unless it
is the last write of the broadcast: when `init_dchat_pdu` succeeds and the
write to the highest occupied slot does not fail, the local-input block takes
a `break` only if one of its two reads on the `user_input` pipe fails or
delivers a length that is not positive. -/
theorem C10_read_errors_contained (L : limits) (s : sys_state) (e : loop_env)
    (pdus : Nat → read_result)
    (hinit : e.li.init_ret ≠ -1)
    (hlast : ∀ j, last_in_use 0 s.cnf.cl = some j → e.li.write_ret j ≠ -1) :
    (th_main_loop_iter L s { e with pdus := pdus }).2 = (th_main_loop_iter L s e).2 ∧
    ((check_stdin (emit (emit s ev_mutex_lock) ev_mutex_unlock) e e.sel_nfds).2.2 = leave ↔
      e.rset s.cnf.user_input_rd = true ∧
        (e.ui_len_read < 0 ∨ e.ui_line_read < 0 ∨ e.ui_len ≤ 0)) := by
  constructor
  · have h1 : ∀ s0 n, check_stdin s0 { e with pdus := pdus } n = check_stdin s0 e n :=
      fun _ _ => rfl
    have h2 : ∀ s0 n, check_listening L s0 { e with pdus := pdus } n = check_listening L s0 e n :=
      fun _ _ => rfl
    have h3 : ∀ s0 n, check_new_conn s0 { e with pdus := pdus } n = check_new_conn s0 e n :=
      fun _ _ => rfl
    unfold th_main_loop_iter
    simp only [h1, h2, h3]
    split_ifs <;> rfl
  · have hz := handle_local_input_ret_zero
      (emit (emit (emit s ev_mutex_lock) ev_mutex_unlock) ev_mutex_lock)
      (c_string (e.ui_bytes.take e.ui_len.toNat)) e.li hinit hlast
    unfold check_stdin
    by_cases hr : e.rset (emit (emit s ev_mutex_lock) ev_mutex_unlock).cnf.user_input_rd = true
    · have hr' : e.rset s.cnf.user_input_rd = true := hr
      rw [if_pos hr]
      by_cases ha : e.ui_len_read < 0
      · simp [ha, hr']
      · rw [if_neg ha]
        by_cases hb : e.ui_line_read < 0 ∨ e.ui_len ≤ 0
        · rw [if_pos hb]
          simp [hr', hb]
        · rw [if_neg hb]
          simp only [hz]
          simp [ha, hr']
          omega
    · have hr' : ¬ e.rset s.cnf.user_input_rd = true := hr
      rw [if_neg hr]
      simp [hr']

/-- C10, witness: the write to the first of two contacts fails, the one to the
last succeeds. -/
theorem C10_read_errors_contained_witness :
    (th_main_loop_iter ex_limits (ex_conf [ex_new, ex_bob])
      { ex_env [4, 11] ⟨5, ex_pdu CT_TXT_PLAIN⟩ with
        li := { parse_ret := -1, len0 := 0, init_ret := 0,
                write_ret := fun j => if j = 0 then -1 else 0 },
        pdus := fun _ => ⟨-1, ex_pdu CT_TXT_PLAIN⟩ }).2
      = (th_main_loop_iter ex_limits (ex_conf [ex_new, ex_bob])
      { ex_env [4, 11] ⟨5, ex_pdu CT_TXT_PLAIN⟩ with
        li := { parse_ret := -1, len0 := 0, init_ret := 0,
                write_ret := fun j => if j = 0 then -1 else 0 } }).2 :=
  (C10_read_errors_contained ex_limits (ex_conf [ex_new, ex_bob])
    { ex_env [4, 11] ⟨5, ex_pdu CT_TXT_PLAIN⟩ with
      li := { parse_ret := -1, len0 := 0, init_ret := 0,
              write_ret := fun j => if j = 0 then -1 else 0 } }
    (fun _ => ⟨-1, ex_pdu CT_TXT_PLAIN⟩) (by decide) (by decide)).1

/-- C11, evaluated at the failing inputs. Bob (descriptor 11, slot 0) is
readable. On EOF the loop body of `th_main_loop` closes descriptor 11 and
`del_contact` closes it again. On a Control/Discover with another Onion-ID
`handle_remote_input` has already deleted the contact, so the loop body closes
the descriptor of the zeroed slot, descriptor 0, which is not bob's. -/
theorem C11_close_events_on_removal :
    (contact_step ex_limits (ex_env [11] ⟨0, ex_pdu CT_TXT_PLAIN⟩) 0 (ex_conf [ex_bob]) 1).1.trace
      = [ev_close 11, ev_close 11] ∧
    (contact_step ex_limits
      (ex_env [11] ⟨5, { ex_disc with onion_id := ['c', 'c', 'c', 'c'] }⟩) 0
      (ex_conf [ex_bob]) 1).1.trace
      = [ev_close 11, ev_close 0] := by
  decide

/-- C12, evaluated at the failing input. With a full contact list (one slot
allowed, occupied by bob) a connection accepted on descriptor 12 makes
`handle_remote_conn_request` return `-1` with the state, trace included, as it
was: no `close` of descriptor 12 is issued. -/
theorem C12_full_list_leaves_stream_open :
    handle_remote_conn_request { ex_limits with MAX_CONTACTS := 1 } (ex_conf [ex_bob]) 12
      = (ex_conf [ex_bob], -1) ∧
    ev_close 12 ∉ (handle_remote_conn_request { ex_limits with MAX_CONTACTS := 1 }
      (ex_conf [ex_bob]) 12).1.trace := by
  decide

/-- C13, as stated, fails: the listening socket (descriptor 3) is readable and
`accept` fails; the iteration of `th_main_loop` ends in `break`, and the last
thing it did to the mutex was to lock it. -/
theorem C13_accept_failure_counterexample :
    (handle_remote_conn_request ex_limits (ex_conf []) (-1)).2 = -1 ∧
    th_main_loop_iter ex_limits (ex_conf [])
      { ex_env [3] ⟨0, ex_pdu CT_TXT_PLAIN⟩ with accept_ret := -1 }
      = ({ ex_conf [] with trace := [ev_mutex_lock, ev_mutex_unlock, ev_mutex_lock] },
          leave) := by
  decide

/-- C13, amended. When the listening socket is readable and
`handle_remote_conn_request` returns `-1` (in particular when `accept` fails),
the iteration of `th_main_loop` takes the `break` of dchat.c 1070-1073: the
failure ends the loop, it is not retried. Only when
`handle_remote_conn_request` returns an index is the mutex released and the
iteration continued. -/
theorem C13_listening_failure_leaves_loop (L : limits) (s : sys_state) (e : loop_env)
    (hstdin : (check_stdin (emit (emit s ev_mutex_lock) ev_mutex_unlock) e e.sel_nfds).2.2
      = next)
    (hready : e.rset
      (check_stdin (emit (emit s ev_mutex_lock) ev_mutex_unlock) e e.sel_nfds).1.cnf.acpt_fd
      = true) :
    ((handle_remote_conn_request L
        (emit (check_stdin (emit (emit s ev_mutex_lock) ev_mutex_unlock) e e.sel_nfds).1
          ev_mutex_lock) e.accept_ret).2 = -1 →
      (th_main_loop_iter L s e).2 = leave) ∧
    (e.accept_ret = -1 → (th_main_loop_iter L s e).2 = leave) ∧
    ((handle_remote_conn_request L
        (emit (check_stdin (emit (emit s ev_mutex_lock) ev_mutex_unlock) e e.sel_nfds).1
          ev_mutex_lock) e.accept_ret).2 ≠ -1 →
      check_listening L
        (check_stdin (emit (emit s ev_mutex_lock) ev_mutex_unlock) e e.sel_nfds).1 e
        (check_stdin (emit (emit s ev_mutex_lock) ev_mutex_unlock) e e.sel_nfds).2.1
      = (emit (handle_remote_conn_request L
          (emit (check_stdin (emit (emit s ev_mutex_lock) ev_mutex_unlock) e e.sel_nfds).1
            ev_mutex_lock) e.accept_ret).1 ev_mutex_unlock,
        (check_stdin (emit (emit s ev_mutex_lock) ev_mutex_unlock) e e.sel_nfds).2.1 - 1,
        next)) := by
  have hleave : (handle_remote_conn_request L
        (emit (check_stdin (emit (emit s ev_mutex_lock) ev_mutex_unlock) e e.sel_nfds).1
          ev_mutex_lock) e.accept_ret).2 = -1 →
      (th_main_loop_iter L s e).2 = leave := by
    intro hfail
    unfold th_main_loop_iter
    simp only [hstdin]
    have hl : (check_listening L
        (check_stdin (emit (emit s ev_mutex_lock) ev_mutex_unlock) e e.sel_nfds).1 e
        (check_stdin (emit (emit s ev_mutex_lock) ev_mutex_unlock) e e.sel_nfds).2.1).2.2
        = leave := by
      unfold check_listening
      simp only [hready, if_true, hfail]
    simp [hl]
  refine ⟨hleave, ?_, ?_⟩
  · intro hacc
    apply hleave
    unfold handle_remote_conn_request
    simp [hacc]
  · intro hok
    unfold check_listening
    simp only [hready, if_true, if_neg hok]

/-- C13, witness: `accept` fails while the listening socket is the only
readable descriptor. -/
theorem C13_listening_failure_leaves_loop_witness :
    (th_main_loop_iter ex_limits (ex_conf [ex_bob])
      { ex_env [3] ⟨0, ex_pdu CT_TXT_PLAIN⟩ with accept_ret := -1 }).2 = leave :=
  (C13_listening_failure_leaves_loop ex_limits (ex_conf [ex_bob])
    { ex_env [3] ⟨0, ex_pdu CT_TXT_PLAIN⟩ with accept_ret := -1 }
    (by decide) (by decide)).2.1 rfl

/-- C14. Input-shuttle framing. When no `write` on the pipe fails, for every
non-empty line shorter than `2^31` bytes that is not `/exit`, `th_new_input`
appends to the `user_input` pipe the four bytes of the line length as an `int`
followed by exactly the bytes of the line and nothing else: when the line is
the last one before EOF or `/exit`, the pipe holds what it held before, then
these bytes, and the shuttle returns 0; whatever lines follow, the pipe holds
what it held before, then these bytes, then what the following lines add. For
an empty line the record is the `int` 1 and the one byte 10 (line feed). The
shuttle goes on with the next line, and the four length bytes read back as an
`int` give the length. -/
theorem C14_shuttle_framing (wr : Nat → Int) (line : cstr) (rest : List cstr)
    (pipe : List Nat) (k : Nat) (hw : ∀ j, wr j ≠ -1)
    (hne : line ≠ exit_cmd) (hlen : line.length < 2147483648) :
    (line ≠ [] →
      th_new_input wr [line] pipe k
        = (pipe ++ int_bytes (line.length : Int) ++ line_bytes line, 0) ∧
      th_new_input wr (line :: exit_cmd :: rest) pipe k
        = (pipe ++ int_bytes (line.length : Int) ++ line_bytes line, 0) ∧
      ∃ more, (th_new_input wr (line :: rest) pipe k).1
        = pipe ++ int_bytes (line.length : Int) ++ line_bytes line ++ more) ∧
    (line = [] →
      th_new_input wr [line] pipe k = (pipe ++ int_bytes 1 ++ [10], 0) ∧
      th_new_input wr (line :: exit_cmd :: rest) pipe k = (pipe ++ int_bytes 1 ++ [10], 0) ∧
      ∃ more, (th_new_input wr (line :: rest) pipe k).1
        = pipe ++ int_bytes 1 ++ [10] ++ more) ∧
    (line ≠ [] →
      th_new_input wr (line :: rest) pipe k
        = th_new_input wr rest
            (pipe ++ int_bytes (line.length : Int) ++ line_bytes line) (k + 2)) ∧
    (line = [] →
      th_new_input wr (line :: rest) pipe k
        = th_new_input wr rest (pipe ++ int_bytes 1 ++ [10]) (k + 2)) ∧
    (int_bytes (line.length : Int)).length = SIZEOF_INT ∧
    bytes_int (int_bytes (line.length : Int)) = (line.length : Int) ∧
    (line_bytes line).length = line.length := by
  have hstep : ∀ rest, th_new_input wr (line :: rest) pipe k
      = th_new_input wr rest (pipe ++ frame line) (k + 2) :=
    fun rest => th_new_input_step wr line rest pipe k (hw _) (hw _) hne hlen
  have hlast : th_new_input wr [line] pipe k = (pipe ++ frame line, 0) := by
    rw [hstep]; simp [th_new_input]
  have hexit : th_new_input wr (line :: exit_cmd :: rest) pipe k = (pipe ++ frame line, 0) := by
    rw [hstep]; simp [th_new_input]
  have hmore : ∃ more, (th_new_input wr (line :: rest) pipe k).1
      = pipe ++ frame line ++ more := by
    rw [hstep]
    exact th_new_input_extends wr rest (pipe ++ frame line) (k + 2)
  have hf1 : line ≠ [] → pipe ++ frame line
      = pipe ++ int_bytes (line.length : Int) ++ line_bytes line := by
    intro he
    simp only [frame, if_neg he, List.append_assoc]
  have hf2 : line = [] → pipe ++ frame line = pipe ++ int_bytes 1 ++ [10] := by
    intro he
    simp only [frame, if_pos he, List.append_assoc]
  refine ⟨?_, ?_, ?_, ?_, rfl, bytes_int_int_bytes _ (by omega) (by omega),
    by simp [line_bytes]⟩
  · intro he
    rw [← hf1 he]
    exact ⟨hlast, hexit, hmore⟩
  · intro he
    rw [← hf2 he]
    exact ⟨hlast, hexit, hmore⟩
  · intro he
    rw [hstep, hf1 he]
  · intro he
    rw [hstep, hf2 he]

/-- C14, witness: the line `hi` goes out as the bytes 2 0 0 0 104 105, behind
the byte 7 that the pipe held, and the empty line as 1 0 0 0 10. -/
theorem C14_shuttle_framing_witness :
    th_new_input (fun _ => 1) [['h', 'i']] [7] 0 = ([7, 2, 0, 0, 0, 104, 105], 0) ∧
    th_new_input (fun _ => 1) [[]] [7] 0 = ([7, 1, 0, 0, 0, 10], 0) :=
  ⟨((C14_shuttle_framing (fun _ => 1) ['h', 'i'] [] [7] 0
      (by intro j; show (1 : Int) ≠ -1; decide) (by decide) (by decide)).1 (by decide)).1,
   ((C14_shuttle_framing (fun _ => 1) [] [] [7] 0
      (by intro j; show (1 : Int) ≠ -1; decide) (by decide) (by decide)).2.1 rfl).1⟩

/-- C16. Shuttle termination and exit status. With no `write` failing,
`th_new_input` stops at the first `readline` result that is EOF or is exactly
`/exit`: the pipe holds the records of the lines before it and nothing of
`/exit` or of the lines after it, and the return value is 0; `main` then calls
`destroy` and exits with `EXIT_SUCCESS`, which is 0. A line that has something
before or after `/exit` is not the exit command and is forwarded as its
record. -/
theorem C16_shuttle_termination (wr : Nat → Int) (lines rest : List cstr) (s : sys_state)
    (hw : ∀ j, wr j ≠ -1) (hl : ∀ l ∈ lines, forwardable l) :
    th_new_input wr (lines ++ exit_cmd :: rest) [] 0 = (frames lines, 0) ∧
    th_new_input wr lines [] 0 = (frames lines, 0) ∧
    main_shuttle wr (lines ++ exit_cmd :: rest) s = (frames lines, emit s ev_destroy, 0) ∧
    main_shuttle wr lines s = (frames lines, emit s ev_destroy, 0) ∧
    EXIT_SUCCESS = 0 ∧
    (∀ (pre suf : cstr) (more : List cstr) (pipe : List Nat) (k : Nat),
      pre ≠ [] ∨ suf ≠ [] → (pre ++ exit_cmd ++ suf).length < 2147483648 →
      th_new_input wr ((pre ++ exit_cmd ++ suf) :: more) pipe k
        = th_new_input wr more (pipe ++ frame (pre ++ exit_cmd ++ suf)) (k + 2)) := by
  have h1 : th_new_input wr (lines ++ exit_cmd :: rest) [] 0 = (frames lines, 0) := by
    rw [th_new_input_frames wr hw lines hl (exit_cmd :: rest) [] 0]
    simp [th_new_input]
  have h2 : th_new_input wr lines [] 0 = (frames lines, 0) := by
    have := th_new_input_frames wr hw lines hl [] [] 0
    rw [List.append_nil] at this
    rw [this]
    simp [th_new_input]
  refine ⟨h1, h2, ?_, ?_, rfl, ?_⟩
  · simp [main_shuttle, h1, EXIT_SUCCESS]
  · simp [main_shuttle, h2, EXIT_SUCCESS]
  · intro pre suf more pipe k hps hlen
    have hne : pre ++ exit_cmd ++ suf ≠ exit_cmd := by
      intro h
      have hlen' := congrArg List.length h
      simp only [List.length_append] at hlen'
      rcases hps with hp | hs
      · exact hp (List.length_eq_zero.mp (by omega))
      · exact hs (List.length_eq_zero.mp (by omega))
    exact th_new_input_step wr _ more pipe k (hw _) (hw _) hne hlen

/-- C16, witness: `hi`, then `/exit`, then a line that is never forwarded. -/
theorem C16_shuttle_termination_witness :
    th_new_input (fun _ => 1) ([['h', 'i']] ++ exit_cmd :: [['x']]) [] 0
      = (frames [['h', 'i']], 0) :=
  (C16_shuttle_termination (fun _ => 1) [['h', 'i']] [['x']] (ex_conf [])
    (by intro j; show (1 : Int) ≠ -1; decide)
    (by
      intro l hmem
      rcases List.mem_cons.mp hmem with h | h
      · subst h; exact ⟨by decide, by decide, by decide⟩
      · cases h)).1

/-- C17, as stated, fails twice. With the option `-s` given two times and no
`-n`, the counter `required` reaches 2 and `main` calls `init` with no nickname.
With the help option as the only argument, both mandatory options are missing
and `main` ends through `usage` with `EXIT_SUCCESS`, which is 0, and the empty
message. -/
theorem C17_mandatory_options_counterexample :
    main_until_init ex_cli [CLI_OPT_LONION ['m', 'm', 'm', 'm'], CLI_OPT_LONION ['m', 'm', 'm', 'm']]
        false true
      = main_result.init
          { local_onion := some ['m', 'm', 'm', 'm'], lport := 7777, nickname := none,
            remote_onion := none, rport := -1, required := 2 } ∧
    main_until_init ex_cli [CLI_OPT_HELP] false true
      = main_result.usage 0 usage_msg.help := by
  decide

/-- C17, amended. For every argument vector in which neither `-s` nor `-n` is
given more than once: `main` reaches `init` only if both were supplied (and
then both variables are set); and when the option loop runs to its end and one
of the two is missing, `main` ends through `usage` with `EXIT_FAILURE`, which is
not zero, and the message "Missing mandatory command-line options!". -/
theorem C17_mandatory_options (env : cli_env) (opts : List cli_opt) (extra_args inet_ok : Bool)
    (hs : count_lonion opts ≤ 1) (hn : count_nick opts ≤ 1) :
    (∀ v, main_until_init env opts extra_args inet_ok = main_result.init v →
      count_lonion opts = 1 ∧ count_nick opts = 1 ∧
      v.local_onion ≠ none ∧ v.nickname ≠ none) ∧
    (∀ v, main_options env opts (main_vars_init env) = .ok v →
      count_lonion opts = 0 ∨ count_nick opts = 0 →
      main_until_init env opts extra_args inet_ok
        = main_result.usage EXIT_FAILURE usage_msg.missing_mandatory) ∧
    EXIT_FAILURE ≠ 0 ∧
    usage_fmt usage_msg.missing_mandatory = "Missing mandatory command-line options!" := by
  refine ⟨?_, ?_, by decide, rfl⟩
  · intro v h
    unfold main_until_init at h
    cases hm : main_options env opts (main_vars_init env) with
    | error e =>
      rw [hm] at h
      cases h
    | ok w =>
      rw [hm] at h
      obtain ⟨h1, h2, h3⟩ := main_options_ok env opts _ w hm
      simp only [main_vars_init] at h1
      by_cases hr : w.required < 2
      · simp [hr] at h
      · have hc1 : count_lonion opts = 1 := by omega
        have hc2 : count_nick opts = 1 := by omega
        simp only [if_neg hr] at h
        split at h
        · cases h
        · split at h
          · cases h
          · injection h with h
            subst h
            exact ⟨hc1, hc2, h2 (Or.inr (by omega)), h3 (Or.inr (by omega))⟩
  · intro v hm hmiss
    obtain ⟨h1, _, _⟩ := main_options_ok env opts _ v hm
    simp only [main_vars_init] at h1
    have hr : v.required < 2 := by omega
    unfold main_until_init
    rw [hm]
    simp [hr]

/-- C17, witness: only `-s` is given. -/
theorem C17_mandatory_options_witness :
    main_until_init ex_cli [CLI_OPT_LONION ['m', 'm', 'm', 'm']] false true
      = main_result.usage EXIT_FAILURE usage_msg.missing_mandatory :=
  (C17_mandatory_options ex_cli [CLI_OPT_LONION ['m', 'm', 'm', 'm']] false true
    (by decide) (by decide)).2.1
    { local_onion := some ['m', 'm', 'm', 'm'], lport := 7777, nickname := none,
      remote_onion := none, rport := -1, required := 1 }
    rfl (Or.inr (by decide))

/-- C18, as stated, fails: bob sends a Text/Plain PDU whose three body bytes
are `a`, NUL, `b`. The body is copied and printed as a C string, so the sink
receives `bob;a` and a line feed, not the three bytes of the body. -/
theorem C18_text_rendering_counterexample :
    sink_output 1 (handle_remote_input ex_limits (ex_conf [ex_bob]) 0
      ⟨5, { ex_pdu CT_TXT_PLAIN with
            content_length := 3, content := ['a', Char.ofNat 0, 'b'] }⟩).1.trace
      = ['b', 'o', 'b', ';', 'a', Char.ofNat 10] := by
  decide

/-- C18, amended. For a Text/Plain PDU read with positive length from an
identified contact, `handle_remote_input` leaves the configuration, hence the
contact, as it is, returns that length, and the output sink receives exactly
the nickname of the PDU, `;`, the bytes of the body up to its first NUL byte,
and one line feed; these are all `content_length` bytes of the body when the
body holds no NUL byte, and none when the body is empty. -/
theorem C18_text_rendering (L : limits) (s : sys_state) (n : Nat) (rd : read_result)
    (huse : in_use (contact_at s n)) (hid : identified (contact_at s n))
    (hlen : 0 < rd.len) (hct : rd.pdu.content_type = CT_TXT_PLAIN)
    (hbody : rd.pdu.content.length = rd.pdu.content_length) :
    (handle_remote_input L s n rd).1.cnf = s.cnf ∧
    in_use (contact_at (handle_remote_input L s n rd).1 n) ∧
    (handle_remote_input L s n rd).2 = rd.len ∧ 0 < (handle_remote_input L s n rd).2 ∧
    sink_output s.cnf.out_fd (handle_remote_input L s n rd).1.trace
      = sink_output s.cnf.out_fd s.trace
        ++ (rd.pdu.nickname ++ [';'] ++ c_string rd.pdu.content ++ [Char.ofNat 10]) ∧
    ((∀ ch ∈ rd.pdu.content, ch ≠ Char.ofNat 0) → c_string rd.pdu.content = rd.pdu.content) ∧
    (rd.pdu.content = [] → c_string rd.pdu.content = []) := by
  have herr : rd.len ≠ -1 := by omega
  have heof : rd.len ≠ 0 := by omega
  have hgate : ¬ unidentified (contact_at s n) := hid
  have htake : rd.pdu.content.take rd.pdu.content_length = rd.pdu.content := by
    rw [← hbody, List.take_length]
  have hr : handle_remote_input L s n rd =
      (emit s (ev_print_dchat_msg rd.pdu.nickname (c_string rd.pdu.content) s.cnf.out_fd),
        rd.len) := by
    unfold handle_remote_input
    simp [herr, heof, hgate, hct, htake]
  rw [hr]
  refine ⟨rfl, huse, rfl, hlen, ?_, c_string_of_no_nul _, ?_⟩
  · simp only [emit, sink_output_append, sink_output, if_true, ui_write, List.append_nil]
  · intro h
    rw [h]
    rfl

/-- C18, witness: bob sends `hi`. -/
theorem C18_text_rendering_witness :
    sink_output 1 (handle_remote_input ex_limits (ex_conf [ex_bob]) 0
      ⟨5, ex_pdu CT_TXT_PLAIN⟩).1.trace
      = sink_output 1 [] ++ (['b', 'o', 'b'] ++ [';'] ++ c_string ['h', 'i'] ++ [Char.ofNat 10]) :=
  (C18_text_rendering ex_limits (ex_conf [ex_bob]) 0 ⟨5, ex_pdu CT_TXT_PLAIN⟩
    (by decide) (by decide) (by decide) rfl rfl).2.2.2.2.1

/-- C20. Dialer wake signal. For a request that `th_new_conn` has read from the
connect pipe (neither `read` returned 0), `handle_local_conn_request` is called
once under the mutex. When it succeeds, `th_new_conn` has, at the EOF after the
request, added to the trace exactly: the lock, the contact list sent to the new
contact, one byte `1` written to the `cl_change` pipe, the unlock; the number
of writes to `cl_change` has grown by one. When it fails, `th_new_conn` has
added the lock and the unlock only, and nothing is written to `cl_change`. In
both cases the loop goes on with the next request from the state so reached,
the request is not taken up again. -/
theorem C20_dialer_wake_signal (L : limits) (r : conn_request) (rest : List conn_request)
    (s : sys_state) (h1 : r.onion_read ≠ 0) (h2 : r.port_read ≠ 0) :
    ((handle_local_conn_request L (emit s ev_mutex_lock) r.onion_id r.port r.sock).2 ≠ -1 →
      th_new_conn L [r] s
        = emit (emit
            (handle_local_conn_request L (emit s ev_mutex_lock) r.onion_id r.port r.sock).1
            (ev_write_cl_change '1')) ev_mutex_unlock ∧
      (∃ n : Nat,
        (handle_local_conn_request L (emit s ev_mutex_lock) r.onion_id r.port r.sock).2 = n ∧
        (th_new_conn L [r] s).trace
          = s.trace ++ [ev_mutex_lock, ev_send_contacts n, ev_write_cl_change '1',
              ev_mutex_unlock]) ∧
      wake_count (th_new_conn L [r] s).trace = wake_count s.trace + 1 ∧
      th_new_conn L (r :: rest) s
        = th_new_conn L rest
            (emit (emit
              (handle_local_conn_request L (emit s ev_mutex_lock) r.onion_id r.port r.sock).1
              (ev_write_cl_change '1')) ev_mutex_unlock)) ∧
    ((handle_local_conn_request L (emit s ev_mutex_lock) r.onion_id r.port r.sock).2 = -1 →
      th_new_conn L [r] s = emit (emit s ev_mutex_lock) ev_mutex_unlock ∧
      (th_new_conn L [r] s).trace = s.trace ++ [ev_mutex_lock, ev_mutex_unlock] ∧
      (th_new_conn L [r] s).cnf = s.cnf ∧
      wake_count (th_new_conn L [r] s).trace = wake_count s.trace ∧
      th_new_conn L (r :: rest) s
        = th_new_conn L rest (emit (emit s ev_mutex_lock) ev_mutex_unlock)) ∧
    th_new_conn L (r :: rest) s = th_new_conn L rest (th_new_conn L [r] s) := by
  have hstep : ∀ rest, th_new_conn L (r :: rest) s =
      th_new_conn L rest
        (emit (if (handle_local_conn_request L (emit s ev_mutex_lock) r.onion_id r.port
            r.sock).2 = -1
          then (handle_local_conn_request L (emit s ev_mutex_lock) r.onion_id r.port r.sock).1
          else emit
            (handle_local_conn_request L (emit s ev_mutex_lock) r.onion_id r.port r.sock).1
            (ev_write_cl_change '1')) ev_mutex_unlock) := by
    intro rest
    conv_lhs => unfold th_new_conn
    simp only [if_neg h1, if_neg h2]
  have hnil : ∀ t : sys_state, th_new_conn L [] t = t := fun t => by simp [th_new_conn]
  refine ⟨?_, ?_, ?_⟩
  · intro hok
    have hone : th_new_conn L [r] s
        = emit (emit
            (handle_local_conn_request L (emit s ev_mutex_lock) r.onion_id r.port r.sock).1
            (ev_write_cl_change '1')) ev_mutex_unlock := by
      rw [hstep, hnil, if_neg hok]
    have hsock : r.sock ≠ -1 := by
      intro hsock
      apply hok
      unfold handle_local_conn_request
      simp [hsock]
    obtain ⟨n, hn, _, htr⟩ :=
      handle_local_conn_request_ok L (emit s ev_mutex_lock) r.onion_id r.port r.sock hsock hok
    have htrace : (th_new_conn L [r] s).trace
        = s.trace ++ [ev_mutex_lock, ev_send_contacts n, ev_write_cl_change '1',
            ev_mutex_unlock] := by
      have hshape : ∀ (x : sys_state) (a b : io_event),
          (emit (emit x a) b).trace = x.trace ++ [a] ++ [b] := fun _ _ _ => rfl
      rw [hone, hshape, htr]
      simp [emit]
    refine ⟨hone, ⟨n, hn, htrace⟩, ?_, ?_⟩
    · rw [htrace]
      simp only [wake_count_append, wake_count]
    · rw [hstep, if_neg hok]
  · intro hfail
    have hst := handle_local_conn_request_fail L (emit s ev_mutex_lock) r.onion_id r.port r.sock
      hfail
    have hone : th_new_conn L [r] s = emit (emit s ev_mutex_lock) ev_mutex_unlock := by
      rw [hstep, hnil, if_pos hfail, hst]
    refine ⟨hone, ?_, ?_, ?_, ?_⟩
    · rw [hone]; simp [emit]
    · rw [hone]; rfl
    · rw [hone]
      simp only [emit, wake_count_append, wake_count]
      omega
    · rw [hstep, if_pos hfail, hst]
  · rw [hstep rest, hstep [], hnil]

/-- C20, witness: a request whose dial succeeds on descriptor 10, then EOF: the
dialer leaves one write of `1` to `cl_change`; and a request whose dial fails:
it leaves none. -/
theorem C20_dialer_wake_signal_witness :
    th_new_conn ex_limits
        [{ onion_read := 4, onion_id := ['b', 'b', 'b', 'b'], port_read := 2, port := 8888,
           sock := 10 }] (ex_conf [])
      = emit (emit
          (handle_local_conn_request ex_limits (emit (ex_conf []) ev_mutex_lock)
            ['b', 'b', 'b', 'b'] 8888 10).1
          (ev_write_cl_change '1')) ev_mutex_unlock ∧
    wake_count (th_new_conn ex_limits
        [{ onion_read := 4, onion_id := ['b', 'b', 'b', 'b'], port_read := 2, port := 8888,
           sock := 10 }] (ex_conf [])).trace = wake_count (ex_conf []).trace + 1 ∧
    (th_new_conn ex_limits
        [{ onion_read := 4, onion_id := ['b', 'b', 'b', 'b'], port_read := 2, port := 8888,
           sock := -1 }] (ex_conf [])).trace = (ex_conf []).trace ++ [ev_mutex_lock, ev_mutex_unlock] :=
  have hok := (C20_dialer_wake_signal ex_limits
    { onion_read := 4, onion_id := ['b', 'b', 'b', 'b'], port_read := 2, port := 8888,
      sock := 10 } [] (ex_conf []) (by decide) (by decide)).1 (by decide)
  have hfail := (C20_dialer_wake_signal ex_limits
    { onion_read := 4, onion_id := ['b', 'b', 'b', 'b'], port_read := 2, port := 8888,
      sock := -1 } [] (ex_conf []) (by decide) (by decide)).2.1 (by decide)
  ⟨hok.1, hok.2.2.1, hfail.2.1⟩

/-- C21. A Text/Plain PDU never changes the contact list. For an identified
contact in slot `n` and any result of `read_pdu` whose PDU is a Text/Plain,
whatever its Nickname, Onion-ID and Listening-Port headers are,
`handle_remote_input` leaves the configuration as it is: every slot of the
contact list, the slot of the sender included, holds the same nickname, onion
id, port, accepted flag and descriptor as before the call. -/
theorem C21_text_plain_keeps_contact_list (L : limits) (s : sys_state) (n : Nat)
    (rd : read_result) (hid : identified (contact_at s n))
    (hct : rd.pdu.content_type = CT_TXT_PLAIN) :
    (handle_remote_input L s n rd).1.cnf = s.cnf ∧
    (handle_remote_input L s n rd).1.cnf.cl = s.cnf.cl ∧
    (∀ m, contact_at (handle_remote_input L s n rd).1 m = contact_at s m) := by
  have hgate : ¬ unidentified (contact_at s n) := hid
  have h : (handle_remote_input L s n rd).1.cnf = s.cnf := by
    unfold handle_remote_input
    by_cases herr : rd.len = -1
    · simp [herr]
    · by_cases heof : rd.len = 0
      · simp [heof]
      · simp [herr, heof, hgate, hct, emit]
  refine ⟨h, by rw [h], ?_⟩
  intro m
  simp only [contact_at, h]

/-- C21, witness: bob sends a text PDU whose headers name another sender. -/
theorem C21_text_plain_keeps_contact_list_witness :
    (handle_remote_input ex_limits (ex_conf [ex_new, ex_bob]) 1
      ⟨5, { ex_pdu CT_TXT_PLAIN with
            nickname := ['e', 'v', 'e'], onion_id := ['e', 'e', 'e', 'e'], lport := 9999 }⟩).1.cnf.cl
      = (ex_conf [ex_new, ex_bob]).cnf.cl :=
  (C21_text_plain_keeps_contact_list ex_limits (ex_conf [ex_new, ex_bob]) 1
    ⟨5, { ex_pdu CT_TXT_PLAIN with
          nickname := ['e', 'v', 'e'], onion_id := ['e', 'e', 'e', 'e'], lport := 9999 }⟩
    (by decide) rfl).2.1

/-- C23. Handled commands are never sent to peers. For a line for which
`parse_cmd` returns 0 or 1, `handle_local_input` returns 0 and leaves the state
as it is, whatever the contact list holds: no PDU is built and the trace gains
no `write_pdu`, so nothing is written to the stream of any contact. -/
theorem C23_handled_command_sends_nothing (s : sys_state) (line : cstr) (li : local_input_env)
    (hcmd : li.parse_ret = 0 ∨ li.parse_ret = 1) :
    handle_local_input s line li = (s, 0) ∧
    (handle_local_input s line li).1.trace = s.trace ∧
    (∀ fd pdu, ev_write_pdu fd pdu ∈ (handle_local_input s line li).1.trace →
      ev_write_pdu fd pdu ∈ s.trace) := by
  have h : handle_local_input s line li = (s, 0) := by
    unfold handle_local_input
    rw [if_pos hcmd]
  refine ⟨h, by rw [h], ?_⟩
  intro fd pdu hmem
  rw [h] at hmem
  exact hmem

/-- C23, witness: a command that `parse_cmd` handles, with two contacts in the
list. -/
theorem C23_handled_command_sends_nothing_witness :
    handle_local_input (ex_conf [ex_new, ex_bob]) ['/', 'l', 'i', 's', 't']
        { parse_ret := 0, len0 := 0, init_ret := 0, write_ret := fun _ => 0 }
      = (ex_conf [ex_new, ex_bob], 0) :=
  (C23_handled_command_sends_nothing (ex_conf [ex_new, ex_bob]) ['/', 'l', 'i', 's', 't']
    { parse_ret := 0, len0 := 0, init_ret := 0, write_ret := fun _ => 0 }
    (Or.inl rfl)).1

/-- C22, evaluated at the failing input. `usage` is called with the log
descriptor 5, exit status 1 and a table of one option. With an empty format
string the process ends with status 1 after the usage text has gone to
standard output only: descriptor 5 has received nothing. With the format `%s`
and the argument `bad`, standard output receives the message line `err;bad`
and then the usage text, while descriptor 5 receives a message line whose text
is whatever the second `vlog_msgf` makes of the used-up `va_list`, and
nothing of the usage text; the process ends with status 1. -/
theorem C22_usage_text_not_on_log_fd :
    (usage ['d', 'c'] 5 1 ex_options [] [] [] proc_start).exited = some 1 ∧
    writes_to 5 (usage ['d', 'c'] 5 1 ex_options [] [] [] proc_start).out = [] ∧
    writes_to 1 (usage ['d', 'c'] 5 1 ex_options [] [] [] proc_start).out
      = [[Char.ofNat 10], [' ', 'd', 'c'], (" -s ONIONID").toList,
         [Char.ofNat 10, Char.ofNat 10], (" Options:").toList ++ [Char.ofNat 10],
         (" -s  Set the onion id.").toList ++ [Char.ofNat 10, Char.ofNat 10],
         (" More detailed information can be found in the man page. See dc(1).").toList
           ++ [Char.ofNat 10]] ∧
    (∀ msg2 : cstr,
      writes_to 5 (usage ['d', 'c'] 5 1 ex_options ['%', 's'] ['b', 'a', 'd'] msg2
          proc_start).out
        = [['e', 'r', 'r', ';'], msg2, [Char.ofNat 10]] ∧
      writes_to 1 (usage ['d', 'c'] 5 1 ex_options ['%', 's'] ['b', 'a', 'd'] msg2
          proc_start).out
        = [['e', 'r', 'r', ';'], ['b', 'a', 'd'], [Char.ofNat 10],
           [Char.ofNat 10], [' ', 'd', 'c'], (" -s ONIONID").toList,
           [Char.ofNat 10, Char.ofNat 10], (" Options:").toList ++ [Char.ofNat 10],
           (" -s  Set the onion id.").toList ++ [Char.ofNat 10, Char.ofNat 10],
           (" More detailed information can be found in the man page. See dc(1).").toList
             ++ [Char.ofNat 10]] ∧
      (usage ['d', 'c'] 5 1 ex_options ['%', 's'] ['b', 'a', 'd'] msg2 proc_start).exited
        = some 1) := by
  refine ⟨by decide, by decide, by decide, ?_⟩
  intro msg2
  rw [usage_second_print_usage_unreached]
  have hv : vlog_msgf 5 LOG_ERR msg2 false []
      (vlog_msgf STDOUT_FILENO LOG_ERR ['b', 'a', 'd'] false [] proc_start)
      = { out := [out_write 1 ['e', 'r', 'r', ';'], out_write 1 ['b', 'a', 'd'],
                  out_write 1 [Char.ofNat 10], out_write 5 ['e', 'r', 'r', ';'],
                  out_write 5 msg2, out_write 5 [Char.ofNat 10]],
          exited := none } := by
    simp [vlog_msgf, dprintf, proc_start, LOG_ERR, level_, flty_, STDOUT_FILENO]
  have hne : (['%', 's'] : cstr).length ≠ 0 := by decide
  rw [if_pos hne, hv]
  refine ⟨?_, ?_, ?_⟩
  · rw [writes_to_print_usage_other _ 5 STDOUT_FILENO _ _ _ (by decide)]
    simp [writes_to]
  · simp [print_usage, print_synopsis, print_descriptions, dprintf, libc_exit, writes_to,
      ex_options, synopsis_piece, STDOUT_FILENO]
  · exact print_usage_exits _ _ _ _ _ rfl

end DChat
